import Mathlib

/-!
# Reactor core of the daemon (`daemon/util.c`)

Shallow embedding of the descriptor registry (`add_fd`, `del_fd`,
`update_fdsets`), the timer registry (`add_timer`, `del_timer`, `doTimer`)
and one iteration of the event loop (`muxmain`).

Conventions of the embedding.

* The C globals (`Ed_Fd`, `fdcount`, `mxfd`, `gRfds`, `gWfds`, `gXfds`,
  `Timers`, `ntimers`) are the fields of one record `State`; every C
  function becomes a function on `State`.
* `main.h` is not among the sources.  The capacities `MX_FD` and `MX_TIMER`
  are the lengths of the two tables.  The values of the remaining constants
  are fixed below; what is used of them is that the three timer kinds differ
  and that the three interest flags are distinct single bits.
* Pointers (callbacks, user data, timer handles) are natural numbers, `0` is
  `NULL`.  The address of `Timers[0]` and `sizeof(ED_TIMER)` are parameters
  (`Layout`).
* `int` arithmetic that can overflow (`ms * 1000`) is reduced by `wrap32`;
  `long long` microsecond values are unbounded integers.
* An `fd_set` is the list of the bit positions that are set in it.  The set has
  `FD_SETSIZE` bits; `FD_SET` and `FD_ISSET` address the bit the glibc macros
  address on x86-64 (`fd_bit`), so that `FD_ISSET(-1, set)` reads bit 63.  A
  write outside the set changes no bit of the set; where it lands instead is
  not modelled, and neither is what a read outside the set finds (it is
  answered `false`): the theorems on the cached sets bound the descriptors of
  the table by `FD_SETSIZE`.
* `exit(-1)` and a call through a `NULL` function pointer end the process:
  the function returns `none`.
-/

namespace Eedd

/-! ## Constants -/

/-- Modelled from the spec: `main.h` is absent; the timer kind marking a free slot. -/
def ED_UNUSED : Int := 0

/-- Modelled from the spec: `main.h` is absent; the timer kind of a timer that fires once. -/
def ED_ONESHOT : Int := 1

/-- Modelled from the spec: `main.h` is absent; the timer kind of a repeating timer. -/
def ED_PERIODIC : Int := 2

/-- Modelled from the spec: `main.h` is absent; interest flag "readable". -/
def ED_READ : Int := 1

/-- Modelled from the spec: `main.h` is absent; interest flag "writable". -/
def ED_WRITE : Int := 2

/-- Modelled from the spec: `main.h` is absent; interest flag "exceptional". -/
def ED_EXCEPT : Int := 4

/-- The value of `EINTR` in `errno.h`. -/
def EINTR : Int := 4

/-! ## Data model -/

/-- The `fd_set` of `select(2)`, as the list of the bit positions that are set. -/
abbrev fd_set := List Int

/-- The number of bits of an `fd_set` (`FD_SETSIZE` of `<sys/select.h>`). -/
def FD_SETSIZE : Int := 1024

/-- The bit position the macros `FD_SET` and `FD_ISSET` address for `fd`: word
`fd / 64` (C division, rounding towards zero) and, in it, the bit whose number is the
shift count `fd % 64` (C remainder) reduced to its low six bits, as the shift instruction
of x86-64 does.  For `fd >= 0` this is `fd`; for `fd = -1` it is bit 63 of word 0. -/
def fd_bit (fd : Int) : Int := fd.tdiv 64 * 64 + (fd.tmod 64) % 64

/-- The macro `FD_ZERO`. -/
def FD_ZERO : fd_set := []

/-- The macro `FD_SET`: the addressed bit is set when it lies inside the set; a write
outside the set leaves every bit of the set as it is. -/
def FD_SET (fd : Int) (s : fd_set) : fd_set :=
  if 0 ≤ fd_bit fd ∧ fd_bit fd < FD_SETSIZE then fd_bit fd :: s else s

/-- The macro `FD_ISSET`: whether the addressed bit is set. -/
def FD_ISSET (fd : Int) (s : fd_set) : Bool := decide (fd_bit fd ∈ s)

/-- One entry of the descriptor table `Ed_Fd`. -/
structure ED_FD where
  fd : Int
  stype : Int
  scb : Nat
  pcb_data : Nat
deriving DecidableEq, Repr

/-- One entry of the timer table `Timers`. -/
structure ED_TIMER where
  type : Int
  to_ : Int
  us : Int
  cb : Nat
  pcb_data : Nat
deriving DecidableEq, Repr

instance : Inhabited ED_FD := ⟨⟨-1, 0, 0, 0⟩⟩

instance : Inhabited ED_TIMER := ⟨⟨ED_UNUSED, 0, 0, 0, 0⟩⟩

/-- The statically allocated variables of `util.c` and the two tables. -/
structure State where
  Ed_Fd : List ED_FD
  fdcount : Int
  mxfd : Int
  gRfds : fd_set
  gWfds : fd_set
  gXfds : fd_set
  Timers : List ED_TIMER
  ntimers : Int
deriving DecidableEq, Repr

/-- The `struct timeval` of `sys/time.h`. -/
structure timeval where
  tv_sec : Int
  tv_usec : Int
deriving DecidableEq, Repr

/-- Addresses the code computes with: `&Timers[0]`, `sizeof(ED_TIMER)`, `&Ed_Fd[0]`,
`sizeof(ED_FD)`. -/
structure Layout where
  Timers_addr : Nat
  sizeof_ED_TIMER : Nat
  Ed_Fd_addr : Nat
  sizeof_ED_FD : Nat
deriving DecidableEq, Repr

/-- A layout a C implementation can produce: the table is not at `NULL` and a slot has a size. -/
def Layout.WF (L : Layout) : Prop := 0 < L.Timers_addr ∧ 0 < L.sizeof_ED_TIMER

instance (L : Layout) : Decidable L.WF := by unfold Layout.WF; infer_instance

/-- The address `&Timers[i]`. -/
def Layout.slot (L : Layout) (i : Nat) : Nat := L.Timers_addr + i * L.sizeof_ED_TIMER

/-- Result of a 32 bit `int` operation: the value reduced modulo `2^32` into `[-2^31, 2^31)`. -/
def wrap32 (x : Int) : Int := (x + 2147483648) % 4294967296 - 2147483648

/-! ## Descriptor registry -/

/-- The loop body of `update_fdsets` for one slot. -/
def update_fdsets_step (s : State) (e : ED_FD) : State :=
  if e.fd = -1 then s
  else
    { s with
      fdcount := s.fdcount + 1
      mxfd := if e.fd > s.mxfd then e.fd else s.mxfd
      gRfds := if Int.land e.stype ED_READ ≠ 0 then FD_SET e.fd s.gRfds else s.gRfds
      gWfds := if Int.land e.stype ED_WRITE ≠ 0 then FD_SET e.fd s.gWfds else s.gWfds
      gXfds := if Int.land e.stype ED_EXCEPT ≠ 0 then FD_SET e.fd s.gXfds else s.gXfds }

/-- The function `update_fdsets`: clear the cached state, then scan the table. -/
def update_fdsets (s : State) : State :=
  s.Ed_Fd.foldl update_fdsets_step
    { s with gRfds := FD_ZERO, gWfds := FD_ZERO, gXfds := FD_ZERO, fdcount := 0, mxfd := -1 }

/-- The search loop of `add_fd`: index of the first slot whose `fd` is `-1`,
or the table length when there is none. -/
def add_fd_find : List ED_FD → Nat
  | [] => 0
  | e :: es => if e.fd = -1 then 0 else add_fd_find es + 1

/-- The function `add_fd`; `none` is `exit(-1)`. -/
def add_fd (fd stype : Int) (scb pcb_data : Nat) (s : State) : Option State :=
  if scb = 0 ∨ fd ≤ 0 then some s
  else
    let i := add_fd_find s.Ed_Fd
    if i = s.Ed_Fd.length then none
    else some (update_fdsets { s with Ed_Fd := s.Ed_Fd.set i ⟨fd, stype, scb, pcb_data⟩ })

/-- The loop of `del_fd`: the first slot holding `fd` is marked free. -/
def del_fd_loop (fd : Int) : List ED_FD → List ED_FD
  | [] => []
  | e :: es => if e.fd = fd then { e with fd := -1 } :: es else e :: del_fd_loop fd es

/-- The function `del_fd`. -/
def del_fd (fd : Int) (s : State) : State :=
  update_fdsets { s with Ed_Fd := del_fd_loop fd s.Ed_Fd }


/-! ## Timer registry -/

/-- The function `tv2us`. -/
def tv2us (ptv : timeval) : Int := ptv.tv_sec * 1000000 + ptv.tv_usec

/-- The search loop of `add_timer`: index of the first slot of kind `ED_UNUSED`,
or the table length when there is none. -/
def add_timer_find : List ED_TIMER → Nat
  | [] => 0
  | t :: ts => if t.type = ED_UNUSED then 0 else add_timer_find ts + 1

/-- The function `add_timer`.  `clk` is what `gettimeofday` gives when it is called
(`none`: it fails).  The first component is the returned handle, `0` for `NULL`. -/
def add_timer (L : Layout) (clk : Option timeval) (type ms : Int) (cb pcb_data : Nat)
    (s : State) : Nat × State :=
  if cb = 0 then (0, s)
  else if ms = 0 ∧ type = ED_PERIODIC then (0, s)
  else
    let i := add_timer_find s.Timers
    if i = s.Timers.length then (0, s)
    else
      match clk with
      | none => (0, s)
      | some tv =>
        (L.slot i,
          { s with
            ntimers := s.ntimers + 1
            Timers := s.Timers.set i
              ⟨type, tv2us tv + wrap32 (ms * 1000), wrap32 (ms * 1000), cb, pcb_data⟩ })

/-- The function `del_timer`.  After the range and alignment tests the handle is
`&Timers[i]` for `i = (ptimer - &Timers[0]) / sizeof(ED_TIMER)`. -/
def del_timer (L : Layout) (ptimer : Nat) (s : State) : State :=
  if (ptimer : Int) < L.Timers_addr ∨
      (ptimer : Int) > L.Timers_addr + ((s.Timers.length : Int) - 1) * L.sizeof_ED_TIMER then s
  else if (ptimer - L.Timers_addr) % L.sizeof_ED_TIMER ≠ 0 then s
  else
    let i := (ptimer - L.Timers_addr) / L.sizeof_ED_TIMER
    let t := s.Timers.getD i default
    if t.type = ED_UNUSED then s
    else { s with Timers := s.Timers.set i { t with type := ED_UNUSED }, ntimers := s.ntimers - 1 }

/-! ## Callbacks -/

/-- What the registered callbacks do to the globals.  A callback is named by its address;
`none` means that the process ended inside the callback. -/
structure Env where
  timer_cb : Nat → Nat → Nat → State → Option State
  fd_cb : Nat → Int → Nat → Int → State → Option State

/-- What the loop does that is visible from outside, in order. -/
inductive Event where
  | timer (cb handle pcb_data : Nat)
  | fd (scb : Nat) (fd : Int) (pcb_data : Nat) (activity : Int)
  | select (nfds : Int) (readset writeset exceptset : fd_set) (ptv : Option timeval)
deriving DecidableEq, Repr

/-- A call `(Timers[i].cb)(handle, pcb_data)`; calling `NULL` ends the process. -/
def call_timer_cb (E : Env) (cb handle pcb_data : Nat) (s : State) : Option State :=
  if cb = 0 then none else E.timer_cb cb handle pcb_data s

/-! ## The expiry pass -/

/-- The first loop of `doTimer`, from index `i` with `n` indices left. -/
def doTimer_expire (E : Env) (L : Layout) (now : Int) :
    Nat → Nat → Int → State → List Event → Option (State × List Event)
  | 0, _, _, s, log => some (s, log)
  | n + 1, i, count, s, log =>
    if count = s.ntimers then some (s, log)
    else
      let t := s.Timers.getD i default
      if t.type = ED_UNUSED then doTimer_expire E L now n (i + 1) count s log
      else if t.to_ > now then doTimer_expire E L now n (i + 1) (count + 1) s log
      else if t.type = ED_PERIODIC then
        match call_timer_cb E t.cb (L.slot i) t.pcb_data s with
        | none => none
        | some s1 =>
          let t1 := s1.Timers.getD i default
          let to1 := t1.to_ + t1.us
          doTimer_expire E L now n (i + 1) (count + 1)
            { s1 with Timers := s1.Timers.set i { t1 with to_ := if to1 < now then now else to1 } }
            (log ++ [Event.timer t.cb (L.slot i) t.pcb_data])
      else if t.cb = 0 then some (s, log)
      else
        match call_timer_cb E t.cb (L.slot i) t.pcb_data
            { s with Timers := s.Timers.set i { t with type := ED_UNUSED },
                     ntimers := s.ntimers - 1 } with
        | none => none
        | some s2 =>
          doTimer_expire E L now n (i + 1) (count + 1) s2
            (log ++ [Event.timer t.cb (L.slot i) t.pcb_data])

/-- The second loop of `doTimer`: the nearest timeout, `-1` when none was seen. -/
def doTimer_next (ntimers : Int) : List ED_TIMER → Int → Int → Int
  | [], _, nextto => nextto
  | t :: ts, count, nextto =>
    if count = ntimers then nextto
    else if t.type = ED_UNUSED then doTimer_next ntimers ts count nextto
    else doTimer_next ntimers ts (count + 1) (if nextto = -1 ∨ t.to_ < nextto then t.to_ else nextto)

/-- The function `doTimer`.  `clk` is what `gettimeofday` gives when it is called.  The
result is the new globals, the callbacks fired, and the returned pointer (`none`: `NULL`). -/
def doTimer (E : Env) (L : Layout) (clk : Option timeval) (s : State) :
    Option (State × List Event × Option timeval) :=
  if s.ntimers = 0 then some (s, [], none)
  else
    match clk with
    | none => some (s, [], none)
    | some tv =>
      let now := tv2us tv
      match doTimer_expire E L now s.Timers.length 0 0 s [] with
      | none => none
      | some (s1, log) =>
        if s1.ntimers = 0 then some (s1, log, none)
        else
          let nextto := doTimer_next s1.ntimers s1.Timers 0 (-1)
          if nextto = -1 then some (s1, log, none)
          else
            let nextto := if nextto - now < 0 then now else nextto
            some (s1, log, some ⟨(nextto - now).tdiv 1000000, (nextto - now).tmod 1000000⟩)

/-! ## The event loop -/

/-- What `select` leaves behind: its return value, `errno`, and the three sets. -/
structure SelectResult where
  sret : Int
  errno : Int
  readset : fd_set
  writeset : fd_set
  exceptset : fd_set
deriving DecidableEq, Repr

/-- The system call `select`, as a function of its arguments. -/
abbrev SelectOracle := Int → fd_set → fd_set → fd_set → Option timeval → SelectResult

/-- The descriptor walk of `muxmain`, from index `i` with `n` indices left. -/
def muxmain_dispatch (E : Env) (L : Layout) (readset writeset exceptset : fd_set) :
    Nat → Nat → State → List Event → Option (State × List Event)
  | 0, _, s, log => some (s, log)
  | n + 1, i, s, log =>
    let pin := s.Ed_Fd.getD i default
    if ((L.Ed_Fd_addr + i * L.sizeof_ED_FD : Nat) : Int) < 0 then
      muxmain_dispatch E L readset writeset exceptset n (i + 1) s log
    else
      let a0 : Int := 0
      let a1 := if FD_ISSET pin.fd readset then ED_READ else a0
      let a2 := if FD_ISSET pin.fd writeset then Int.lor a1 ED_WRITE else a1
      let a3 := if FD_ISSET pin.fd exceptset then Int.lor a2 ED_EXCEPT else a2
      if a3 ≠ 0 ∧ pin.scb ≠ 0 then
        match E.fd_cb pin.scb pin.fd pin.pcb_data a3 s with
        | none => none
        | some s1 =>
          muxmain_dispatch E L readset writeset exceptset n (i + 1) s1
            (log ++ [Event.fd pin.scb pin.fd pin.pcb_data a3])
      else muxmain_dispatch E L readset writeset exceptset n (i + 1) s log

/-- One pass through the body of the `while (1)` of `muxmain`; `none` is `exit(-1)`
(or the end of the process inside a callback). -/
def muxmain_iter (E : Env) (L : Layout) (clk : Option timeval) (sel : SelectOracle)
    (s : State) : Option (State × List Event) :=
  let readset := s.gRfds
  let writeset := s.gWfds
  let exceptset := s.gXfds
  match doTimer E L clk s with
  | none => none
  | some (s1, log, ptv) =>
    let r := sel (s1.mxfd + 1) readset writeset exceptset ptv
    let log1 := log ++ [Event.select (s1.mxfd + 1) readset writeset exceptset ptv]
    if r.sret < 0 ∧ r.errno ≠ EINTR then none
    else muxmain_dispatch E L r.readset r.writeset r.exceptset s1.Ed_Fd.length 0 s1 log1

/-- The loop of `muxmain` for as many iterations as there are inputs. -/
def muxmain_loop (E : Env) (L : Layout) :
    List (Option timeval × SelectOracle) → State → List Event → Option (State × List Event)
  | [], s, log => some (s, log)
  | (clk, sel) :: rest, s, log =>
    match muxmain_iter E L clk sel s with
    | none => none
    | some (s1, log1) => muxmain_loop E L rest s1 (log ++ log1)

/-- The function `muxmain`, cut after the given iterations. -/
def muxmain (E : Env) (L : Layout) (inputs : List (Option timeval × SelectOracle))
    (s : State) : Option (State × List Event) :=
  muxmain_loop E L inputs (update_fdsets s) []

/-! ## Reference inputs and specification predicates -/

/-- Callbacks that return without touching the globals. -/
def quietEnv : Env := ⟨fun _ _ _ s => some s, fun _ _ _ _ s => some s⟩

/-- A concrete layout: `Timers` at address 1000 with slots of 40 bytes, `Ed_Fd` at 5000
with slots of 24 bytes. -/
def exLayout : Layout := ⟨1000, 40, 5000, 24⟩

/-- A `select` that fails with `errno` and leaves the three sets as they were passed. -/
def selectFails (errno : Int) : SelectOracle := fun _ r w x _ => ⟨-1, errno, r, w, x⟩

/-- Two timers, both due at time 10: a oneshot in slot 0 and a periodic in slot 1. -/
def twoDueTimers : State :=
  ⟨[], 0, -1, [], [], [], [⟨ED_ONESHOT, 5, 0, 11, 0⟩, ⟨ED_PERIODIC, 6, 100, 22, 0⟩], 2⟩

/-- One descriptor, 3, watched for reading with callback 7; no timers. -/
def oneReader : State := ⟨[⟨3, ED_READ, 7, 0⟩], 1, 3, [3], [], [], [], 0⟩

/-- The cached descriptor state agrees with the table: the count, the highest descriptor
and the three sets are what a scan of the occupied slots gives; a bit of a set is set
exactly when an occupied slot with the matching flag holds that descriptor. -/
def FdCacheOk (s : State) : Prop :=
  s.fdcount = (s.Ed_Fd.filter (fun e => e.fd ≠ -1)).length ∧
  ((∀ e ∈ s.Ed_Fd, e.fd = -1) → s.mxfd = -1) ∧
  ((∃ e ∈ s.Ed_Fd, e.fd ≠ -1) →
    (∃ e ∈ s.Ed_Fd, e.fd ≠ -1 ∧ e.fd = s.mxfd) ∧ ∀ e ∈ s.Ed_Fd, e.fd ≠ -1 → e.fd ≤ s.mxfd) ∧
  (∀ x, x ∈ s.gRfds ↔
    ∃ e ∈ s.Ed_Fd, e.fd ≠ -1 ∧ e.fd = x ∧ Int.land e.stype ED_READ ≠ 0) ∧
  (∀ x, x ∈ s.gWfds ↔
    ∃ e ∈ s.Ed_Fd, e.fd ≠ -1 ∧ e.fd = x ∧ Int.land e.stype ED_WRITE ≠ 0) ∧
  (∀ x, x ∈ s.gXfds ↔
    ∃ e ∈ s.Ed_Fd, e.fd ≠ -1 ∧ e.fd = x ∧ Int.land e.stype ED_EXCEPT ≠ 0)

/-- The globals as the process starts, over a table of two slots marked free: the
statics `fdcount`, `mxfd`, the three sets and `ntimers` are zero. -/
def bootGlobals : State := ⟨[⟨-1, 0, 0, 0⟩, ⟨-1, 0, 0, 0⟩], 0, 0, [], [], [], [], 0⟩

/-- Two occupied slots around a free one. -/
def threeSlots : State :=
  ⟨[⟨5, 3, 1, 0⟩, ⟨-1, 1, 1, 0⟩, ⟨7, 4, 1, 0⟩], 0, 0, [], [], [], [], 0⟩

/-- Successive calls of `add_fd`, each given as `(fd, stype, scb, pcb_data)`; the process
ends with the first call that ends it. -/
def add_fd_seq : List (Int × Int × Nat × Nat) → State → Option State
  | [], s => some s
  | (fd, stype, scb, pcb_data) :: cs, s =>
    (add_fd fd stype scb pcb_data s).bind (add_fd_seq cs)

/-- A descriptor table of two slots, both free, with a rebuilt cache. -/
def emptyTwo : State := ⟨[⟨-1, 0, 0, 0⟩, ⟨-1, 0, 0, 0⟩], 0, -1, [], [], [], [], 0⟩

/-- The globals after `add_fd(3, ED_READ, 7, 0)` was called twice on `emptyTwo`: both
slots hold descriptor 3. -/
def threeTwice : State :=
  ⟨[⟨3, ED_READ, 7, 0⟩, ⟨3, ED_READ, 7, 0⟩], 2, 3, [3, 3], [], [], [], 0⟩

/-- A timer table of one unused slot. -/
def oneFreeTimer : State := ⟨[], 0, -1, [], [], [], [⟨ED_UNUSED, 0, 0, 0, 0⟩], 0⟩

/-- A timer table of two slots, the first in use. -/
def secondFreeTimer : State :=
  ⟨[], 0, -1, [], [], [], [⟨ED_PERIODIC, 500, 100, 22, 0⟩, ⟨ED_UNUSED, 0, 0, 0, 0⟩], 1⟩

/-- A timer table of two slots, both in use. -/
def fullTimers : State :=
  ⟨[], 0, -1, [], [], [], [⟨ED_ONESHOT, 500, 0, 11, 0⟩, ⟨ED_PERIODIC, 600, 100, 22, 0⟩], 2⟩

/-- The handle `add_timer` returns for a oneshot timer on `oneFreeTimer`. -/
def staleHandle : Nat := (add_timer exLayout (some ⟨0, 10⟩) ED_ONESHOT 5 11 0 oneFreeTimer).1

/-- The globals after that timer was added and then removed through its handle. -/
def afterRemoval : State :=
  del_timer exLayout staleHandle
    (add_timer exLayout (some ⟨0, 10⟩) ED_ONESHOT 5 11 0 oneFreeTimer).2

/-- Outcome of the later `add_timer` of a periodic timer, which is given the freed slot. -/
def reuse : Nat × State := add_timer exLayout (some ⟨0, 20⟩) ED_PERIODIC 7 22 0 afterRemoval

/-! ## Specification predicates for the timer registry and the loop -/

/-- The active-count invariant: `ntimers` is the number of slots whose kind is not
`ED_UNUSED`. -/
def NtimersOk (s : State) : Prop :=
  s.ntimers = ((s.Timers.filter (fun t => t.type ≠ ED_UNUSED)).length : Int)

instance (s : State) : Decidable (NtimersOk s) := by unfold NtimersOk; infer_instance

/-- Every timer in use has a callback, as `add_timer` sees to. -/
def TimerCbsOk (s : State) : Prop := ∀ t ∈ s.Timers, t.type ≠ ED_UNUSED → t.cb ≠ 0

instance (s : State) : Decidable (TimerCbsOk s) := by unfold TimerCbsOk; infer_instance

/-- Callbacks that do not touch the timer table: whatever else a timer callback does,
`Timers` and `ntimers` are as it found them. -/
def QuietTimers (E : Env) : Prop :=
  ∀ cb h d s s1, E.timer_cb cb h d s = some s1 → s1.Timers = s.Timers ∧ s1.ntimers = s.ntimers

/-- What the expiry pass leaves in the slot of a timer it fired, when the callback did not
touch the table: a periodic timer is moved on by one period and not before `now`, any
other timer is marked unused. -/
def fired_entry (now : Int) (t : ED_TIMER) : ED_TIMER :=
  if t.type = ED_PERIODIC then
    { t with to_ := if t.to_ + t.us < now then now else t.to_ + t.us }
  else { t with type := ED_UNUSED }

/-- The callback event of the timer in slot `j` of `s`. -/
def timer_event (L : Layout) (s : State) (j : Nat) : Event :=
  Event.timer (s.Timers.getD j default).cb (L.slot j) (s.Timers.getD j default).pcb_data

/-- The globals after the periodic timer of `secondFreeTimer`, due at 500 with period 100,
was fired at time 1000. -/
def periodicFired : State :=
  ⟨[], 0, -1, [], [], [], [⟨ED_PERIODIC, 1000, 100, 22, 0⟩, ⟨ED_UNUSED, 0, 0, 0, 0⟩], 1⟩

/-- A call of the timer interface made from inside a timer callback: `add_timer` with the
clock reading it gets, `del_timer` of some handle, or `del_timer` of the handle the
callback was called with. -/
inductive TimerCall where
  | add (clk : Option timeval) (type ms : Int) (cb pcb_data : Nat)
  | del (ptimer : Nat)
  | del_own
deriving DecidableEq, Repr

/-- The kind passed to `add_timer` is oneshot or periodic. -/
def TimerCall.valid : TimerCall → Prop
  | TimerCall.add _ type _ _ _ => type = ED_ONESHOT ∨ type = ED_PERIODIC
  | _ => True

/-- A callback body that makes the given calls in order; `handle` is its first argument. -/
def run_timer_calls (L : Layout) (handle : Nat) : List TimerCall → State → State
  | [], s => s
  | TimerCall.add clk type ms cb pcb_data :: cs, s =>
    run_timer_calls L handle cs (add_timer L clk type ms cb pcb_data s).2
  | TimerCall.del ptimer :: cs, s => run_timer_calls L handle cs (del_timer L ptimer s)
  | TimerCall.del_own :: cs, s => run_timer_calls L handle cs (del_timer L handle s)

/-- Timer callbacks whose bodies are calls of `add_timer` and `del_timer`: the callback
at address `cb` makes the calls `prog cb`.  Descriptor callbacks do nothing. -/
def progEnv (L : Layout) (prog : Nat → List TimerCall) : Env :=
  ⟨fun cb h _ s => some (run_timer_calls L h (prog cb) s), fun _ _ _ _ s => some s⟩

/-- A timer table of two unused slots. -/
def twoFreeTimers : State :=
  ⟨[], 0, -1, [], [], [], [⟨ED_UNUSED, 0, 0, 0, 0⟩, ⟨ED_UNUSED, 0, 0, 0, 0⟩], 0⟩

/-- The globals after `add_timer(ED_ONESHOT, 1, 11, 0)` and
`add_timer(ED_PERIODIC, 4289967, 22, 0)` on `twoFreeTimers`, both with the clock at
5.000295 s: the product `4289967 * 1000` wraps to `-5000296`, and the deadline of the
periodic timer is `-1`. -/
def sentinelInput : State :=
  (add_timer exLayout (some ⟨5, 295⟩) ED_PERIODIC 4289967 22 0
    (add_timer exLayout (some ⟨5, 295⟩) ED_ONESHOT 1 11 0 twoFreeTimers).2).2

/-- Callbacks for the examples: every timer callback calls
`add_timer(ED_ONESHOT, 4288967, 11, 0)` with the clock at 6.000295 s. -/
def lateTimerEnv : Env :=
  ⟨fun _ _ _ s => some (add_timer exLayout (some ⟨6, 295⟩) ED_ONESHOT 4288967 11 0 s).2,
   fun _ _ _ _ s => some s⟩

/-- Callback bodies for the examples: the callback at address 11 registers a periodic
timer of 7 ms with callback 22, every other callback removes the timer it was called
for. -/
def mixedProg : Nat → List TimerCall := fun cb =>
  if cb = 11 then [TimerCall.add (some ⟨0, 1000⟩) ED_PERIODIC 7 22 0] else [TimerCall.del_own]

/-- Callback bodies for the examples: every callback registers a periodic timer of 7 ms
with callback 22. -/
def addProg : Nat → List TimerCall := fun _ =>
  [TimerCall.add (some ⟨0, 1000⟩) ED_PERIODIC 7 22 0]

/-- Callback bodies for the examples: every callback removes the timer it was called for
and registers a oneshot timer of 50 ms with callback 33. -/
def replaceProg : Nat → List TimerCall := fun _ =>
  [TimerCall.del_own, TimerCall.add (some ⟨0, 1000⟩) ED_ONESHOT 50 33 0]

/-- One periodic timer, due at 500 with period 100 and callback 22, in a table of one
slot. -/
def onePeriodic : State := ⟨[], 0, -1, [], [], [], [⟨ED_PERIODIC, 500, 100, 22, 0⟩], 1⟩

/-- The globals after the pass over `fullTimers` at time 1000 with the callbacks of
`mixedProg`: slot 0 was freed and given to the new periodic timer, slot 1 removed itself. -/
def afterMixedPass : State :=
  ⟨[], 0, -1, [], [], [], [⟨ED_PERIODIC, 8000, 7000, 22, 0⟩, ⟨ED_UNUSED, 1000, 100, 22, 0⟩], 1⟩

/-- Successive `doTimer` passes, one per clock reading, with their logs joined. -/
def doTimer_passes (E : Env) (L : Layout) : List (Option timeval) → State →
    Option (State × List Event)
  | [], s => some (s, [])
  | clk :: rest, s =>
    match doTimer E L clk s with
    | none => none
    | some (s1, log, _) =>
      match doTimer_passes E L rest s1 with
      | none => none
      | some (s2, log2) => some (s2, log ++ log2)

/-- The handles the timer callbacks of a log were called with, in order. -/
def timer_handles : List Event → List Nat
  | [] => []
  | Event.timer _ handle _ :: evs => handle :: timer_handles evs
  | _ :: evs => timer_handles evs

/-- The globals as the oneshot branch of `doTimer` leaves them before it calls the
callback of slot `i`: the slot marked unused and `ntimers` decremented. -/
def oneshot_freed (s : State) (i : Nat) : State :=
  { s with
    Timers := s.Timers.set i { (s.Timers.getD i default) with type := ED_UNUSED }
    ntimers := s.ntimers - 1 }

/-- The globals after two quiet passes over `fullTimers`, at times 1000 and 2000. -/
def afterTwoPasses : State :=
  ⟨[], 0, -1, [], [], [], [⟨ED_UNUSED, 500, 0, 11, 0⟩, ⟨ED_PERIODIC, 2000, 100, 22, 0⟩], 1⟩

/-! ## Specification predicates for the descriptor walk -/

/-- The activity the walk of `muxmain` computes for descriptor `fd` from the three sets
`select` left. -/
def walk_activity (readset writeset exceptset : fd_set) (fd : Int) : Int :=
  let a1 := if FD_ISSET fd readset then ED_READ else 0
  let a2 := if FD_ISSET fd writeset then Int.lor a1 ED_WRITE else a1
  if FD_ISSET fd exceptset then Int.lor a2 ED_EXCEPT else a2

/-- The callbacks the walk of `muxmain` makes over a table that stays as it is: one for
each slot, in slot order, whose computed activity is not 0 and whose callback is not
null. -/
def walk_events (readset writeset exceptset : fd_set) (es : List ED_FD) : List Event :=
  es.filterMap (fun e =>
    if walk_activity readset writeset exceptset e.fd ≠ 0 ∧ e.scb ≠ 0 then
      some (Event.fd e.scb e.fd e.pcb_data (walk_activity readset writeset exceptset e.fd))
    else none)

/-- The activity mask as the specification words it: the bitwise OR of `ED_READ`,
`ED_WRITE`, `ED_EXCEPT` over the result sets that contain `fd`. -/
def activity_mask (readset writeset exceptset : fd_set) (fd : Int) : Int :=
  Int.lor
    (Int.lor (if FD_ISSET fd readset then ED_READ else 0)
      (if FD_ISSET fd writeset then ED_WRITE else 0))
    (if FD_ISSET fd exceptset then ED_EXCEPT else 0)

/-- The callbacks of a scan as the specification words them: one per occupied slot whose
descriptor is in at least one result set, in slot order, with the slot's descriptor and
data and the activity mask. -/
def ready_events (readset writeset exceptset : fd_set) (es : List ED_FD) : List Event :=
  es.filterMap (fun e =>
    if e.fd ≠ -1 ∧ (FD_ISSET e.fd readset = true ∨ FD_ISSET e.fd writeset = true ∨
        FD_ISSET e.fd exceptset = true) then
      some (Event.fd e.scb e.fd e.pcb_data (activity_mask readset writeset exceptset e.fd))
    else none)

/-- The globals after `add_fd(62, ED_READ, 7, 0)`, `add_fd(63, ED_READ, 8, 0)` and
`del_fd(62)` on a table of two free slots: slot 0 is free and still holds callback 7, slot
1 holds descriptor 63. -/
def staleAndReady : State :=
  ⟨[⟨-1, ED_READ, 7, 0⟩, ⟨63, ED_READ, 8, 0⟩], 1, 63, [63], [], [], [], 0⟩

/-- A `select` that finds every descriptor it was given ready: it returns 1 and leaves
the three sets as they were passed. -/
def selectAllReady : SelectOracle := fun _ r w x _ => ⟨1, 0, r, w, x⟩

/-- Two descriptors watched for reading, 3 with callback 7 and 4 with callback 8. -/
def twoReaders : State :=
  ⟨[⟨3, ED_READ, 7, 0⟩, ⟨4, ED_READ, 8, 0⟩], 2, 4, [4, 3], [], [], [], 0⟩

/-- Callbacks for the examples: the descriptor callback at address 7 calls `del_fd(4)`;
the others do nothing. -/
def delFdEnv : Env :=
  ⟨fun _ _ _ s => some s, fun scb _ _ _ s => if scb = 7 then some (del_fd 4 s) else some s⟩

/-- The invariant of the descriptor table in the data model: no descriptor is held by two
occupied slots, and every occupied slot has a callback. -/
def FdTableOk (s : State) : Prop :=
  (∀ fd : Int, (s.Ed_Fd.filter (fun e => e.fd ≠ -1 ∧ e.fd = fd)).length ≤ 1) ∧
  ∀ e ∈ s.Ed_Fd, e.fd ≠ -1 → e.scb ≠ 0

/-- The descriptors the walk of `muxmain` hands to `FD_ISSET`, three times each (once per
set), slot by slot from index `i`, for a table the callbacks leave as it is.  The guard
before the tests compares the address of the slot with 0. -/
def muxmain_probes (L : Layout) : Nat → List ED_FD → List Int
  | _, [] => []
  | i, pin :: rest =>
    if ((L.Ed_Fd_addr + i * L.sizeof_ED_FD : Nat) : Int) < 0 then muxmain_probes L (i + 1) rest
    else pin.fd :: pin.fd :: pin.fd :: muxmain_probes L (i + 1) rest

/-- A `select` that returns 0 (timeout) with the three sets cleared. -/
def selectTimeout : SelectOracle := fun _ _ _ _ _ => ⟨0, 0, [], [], []⟩

/-- Callbacks for the examples: every timer callback calls `add_fd(5, ED_READ, 7, 0)`. -/
def addFdEnv : Env := ⟨fun _ _ _ s => add_fd 5 ED_READ 7 0 s, fun _ _ _ _ s => some s⟩

/-- Callbacks for the examples: every timer callback calls `del_fd(3)`. -/
def delFdTimerEnv : Env := ⟨fun _ _ _ s => some (del_fd 3 s), fun _ _ _ _ s => some s⟩

/-- Descriptor 3 watched for reading in a table of two slots, and one oneshot timer due at
500. -/
def readerAndTimer : State :=
  ⟨[⟨3, ED_READ, 7, 0⟩, ⟨-1, 0, 0, 0⟩], 1, 3, [3], [], [], [⟨ED_ONESHOT, 500, 0, 11, 0⟩], 1⟩

/-- The number of callbacks of a log that were made with callback `cb` and data `d`. -/
def timer_calls (cb d : Nat) : List Event → Nat
  | [] => 0
  | Event.timer c _ p :: evs => (if c = cb ∧ p = d then 1 else 0) + timer_calls cb d evs
  | _ :: evs => timer_calls cb d evs

/-- The number of timers in use that are registered with callback `cb` and data `d`. -/
def registered (cb d : Nat) (s : State) : Nat :=
  (s.Timers.filter (fun t => t.type ≠ ED_UNUSED ∧ t.cb = cb ∧ t.pcb_data = d)).length

/-- No periodic timer holds callback `cb` with data `d`: the timers registered with them
are oneshot timers. -/
def OneshotOnly (cb d : Nat) (s : State) : Prop :=
  ∀ k, (s.Timers.getD k default).cb = cb → (s.Timers.getD k default).pcb_data = d →
    (s.Timers.getD k default).type ≠ ED_PERIODIC

/-- Callbacks that register no timer with callback `cb` and data `d`: whatever else a timer
callback does, it leaves each slot as it found it, or unused, or with another callback or
other data. -/
def NoNewTimer (cb d : Nat) (E : Env) : Prop :=
  ∀ c h x s0 s2, E.timer_cb c h x s0 = some s2 → ∀ k,
    s2.Timers.getD k default = s0.Timers.getD k default ∨
    (s2.Timers.getD k default).type = ED_UNUSED ∨
    ¬ ((s2.Timers.getD k default).cb = cb ∧ (s2.Timers.getD k default).pcb_data = d)

/-- The globals after two passes over `fullTimers`, at times 1000 and 9000, with the
callbacks of `addProg`: the oneshot timer of slot 0 was fired and its callback registered
a periodic timer, which was given slot 0. -/
def afterAddPasses : State :=
  ⟨[], 0, -1, [], [], [],
    [⟨ED_PERIODIC, 15000, 7000, 22, 0⟩, ⟨ED_PERIODIC, 9000, 100, 22, 0⟩], 2⟩

/-! ## The expiry pass stops early after a oneshot (C1) -/

/-- C1 (evaluation at the failing input): with a due oneshot in slot 0 and a due periodic
in slot 1, the active count being 2, the pass at time 10 calls the oneshot callback only:
after the decrement of `ntimers` the test `count == ntimers` ends the loop before slot 1
is looked at, and the periodic timer is left due and unfired. -/
theorem C1_doTimer_skips_due_periodic :
    twoDueTimers.ntimers = (twoDueTimers.Timers.filter (fun t => t.type ≠ ED_UNUSED)).length ∧
    (∀ t ∈ twoDueTimers.Timers, t.type ≠ ED_UNUSED ∧ t.to_ ≤ tv2us ⟨0, 10⟩) ∧
    doTimer quietEnv exLayout (some ⟨0, 10⟩) twoDueTimers =
      some (⟨[], 0, -1, [], [], [],
              [⟨ED_UNUSED, 5, 0, 11, 0⟩, ⟨ED_PERIODIC, 6, 100, 22, 0⟩], 1⟩,
            [Event.timer 11 1000 0], some ⟨0, 0⟩) := by
  refine ⟨by decide, by decide, by decide⟩

/-! ## An interrupted wait is followed by the descriptor walk (C2) -/

/-- C2 (evaluation at the failing input): descriptor 3 is watched for reading, `select`
returns -1 with `errno = EINTR` and leaves the sets as they were; the iteration does not
exit and the walk calls the callback of descriptor 3 with activity `ED_READ`.  With any
other `errno` (here 9) the iteration ends the process. -/
theorem C2_muxmain_dispatches_after_EINTR :
    muxmain_iter quietEnv exLayout none (selectFails EINTR) oneReader =
      some (oneReader, [Event.select 4 [3] [] [] none, Event.fd 7 3 0 ED_READ]) ∧
    muxmain_iter quietEnv exLayout none (selectFails 9) oneReader = none := by
  refine ⟨by decide, by decide⟩

/-! ## The rebuild of the cached descriptor state (C3) -/

theorem update_fdsets_step_frame (a : State) (e : ED_FD) :
    (update_fdsets_step a e).Ed_Fd = a.Ed_Fd ∧ (update_fdsets_step a e).Timers = a.Timers ∧
    (update_fdsets_step a e).ntimers = a.ntimers := by
  unfold update_fdsets_step
  split <;> simp

theorem update_fold_frame (es : List ED_FD) (a : State) :
    (es.foldl update_fdsets_step a).Ed_Fd = a.Ed_Fd ∧
    (es.foldl update_fdsets_step a).Timers = a.Timers ∧
    (es.foldl update_fdsets_step a).ntimers = a.ntimers := by
  induction es generalizing a with
  | nil => simp
  | cons e es ih =>
    have h := update_fdsets_step_frame a e
    have h2 := ih (update_fdsets_step a e)
    simp only [List.foldl_cons]
    exact ⟨h2.1.trans h.1, h2.2.1.trans h.2.1, h2.2.2.trans h.2.2⟩

theorem update_fold_fdcount (es : List ED_FD) (a : State) :
    (es.foldl update_fdsets_step a).fdcount
      = a.fdcount + ((es.filter (fun e => e.fd ≠ -1)).length : Int) := by
  induction es generalizing a with
  | nil => simp
  | cons e es ih =>
    simp only [List.foldl_cons]
    rw [ih]
    by_cases h : e.fd = -1
    · simp [update_fdsets_step, h]
    · simp [update_fdsets_step, h, List.filter_cons]
      omega

theorem update_fold_mxfd_ge (es : List ED_FD) (a : State) :
    a.mxfd ≤ (es.foldl update_fdsets_step a).mxfd ∧
    ∀ e ∈ es, e.fd ≠ -1 → e.fd ≤ (es.foldl update_fdsets_step a).mxfd := by
  induction es generalizing a with
  | nil => simp
  | cons e es ih =>
    simp only [List.foldl_cons]
    have h2 := ih (update_fdsets_step a e)
    have hstep : a.mxfd ≤ (update_fdsets_step a e).mxfd ∧
        (e.fd ≠ -1 → e.fd ≤ (update_fdsets_step a e).mxfd) := by
      unfold update_fdsets_step
      by_cases h : e.fd = -1
      · simp [h]
      · simp only [h, if_false]
        split <;> constructor <;> intros <;> omega
    refine ⟨le_trans hstep.1 h2.1, ?_⟩
    intro x hx hne
    rcases List.mem_cons.mp hx with rfl | hx
    · exact le_trans (hstep.2 hne) h2.1
    · exact h2.2 x hx hne

theorem update_fold_mxfd_mem (es : List ED_FD) (a : State) :
    (es.foldl update_fdsets_step a).mxfd = a.mxfd ∨
    ∃ e ∈ es, e.fd ≠ -1 ∧ e.fd = (es.foldl update_fdsets_step a).mxfd := by
  induction es generalizing a with
  | nil => simp
  | cons e es ih =>
    simp only [List.foldl_cons]
    rcases ih (update_fdsets_step a e) with h | ⟨x, hx, hne, hxe⟩
    · by_cases he : e.fd = -1
      · left
        rw [h]
        simp [update_fdsets_step, he]
      · by_cases hgt : e.fd > a.mxfd
        · right
          refine ⟨e, List.mem_cons_self _ _, he, ?_⟩
          rw [h]
          simp [update_fdsets_step, he, hgt]
        · left
          rw [h]
          simp [update_fdsets_step, he, hgt]
    · right
      exact ⟨x, List.mem_cons_of_mem _ hx, hne, hxe⟩

theorem fd_bit_of_nonneg (x : Int) (h : 0 ≤ x) : fd_bit x = x := by
  unfold fd_bit
  rw [Int.tdiv_eq_ediv h (by decide), Int.tmod_eq_emod h (by decide)]
  omega

theorem mem_FD_SET (fd x : Int) (s : fd_set) :
    x ∈ FD_SET fd s ↔ x ∈ s ∨ (fd_bit fd = x ∧ 0 ≤ x ∧ x < FD_SETSIZE) := by
  unfold FD_SET
  split
  · rename_i h
    rw [List.mem_cons]
    constructor
    · rintro (rfl | h1)
      · exact Or.inr ⟨rfl, h⟩
      · exact Or.inl h1
    · rintro (h1 | ⟨h1, _⟩)
      · exact Or.inr h1
      · exact Or.inl h1.symm
  · rename_i h
    constructor
    · exact Or.inl
    · rintro (h1 | ⟨rfl, h2⟩)
      · exact h1
      · exact absurd h2 h

theorem update_fold_gRfds (es : List ED_FD) (a : State) (x : Int) :
    x ∈ (es.foldl update_fdsets_step a).gRfds ↔
      x ∈ a.gRfds ∨ ∃ e ∈ es, e.fd ≠ -1 ∧ (fd_bit e.fd = x ∧ 0 ≤ x ∧ x < FD_SETSIZE) ∧
        Int.land e.stype ED_READ ≠ 0 := by
  induction es generalizing a with
  | nil => simp
  | cons e es ih =>
    simp only [List.foldl_cons]
    rw [ih]
    by_cases he : e.fd = -1
    · simp [update_fdsets_step, he]
    · by_cases hb : Int.land e.stype ED_READ = 0
      · simp [update_fdsets_step, he, hb]
      · simp only [update_fdsets_step, he, hb, if_false, ne_eq, not_false_eq_true, if_true,
          mem_FD_SET, List.mem_cons, exists_eq_or_imp, true_and, and_true]
        tauto

theorem update_fold_gWfds (es : List ED_FD) (a : State) (x : Int) :
    x ∈ (es.foldl update_fdsets_step a).gWfds ↔
      x ∈ a.gWfds ∨ ∃ e ∈ es, e.fd ≠ -1 ∧ (fd_bit e.fd = x ∧ 0 ≤ x ∧ x < FD_SETSIZE) ∧
        Int.land e.stype ED_WRITE ≠ 0 := by
  induction es generalizing a with
  | nil => simp
  | cons e es ih =>
    simp only [List.foldl_cons]
    rw [ih]
    by_cases he : e.fd = -1
    · simp [update_fdsets_step, he]
    · by_cases hb : Int.land e.stype ED_WRITE = 0
      · simp [update_fdsets_step, he, hb]
      · simp only [update_fdsets_step, he, hb, if_false, ne_eq, not_false_eq_true, if_true,
          mem_FD_SET, List.mem_cons, exists_eq_or_imp, true_and, and_true]
        tauto

theorem update_fold_gXfds (es : List ED_FD) (a : State) (x : Int) :
    x ∈ (es.foldl update_fdsets_step a).gXfds ↔
      x ∈ a.gXfds ∨ ∃ e ∈ es, e.fd ≠ -1 ∧ (fd_bit e.fd = x ∧ 0 ≤ x ∧ x < FD_SETSIZE) ∧
        Int.land e.stype ED_EXCEPT ≠ 0 := by
  induction es generalizing a with
  | nil => simp
  | cons e es ih =>
    simp only [List.foldl_cons]
    rw [ih]
    by_cases he : e.fd = -1
    · simp [update_fdsets_step, he]
    · by_cases hb : Int.land e.stype ED_EXCEPT = 0
      · simp [update_fdsets_step, he, hb]
      · simp only [update_fdsets_step, he, hb, if_false, ne_eq, not_false_eq_true, if_true,
          mem_FD_SET, List.mem_cons, exists_eq_or_imp, true_and, and_true]
        tauto

theorem update_fdsets_frame (s : State) :
    (update_fdsets s).Ed_Fd = s.Ed_Fd ∧ (update_fdsets s).Timers = s.Timers ∧
    (update_fdsets s).ntimers = s.ntimers := by
  unfold update_fdsets
  exact update_fold_frame _ _

/-- The bits of the three cached sets after `update_fdsets`, for any table: bit `x` is set
when an occupied slot with the matching flag addresses it and it lies inside the set. -/
theorem update_fdsets_bits (s : State) (x : Int) :
    (x ∈ (update_fdsets s).gRfds ↔
      ∃ e ∈ s.Ed_Fd, e.fd ≠ -1 ∧ (fd_bit e.fd = x ∧ 0 ≤ x ∧ x < FD_SETSIZE) ∧
        Int.land e.stype ED_READ ≠ 0) ∧
    (x ∈ (update_fdsets s).gWfds ↔
      ∃ e ∈ s.Ed_Fd, e.fd ≠ -1 ∧ (fd_bit e.fd = x ∧ 0 ≤ x ∧ x < FD_SETSIZE) ∧
        Int.land e.stype ED_WRITE ≠ 0) ∧
    (x ∈ (update_fdsets s).gXfds ↔
      ∃ e ∈ s.Ed_Fd, e.fd ≠ -1 ∧ (fd_bit e.fd = x ∧ 0 ≤ x ∧ x < FD_SETSIZE) ∧
        Int.land e.stype ED_EXCEPT ≠ 0) := by
  unfold update_fdsets
  refine ⟨?_, ?_, ?_⟩
  · simp [update_fold_gRfds, FD_ZERO]
  · simp [update_fold_gWfds, FD_ZERO]
  · simp [update_fold_gXfds, FD_ZERO]

/-- For an occupied slot with a descriptor inside the set, the addressed bit is the
descriptor. -/
theorem fd_bit_slot (es : List ED_FD)
    (hwf : ∀ e ∈ es, e.fd = -1 ∨ (0 ≤ e.fd ∧ e.fd < FD_SETSIZE)) (x : Int) (flag : Int) :
    (∃ e ∈ es, e.fd ≠ -1 ∧ (fd_bit e.fd = x ∧ 0 ≤ x ∧ x < FD_SETSIZE) ∧
        Int.land e.stype flag ≠ 0) ↔
    ∃ e ∈ es, e.fd ≠ -1 ∧ e.fd = x ∧ Int.land e.stype flag ≠ 0 := by
  constructor
  · rintro ⟨e, he, hne, ⟨hb, _, _⟩, hf⟩
    rcases hwf e he with h | ⟨h0, _⟩
    · exact absurd h hne
    · rw [fd_bit_of_nonneg _ h0] at hb
      exact ⟨e, he, hne, hb, hf⟩
  · rintro ⟨e, he, hne, hb, hf⟩
    rcases hwf e he with h | ⟨h0, h1⟩
    · exact absurd h hne
    · refine ⟨e, he, hne, ⟨?_, ?_, ?_⟩, hf⟩
      · rw [fd_bit_of_nonneg _ h0]; exact hb
      · rw [← hb]; exact h0
      · rw [← hb]; exact h1

/-- The three cached sets after `update_fdsets`, for a table whose descriptors lie inside
the sets. -/
theorem update_fdsets_sets (s : State)
    (hwf : ∀ e ∈ s.Ed_Fd, e.fd = -1 ∨ (0 ≤ e.fd ∧ e.fd < FD_SETSIZE)) (x : Int) :
    (x ∈ (update_fdsets s).gRfds ↔
      ∃ e ∈ s.Ed_Fd, e.fd ≠ -1 ∧ e.fd = x ∧ Int.land e.stype ED_READ ≠ 0) ∧
    (x ∈ (update_fdsets s).gWfds ↔
      ∃ e ∈ s.Ed_Fd, e.fd ≠ -1 ∧ e.fd = x ∧ Int.land e.stype ED_WRITE ≠ 0) ∧
    (x ∈ (update_fdsets s).gXfds ↔
      ∃ e ∈ s.Ed_Fd, e.fd ≠ -1 ∧ e.fd = x ∧ Int.land e.stype ED_EXCEPT ≠ 0) := by
  have h := update_fdsets_bits s x
  exact ⟨h.1.trans (fd_bit_slot _ hwf x _), h.2.1.trans (fd_bit_slot _ hwf x _),
    h.2.2.trans (fd_bit_slot _ hwf x _)⟩

/-- After `update_fdsets` the cache agrees with the table, when the descriptors of the
occupied slots lie inside the sets. -/
theorem update_fdsets_ok (s : State)
    (hwf : ∀ e ∈ s.Ed_Fd, e.fd = -1 ∨ (0 ≤ e.fd ∧ e.fd < FD_SETSIZE)) :
    FdCacheOk (update_fdsets s) := by
  have hsets := update_fdsets_sets s hwf
  have hfr := (update_fdsets_frame s).1
  unfold FdCacheOk
  rw [hfr]
  refine ⟨?_, ?_, ?_, fun x => (hsets x).1, fun x => (hsets x).2.1, fun x => (hsets x).2.2⟩
  · unfold update_fdsets
    rw [update_fold_fdcount]; simp
  · intro hall
    unfold update_fdsets
    rcases update_fold_mxfd_mem s.Ed_Fd
      { s with gRfds := FD_ZERO, gWfds := FD_ZERO, gXfds := FD_ZERO, fdcount := 0, mxfd := -1 }
      with h | ⟨e, he, hne, _⟩
    · exact h
    · exact absurd (hall e he) hne
  · rintro ⟨e, he, hne⟩
    unfold update_fdsets
    have hge := update_fold_mxfd_ge s.Ed_Fd
      { s with gRfds := FD_ZERO, gWfds := FD_ZERO, gXfds := FD_ZERO, fdcount := 0, mxfd := -1 }
    refine ⟨?_, hge.2⟩
    rcases update_fold_mxfd_mem s.Ed_Fd
      { s with gRfds := FD_ZERO, gWfds := FD_ZERO, gXfds := FD_ZERO, fdcount := 0, mxfd := -1 }
      with h | h
    · exfalso
      have h1 := hge.2 e he hne
      have h2 := hwf e he
      rw [h] at h1
      simp only at h1
      omega
    · exact h

theorem del_fd_loop_mem (fd : Int) (es : List ED_FD) (x : ED_FD) (hx : x ∈ del_fd_loop fd es) :
    x ∈ es ∨ x.fd = -1 := by
  induction es with
  | nil => simp [del_fd_loop] at hx
  | cons e es ih =>
    unfold del_fd_loop at hx
    split at hx
    · rcases List.mem_cons.mp hx with rfl | h
      · exact Or.inr rfl
      · exact Or.inl (List.mem_cons_of_mem _ h)
    · rcases List.mem_cons.mp hx with rfl | h
      · exact Or.inl (List.mem_cons_self _ _)
      · rcases ih h with h1 | h1
        · exact Or.inl (List.mem_cons_of_mem _ h1)
        · exact Or.inr h1

theorem del_fd_loop_in_range (fd : Int) (es : List ED_FD)
    (hwf : ∀ e ∈ es, e.fd = -1 ∨ (0 ≤ e.fd ∧ e.fd < FD_SETSIZE)) :
    ∀ e ∈ del_fd_loop fd es, e.fd = -1 ∨ (0 ≤ e.fd ∧ e.fd < FD_SETSIZE) := by
  intro e he
  rcases del_fd_loop_mem fd es e he with h | h
  · exact hwf e h
  · exact Or.inl h

theorem del_fd_ok (fd : Int) (s : State)
    (hwf : ∀ e ∈ s.Ed_Fd, e.fd = -1 ∨ (0 ≤ e.fd ∧ e.fd < FD_SETSIZE)) :
    FdCacheOk (del_fd fd s) := by
  unfold del_fd
  exact update_fdsets_ok _ (del_fd_loop_in_range fd s.Ed_Fd hwf)

theorem add_fd_ok (fd stype : Int) (scb pcb_data : Nat) (s s1 : State)
    (hwf : ∀ e ∈ s.Ed_Fd, e.fd = -1 ∨ (0 ≤ e.fd ∧ e.fd < FD_SETSIZE))
    (h : add_fd fd stype scb pcb_data s = some s1)
    (hpre : (¬ (scb = 0 ∨ fd ≤ 0) ∧ fd < FD_SETSIZE) ∨ ((scb = 0 ∨ fd ≤ 0) ∧ FdCacheOk s)) :
    FdCacheOk s1 := by
  unfold add_fd at h
  split at h
  · rename_i hdecl
    rw [← Option.some.inj h]
    rcases hpre with hv | hok
    · exact absurd hdecl hv.1
    · exact hok.2
  · rename_i hv
    simp only at h
    split at h
    · exact absurd h (by simp)
    · rw [← Option.some.inj h]
      apply update_fdsets_ok
      intro e he
      rcases List.mem_or_eq_of_mem_set he with h1 | h1
      · exact hwf e h1
      · rw [h1]
        simp only
        rcases hpre with hp | hp
        · right
          constructor
          · omega
          · exact hp.2
        · exact absurd hp.1 hv

/-- C3 (as stated, refuted), two cases.  As the process starts the statics are zero, so
`mxfd` is 0 over a table of free slots; `add_fd(0, ...)` declines its arguments and
returns without a rebuild, and `mxfd` is still 0, not -1, though no slot is occupied.
On a table of two free slots with a rebuilt cache `add_fd(1024, ED_READ, ...)` is
accepted and the rebuild runs, but descriptor 1024 has no bit in a set of `FD_SETSIZE`
bits: the slot is occupied with the read flag and bit 1024 is not set in the read set. -/
theorem C3_cache_disagrees_with_table :
    (add_fd 0 ED_READ 7 0 bootGlobals = some bootGlobals ∧
      (∀ e ∈ bootGlobals.Ed_Fd, e.fd = -1) ∧ bootGlobals.mxfd = 0) ∧
    (∃ s1, add_fd 1024 ED_READ 7 0 emptyTwo = some s1 ∧
      s1.Ed_Fd = [⟨1024, ED_READ, 7, 0⟩, ⟨-1, 0, 0, 0⟩] ∧ 1024 ∉ s1.gRfds) := by
  refine ⟨⟨by decide, by decide, by decide⟩,
    ⟨[⟨1024, ED_READ, 7, 0⟩, ⟨-1, 0, 0, 0⟩], 1, 1024, [], [], [], [], 0⟩, by decide,
    rfl, by decide⟩

/-- C3 (amended): for every descriptor table whose occupied slots hold descriptors from 0
to `FD_SETSIZE - 1`, after `update_fdsets` (which leaves the table alone) `fdcount` is the
number of slots whose `fd` is not `-1`, `mxfd` is the largest `fd` of those slots and `-1`
when there are none, and each of the three cached sets holds exactly the descriptors of
the occupied slots whose `stype` has the matching flag.  The same holds after every
`del_fd`, after every `add_fd` that accepts its arguments with `fd < FD_SETSIZE` and
returns, and after every `add_fd` that declines its arguments on a cache that agreed with
the table. -/
theorem C3_update_fdsets_rebuilds_cache (s : State)
    (hwf : ∀ e ∈ s.Ed_Fd, e.fd = -1 ∨ (0 ≤ e.fd ∧ e.fd < FD_SETSIZE)) :
    (update_fdsets s).Ed_Fd = s.Ed_Fd ∧ FdCacheOk (update_fdsets s) ∧
    (∀ fd, FdCacheOk (del_fd fd s)) ∧
    (∀ fd stype scb pcb_data s1, add_fd fd stype scb pcb_data s = some s1 →
      ((¬ (scb = 0 ∨ fd ≤ 0) ∧ fd < FD_SETSIZE) ∨ ((scb = 0 ∨ fd ≤ 0) ∧ FdCacheOk s)) →
      FdCacheOk s1) :=
  ⟨(update_fdsets_frame s).1, update_fdsets_ok s hwf, fun fd => del_fd_ok fd s hwf,
    fun fd stype scb pcb_data s1 h hpre => add_fd_ok fd stype scb pcb_data s s1 hwf h hpre⟩

/-- C3 (amended) at a table with two occupied slots around a free one. -/
theorem C3_update_fdsets_rebuilds_cache_witness :
    (∀ e ∈ threeSlots.Ed_Fd, e.fd = -1 ∨ (0 ≤ e.fd ∧ e.fd < FD_SETSIZE)) ∧
    (update_fdsets threeSlots).Ed_Fd = threeSlots.Ed_Fd ∧ FdCacheOk (update_fdsets threeSlots) ∧
    (∀ fd, FdCacheOk (del_fd fd threeSlots)) ∧
    (∀ fd stype scb pcb_data s1, add_fd fd stype scb pcb_data threeSlots = some s1 →
      ((¬ (scb = 0 ∨ fd ≤ 0) ∧ fd < FD_SETSIZE) ∨
        ((scb = 0 ∨ fd ≤ 0) ∧ FdCacheOk threeSlots)) →
      FdCacheOk s1) :=
  ⟨by decide, C3_update_fdsets_rebuilds_cache threeSlots (by decide)⟩

/-! ## Registration of a descriptor (C4) -/

/-- When at most one occupied slot holds `fd`, none does after the loop of `del_fd`. -/
theorem del_fd_loop_clears (fd : Int) (es : List ED_FD)
    (h1 : (es.filter (fun e => e.fd ≠ -1 ∧ e.fd = fd)).length ≤ 1) :
    ∀ e ∈ del_fd_loop fd es, ¬ (e.fd ≠ -1 ∧ e.fd = fd) := by
  induction es with
  | nil => simp [del_fd_loop]
  | cons e es ih =>
    unfold del_fd_loop
    by_cases he : e.fd = fd
    · simp only [he, if_true]
      intro x hx
      rcases List.mem_cons.mp hx with rfl | hx
      · simp
      · rintro ⟨hne, hxe⟩
        have hfd : fd ≠ -1 := by rw [← hxe]; exact hne
        have hlen : ((e :: es).filter (fun e => e.fd ≠ -1 ∧ e.fd = fd)).length
            = (es.filter (fun e => e.fd ≠ -1 ∧ e.fd = fd)).length + 1 := by
          simp [List.filter_cons, he, hfd]
        have hx2 : x ∈ es.filter (fun e => e.fd ≠ -1 ∧ e.fd = fd) :=
          List.mem_filter.mpr ⟨hx, by simp [hxe, hfd]⟩
        have hpos := List.length_pos_of_mem hx2
        omega
    · simp only [he, if_false]
      have h2 : (es.filter (fun e => e.fd ≠ -1 ∧ e.fd = fd)).length ≤ 1 := by
        have : ((e :: es).filter (fun e => e.fd ≠ -1 ∧ e.fd = fd))
            = es.filter (fun e => e.fd ≠ -1 ∧ e.fd = fd) := by
          simp [List.filter_cons, he]
        rw [this] at h1
        exact h1
      intro x hx
      rcases List.mem_cons.mp hx with rfl | hx
      · simp [he]
      · exact ih h2 x hx

/-- C5 (as stated, refuted): on a table of two free slots descriptor 3 is registered
twice for reading; `del_fd(3)` frees the first of the two slots only, and 3 is still a
member of the cached read set when it returns. -/
theorem C5_del_fd_leaves_duplicate :
    ∃ s, add_fd_seq [(3, ED_READ, 7, 0), (3, ED_READ, 7, 0)] emptyTwo = some s ∧
      FD_ISSET 3 (del_fd 3 s).gRfds = true :=
  ⟨⟨[⟨3, ED_READ, 7, 0⟩, ⟨3, ED_READ, 7, 0⟩], 2, 3, [3, 3], [], [], [], 0⟩,
    by decide, by decide⟩

/-- C5 (amended): for every descriptor table whose occupied slots hold descriptors from 0
to `FD_SETSIZE - 1`, and every `fd` that at most one occupied slot holds when `del_fd(fd)`
is called, `fd` is a member of none of the cached read, write and except sets once
`del_fd(fd)` has returned: bit `fd` is set in none of them, and for `fd` from 0 to
`FD_SETSIZE - 1` the macro `FD_ISSET` answers false on each. -/
theorem C5_del_fd_clears_sets (s : State) (fd : Int)
    (hwf : ∀ e ∈ s.Ed_Fd, e.fd = -1 ∨ (0 ≤ e.fd ∧ e.fd < FD_SETSIZE))
    (h1 : (s.Ed_Fd.filter (fun e => e.fd ≠ -1 ∧ e.fd = fd)).length ≤ 1) :
    (fd ∉ (del_fd fd s).gRfds ∧ fd ∉ (del_fd fd s).gWfds ∧ fd ∉ (del_fd fd s).gXfds) ∧
    (0 ≤ fd → fd < FD_SETSIZE →
      FD_ISSET fd (del_fd fd s).gRfds = false ∧ FD_ISSET fd (del_fd fd s).gWfds = false ∧
      FD_ISSET fd (del_fd fd s).gXfds = false) := by
  have hclr := del_fd_loop_clears fd s.Ed_Fd h1
  have hsets := update_fdsets_sets { s with Ed_Fd := del_fd_loop fd s.Ed_Fd }
    (del_fd_loop_in_range fd s.Ed_Fd hwf) fd
  have hmem : fd ∉ (del_fd fd s).gRfds ∧ fd ∉ (del_fd fd s).gWfds ∧
      fd ∉ (del_fd fd s).gXfds := by
    unfold del_fd
    refine ⟨?_, ?_, ?_⟩
    · rw [hsets.1]
      rintro ⟨e, he, hne, hfd, _⟩
      exact hclr e he ⟨hne, hfd⟩
    · rw [hsets.2.1]
      rintro ⟨e, he, hne, hfd, _⟩
      exact hclr e he ⟨hne, hfd⟩
    · rw [hsets.2.2]
      rintro ⟨e, he, hne, hfd, _⟩
      exact hclr e he ⟨hne, hfd⟩
  refine ⟨hmem, ?_⟩
  intro h0 _
  unfold FD_ISSET
  rw [fd_bit_of_nonneg fd h0]
  simp only [decide_eq_false_iff_not]
  exact hmem

/-- C5 (amended) at a table where descriptor 5 is held by one slot. -/
theorem C5_del_fd_clears_sets_witness :
    (∀ e ∈ threeSlots.Ed_Fd, e.fd = -1 ∨ (0 ≤ e.fd ∧ e.fd < FD_SETSIZE)) ∧
    (threeSlots.Ed_Fd.filter (fun e => e.fd ≠ -1 ∧ e.fd = 5)).length ≤ 1 ∧
    (5 ∉ (del_fd 5 threeSlots).gRfds ∧ 5 ∉ (del_fd 5 threeSlots).gWfds ∧
      5 ∉ (del_fd 5 threeSlots).gXfds) ∧
    ((0 : Int) ≤ 5 → (5 : Int) < FD_SETSIZE →
      FD_ISSET 5 (del_fd 5 threeSlots).gRfds = false ∧
      FD_ISSET 5 (del_fd 5 threeSlots).gWfds = false ∧
      FD_ISSET 5 (del_fd 5 threeSlots).gXfds = false) :=
  ⟨by decide, by decide, C5_del_fd_clears_sets threeSlots 5 (by decide) (by decide)⟩

/-! ## Registration of a timer (C6, C7, C8) -/

theorem add_timer_find_full (ts : List ED_TIMER) :
    add_timer_find ts = ts.length ↔ ∀ t ∈ ts, t.type ≠ ED_UNUSED := by
  induction ts with
  | nil => simp [add_timer_find]
  | cons t ts ih =>
    unfold add_timer_find
    by_cases h : t.type = ED_UNUSED
    · simp [h]
    · simp [h, ih]

/-- The index found by the search of `add_timer` is the lowest unused one. -/
theorem add_timer_find_spec (ts : List ED_TIMER) (i : Nat) (hi : i < ts.length)
    (hfree : (ts.getD i default).type = ED_UNUSED)
    (hlow : ∀ j, j < i → (ts.getD j default).type ≠ ED_UNUSED) : add_timer_find ts = i := by
  induction ts generalizing i with
  | nil => simp at hi
  | cons t ts ih =>
    unfold add_timer_find
    cases i with
    | zero =>
      simp at hfree
      simp [hfree]
    | succ k =>
      have h0 := hlow 0 (Nat.succ_pos k)
      simp at h0
      simp only [h0, if_false]
      congr 1
      apply ih k
      · simpa using hi
      · simpa using hfree
      · intro j hj
        have := hlow (j + 1) (by omega)
        simpa using this

theorem slot_ne_zero (L : Layout) (hL : L.WF) (i : Nat) : L.slot i ≠ 0 := by
  have := hL.1
  unfold Layout.slot
  omega

/-- C6: `add_timer` returns `NULL` exactly when the callback is null, or the kind is
periodic and `ms` is 0, or no slot is unused, or the clock cannot be read; and whenever it
returns `NULL` the timer table, `ntimers` and every other global are as before. -/
theorem C6_add_timer_failure (L : Layout) (hL : L.WF) (clk : Option timeval) (type ms : Int)
    (cb pcb_data : Nat) (s : State) :
    ((add_timer L clk type ms cb pcb_data s).1 = 0 ↔
      (cb = 0 ∨ (type = ED_PERIODIC ∧ ms = 0) ∨ (∀ t ∈ s.Timers, t.type ≠ ED_UNUSED) ∨
        clk = none)) ∧
    ((add_timer L clk type ms cb pcb_data s).1 = 0 →
      (add_timer L clk type ms cb pcb_data s).2 = s) := by
  by_cases h1 : cb = 0
  · simp [add_timer, h1]
  by_cases h2 : ms = 0 ∧ type = ED_PERIODIC
  · simp [add_timer, h1, h2]
  by_cases h3 : add_timer_find s.Timers = s.Timers.length
  · have hfull := (add_timer_find_full s.Timers).mp h3
    have hval : add_timer L clk type ms cb pcb_data s = (0, s) := by
      simp only [add_timer, h1, h2, h3, if_false, if_true]
    rw [hval]
    exact ⟨⟨fun _ => Or.inr (Or.inr (Or.inl hfull)), fun _ => rfl⟩, fun _ => rfl⟩
  cases clk with
  | none =>
    have hval : add_timer L none type ms cb pcb_data s = (0, s) := by
      simp only [add_timer, h1, h2, h3, if_false]
    rw [hval]
    exact ⟨⟨fun _ => Or.inr (Or.inr (Or.inr rfl)), fun _ => rfl⟩, fun _ => rfl⟩
  | some tv =>
    have hs := slot_ne_zero L hL (add_timer_find s.Timers)
    have hval : (add_timer L (some tv) type ms cb pcb_data s).1
        = L.slot (add_timer_find s.Timers) := by
      simp only [add_timer, h1, h2, h3, if_false]
    rw [hval]
    refine ⟨⟨fun h => absurd h hs, ?_⟩, fun h => absurd h hs⟩
    rintro (h | h | h | h)
    · exact absurd h h1
    · exact absurd ⟨h.2, h.1⟩ h2
    · exact absurd ((add_timer_find_full s.Timers).mpr h) h3
    · exact absurd h (by simp)

/-- C6 at a full table and at a table with a free slot. -/
theorem C6_add_timer_failure_witness :
    exLayout.WF ∧
    (add_timer exLayout (some ⟨0, 10⟩) ED_ONESHOT 5 11 0 fullTimers).1 = 0 ∧
    (add_timer exLayout (some ⟨0, 10⟩) ED_ONESHOT 5 11 0 fullTimers).2 = fullTimers ∧
    (add_timer exLayout (some ⟨0, 10⟩) ED_ONESHOT 5 11 0 oneFreeTimer).1 ≠ 0 :=
  ⟨by decide,
   (C6_add_timer_failure exLayout (by decide) (some ⟨0, 10⟩) ED_ONESHOT 5 11 0 fullTimers).1.mpr
     (Or.inr (Or.inr (Or.inl (by decide)))),
   (C6_add_timer_failure exLayout (by decide) (some ⟨0, 10⟩) ED_ONESHOT 5 11 0 fullTimers).2
     (by decide),
   fun h => absurd
     ((C6_add_timer_failure exLayout (by decide) (some ⟨0, 10⟩) ED_ONESHOT 5 11 0
       oneFreeTimer).1.mp h) (by decide)⟩

theorem wrap32_of_range (x : Int) (h0 : 0 ≤ x) (h1 : x < 2147483648) : wrap32 x = x := by
  unfold wrap32
  omega

/-- C7: when slot `i` is the lowest unused slot, the kind is oneshot or periodic (or any
other value), the callback is not null, `ms * 1000` is a non-negative `int` (and `ms` is not 0 for a
periodic timer) and the clock reads `tv`, `add_timer` returns the handle of slot `i`;
afterwards slot `i` holds the kind, the deadline `tv2us tv + 1000 * ms`, the period
`1000 * ms`, the callback and the data, `ntimers` is one more, and every other slot and
every other global is as before. -/
theorem C7_add_timer_success (L : Layout) (tv : timeval) (type ms : Int) (cb pcb_data : Nat)
    (s : State) (i : Nat) (hi : i < s.Timers.length)
    (hfree : (s.Timers.getD i default).type = ED_UNUSED)
    (hlow : ∀ j, j < i → (s.Timers.getD j default).type ≠ ED_UNUSED)
    (hcb : cb ≠ 0)
    (hms : 0 ≤ ms * 1000 ∧ ms * 1000 < 2147483648) (hper : type = ED_PERIODIC → ms ≠ 0) :
    add_timer L (some tv) type ms cb pcb_data s =
      (L.slot i,
        { s with
          ntimers := s.ntimers + 1
          Timers := s.Timers.set i ⟨type, tv2us tv + 1000 * ms, 1000 * ms, cb, pcb_data⟩ }) ∧
    (add_timer L (some tv) type ms cb pcb_data s).2.Timers.getD i default =
      ⟨type, tv2us tv + 1000 * ms, 1000 * ms, cb, pcb_data⟩ ∧
    (∀ j, j ≠ i → (add_timer L (some tv) type ms cb pcb_data s).2.Timers.getD j default =
      s.Timers.getD j default) := by
  have hfind := add_timer_find_spec s.Timers i hi hfree hlow
  have hne : ¬ (add_timer_find s.Timers = s.Timers.length) := by omega
  have hper2 : ¬ (ms = 0 ∧ type = ED_PERIODIC) := fun hc => hper hc.2 hc.1
  have hw := wrap32_of_range (ms * 1000) hms.1 hms.2
  have heq : add_timer L (some tv) type ms cb pcb_data s =
      (L.slot i,
        { s with
          ntimers := s.ntimers + 1
          Timers := s.Timers.set i ⟨type, tv2us tv + 1000 * ms, 1000 * ms, cb, pcb_data⟩ }) := by
    unfold add_timer
    have hne2 : ¬ (i = s.Timers.length) := by omega
    simp only [hcb, hper2, if_false, hw, hfind, hne2]
    rw [mul_comm ms 1000]
  refine ⟨heq, ?_, ?_⟩
  · rw [heq]
    simp [List.getD_eq_getElem?_getD, List.getElem?_set, hi]
  · intro j hj
    rw [heq]
    simp [List.getD_eq_getElem?_getD, List.getElem?_set, Ne.symm hj]

/-- C7 at a table whose slot 0 is in use and whose slot 1 is unused. -/
theorem C7_add_timer_success_witness :
    (1 < secondFreeTimer.Timers.length ∧
      (secondFreeTimer.Timers.getD 1 default).type = ED_UNUSED ∧
      (∀ j, j < 1 → (secondFreeTimer.Timers.getD j default).type ≠ ED_UNUSED) ∧
      ((0 : Int) ≤ 50 * 1000 ∧ (50 : Int) * 1000 < 2147483648)) ∧
    (add_timer exLayout (some ⟨2, 10⟩) ED_PERIODIC 50 33 4 secondFreeTimer =
      (exLayout.slot 1,
        { secondFreeTimer with
          ntimers := secondFreeTimer.ntimers + 1
          Timers := secondFreeTimer.Timers.set 1
            ⟨ED_PERIODIC, tv2us ⟨2, 10⟩ + 1000 * 50, 1000 * 50, 33, 4⟩ }) ∧
    (add_timer exLayout (some ⟨2, 10⟩) ED_PERIODIC 50 33 4 secondFreeTimer).2.Timers.getD 1
        default = ⟨ED_PERIODIC, tv2us ⟨2, 10⟩ + 1000 * 50, 1000 * 50, 33, 4⟩ ∧
    (∀ j, j ≠ 1 →
      (add_timer exLayout (some ⟨2, 10⟩) ED_PERIODIC 50 33 4 secondFreeTimer).2.Timers.getD j
        default = secondFreeTimer.Timers.getD j default)) :=
  ⟨⟨by decide, by decide, by decide, by decide⟩,
   C7_add_timer_success exLayout ⟨2, 10⟩ ED_PERIODIC 50 33 4 secondFreeTimer 1 (by decide)
    (by decide) (by decide) (by decide) (by decide) (by decide)⟩

/-- C8 (evaluation at the failing input): with `ms = 2147484`, below `2^31`, the product
`ms * 1000` does not fit a 32 bit `int`; `add_timer` succeeds and stores the deadline
`now - 2147483296`, a time in the past, and not `now + 1000 * ms`. -/
theorem C8_add_timer_deadline_wraps :
    (0 : Int) ≤ 2147484 ∧ (2147484 : Int) < 2 ^ 31 ∧
    add_timer exLayout (some ⟨0, 10⟩) ED_ONESHOT 2147484 11 0 oneFreeTimer =
      (1000, ⟨[], 0, -1, [], [], [], [⟨ED_ONESHOT, 10 - 2147483296, -2147483296, 11, 0⟩], 1⟩) ∧
    ((add_timer exLayout (some ⟨0, 10⟩) ED_ONESHOT 2147484 11 0 oneFreeTimer).2.Timers.getD 0
      default).to_ ≠ tv2us ⟨0, 10⟩ + 1000 * 2147484 := by
  refine ⟨by decide, by decide, by decide, by decide⟩
/-! ## Removal of a timer (C9, C10) -/

/-- What `del_timer` does with the handle of slot `i`. -/
theorem del_timer_slot (L : Layout) (hL : L.WF) (s : State) (i : Nat)
    (hi : i < s.Timers.length) :
    del_timer L (L.slot i) s =
      if (s.Timers.getD i default).type = ED_UNUSED then s
      else { s with
             Timers := s.Timers.set i { (s.Timers.getD i default) with type := ED_UNUSED }
             ntimers := s.ntimers - 1 } := by
  have hsz := hL.2
  have hrange : ¬ (((L.slot i : Nat) : Int) < L.Timers_addr ∨
      ((L.slot i : Nat) : Int) >
        L.Timers_addr + ((s.Timers.length : Int) - 1) * L.sizeof_ED_TIMER) := by
    unfold Layout.slot
    push_cast
    rintro (h | h)
    · have : (0 : Int) ≤ (i : Int) * (L.sizeof_ED_TIMER : Int) := by positivity
      omega
    · have h1 : (i : Int) ≤ (s.Timers.length : Int) - 1 := by omega
      have h2 : (i : Int) * (L.sizeof_ED_TIMER : Int)
          ≤ ((s.Timers.length : Int) - 1) * (L.sizeof_ED_TIMER : Int) :=
        mul_le_mul_of_nonneg_right h1 (by positivity)
      omega
  have hsub : L.slot i - L.Timers_addr = i * L.sizeof_ED_TIMER := by
    unfold Layout.slot
    omega
  have hmod : ¬ ((L.slot i - L.Timers_addr) % L.sizeof_ED_TIMER ≠ 0) := by
    rw [hsub]
    simp
  have hdiv : (L.slot i - L.Timers_addr) / L.sizeof_ED_TIMER = i := by
    rw [hsub]
    exact Nat.mul_div_cancel i hsz
  unfold del_timer
  rw [if_neg hrange, if_neg hmod]
  simp only [hdiv]

/-- A handle that passes the tests of `del_timer` is the address of a slot. -/
theorem del_timer_not_slot (L : Layout) (hL : L.WF) (s : State) (h : Nat)
    (hno : ∀ i, i < s.Timers.length → h ≠ L.slot i) : del_timer L h s = s := by
  have hsz := hL.2
  unfold del_timer
  by_cases hrange : ((h : Int) < L.Timers_addr ∨
      (h : Int) > L.Timers_addr + ((s.Timers.length : Int) - 1) * L.sizeof_ED_TIMER)
  · rw [if_pos hrange]
  · rw [if_neg hrange]
    by_cases hmod : (h - L.Timers_addr) % L.sizeof_ED_TIMER ≠ 0
    · rw [if_pos hmod]
    · exfalso
      have hmod0 : (h - L.Timers_addr) % L.sizeof_ED_TIMER = 0 := not_not.mp hmod
      have hge : L.Timers_addr ≤ h := by
        by_contra hc
        exact hrange (Or.inl (by omega))
      have hmul : (h - L.Timers_addr) / L.sizeof_ED_TIMER * L.sizeof_ED_TIMER
          = h - L.Timers_addr := Nat.div_mul_cancel (Nat.dvd_of_mod_eq_zero hmod0)
      have hslot : h = L.slot ((h - L.Timers_addr) / L.sizeof_ED_TIMER) := by
        unfold Layout.slot
        omega
      apply hno _ _ hslot
      by_contra hc
      have hlen : s.Timers.length ≤ (h - L.Timers_addr) / L.sizeof_ED_TIMER := by omega
      have h3 : s.Timers.length * L.sizeof_ED_TIMER ≤ h - L.Timers_addr := by
        calc s.Timers.length * L.sizeof_ED_TIMER
            ≤ (h - L.Timers_addr) / L.sizeof_ED_TIMER * L.sizeof_ED_TIMER :=
              Nat.mul_le_mul_right _ hlen
          _ = h - L.Timers_addr := hmul
      apply hrange
      right
      have h4 : ((s.Timers.length * L.sizeof_ED_TIMER : Nat) : Int)
          ≤ ((h - L.Timers_addr : Nat) : Int) := by exact_mod_cast h3
      push_cast [Nat.cast_sub hge] at h4
      have h5 : ((s.Timers.length : Int) - 1) * (L.sizeof_ED_TIMER : Int)
          = (s.Timers.length : Int) * (L.sizeof_ED_TIMER : Int) - (L.sizeof_ED_TIMER : Int) := by
        ring
      rw [h5]
      omega

theorem state_ne_of_ntimers (s : State) (ts : List ED_TIMER) :
    ({ s with Timers := ts, ntimers := s.ntimers - 1 } : State) ≠ s := by
  intro h
  have := congrArg State.ntimers h
  simp only at this
  omega
theorem getD_set_self (ts : List ED_TIMER) (i : Nat) (hi : i < ts.length) (t : ED_TIMER) :
    (ts.set i t).getD i default = t := by
  simp [List.getD_eq_getElem?_getD, List.getElem?_set, hi]

theorem getD_set_other (ts : List ED_TIMER) (i j : Nat) (hj : j ≠ i) (t : ED_TIMER) :
    (ts.set i t).getD j default = ts.getD j default := by
  simp [List.getD_eq_getElem?_getD, List.getElem?_set, Ne.symm hj]

theorem getD_mem (ts : List ED_TIMER) (j : Nat) (hj : j < ts.length) :
    ts.getD j default ∈ ts := by
  rw [List.getD_eq_getElem?_getD, List.getElem?_eq_getElem hj]
  exact List.getElem_mem hj

/-- C9: `del_timer(h)` changes the globals exactly when `h` is the address of a slot of
the table and that slot is not unused.  Then the kind of that slot becomes unused, its
other fields stay, `ntimers` is one less and every other slot is as before; in every other
case nothing changes.  Calling `del_timer(h)` a second time changes nothing more, and on a
table without an unused slot a valid `add_timer` after `del_timer` of the handle of slot
`i` succeeds, returning that slot. -/
theorem C9_del_timer_contract (L : Layout) (hL : L.WF) (s : State) (h : Nat) :
    (del_timer L h s ≠ s ↔
      ∃ i, i < s.Timers.length ∧ h = L.slot i ∧ (s.Timers.getD i default).type ≠ ED_UNUSED) ∧
    (∀ i, i < s.Timers.length → h = L.slot i → (s.Timers.getD i default).type ≠ ED_UNUSED →
      del_timer L h s =
        { s with
          Timers := s.Timers.set i { (s.Timers.getD i default) with type := ED_UNUSED }
          ntimers := s.ntimers - 1 } ∧
      ∀ j, j ≠ i → (del_timer L h s).Timers.getD j default = s.Timers.getD j default) ∧
    del_timer L h (del_timer L h s) = del_timer L h s ∧
    (∀ i tv type ms cb pcb_data, i < s.Timers.length → h = L.slot i →
      (∀ t ∈ s.Timers, t.type ≠ ED_UNUSED) → cb ≠ 0 → (type = ED_PERIODIC → ms ≠ 0) →
      (add_timer L (some tv) type ms cb pcb_data (del_timer L h s)).1 = L.slot i ∧
      (add_timer L (some tv) type ms cb pcb_data (del_timer L h s)).1 ≠ 0 ∧
      (add_timer L (some tv) type ms cb pcb_data (del_timer L h s)).2.ntimers = s.ntimers) := by
  have hact : ∀ i, i < s.Timers.length → h = L.slot i →
      (s.Timers.getD i default).type ≠ ED_UNUSED →
      del_timer L h s =
        { s with
          Timers := s.Timers.set i { (s.Timers.getD i default) with type := ED_UNUSED }
          ntimers := s.ntimers - 1 } := by
    intro i hi hh hu
    rw [hh, del_timer_slot L hL s i hi, if_neg hu]
  refine ⟨⟨?_, ?_⟩, ?_, ?_, ?_⟩
  · intro hne
    by_contra hc
    apply hne
    by_cases hex : ∃ i, i < s.Timers.length ∧ h = L.slot i
    · obtain ⟨i, hi, hh⟩ := hex
      have hu : (s.Timers.getD i default).type = ED_UNUSED := by
        by_contra hu
        exact hc ⟨i, hi, hh, hu⟩
      rw [hh, del_timer_slot L hL s i hi, if_pos hu]
    · apply del_timer_not_slot L hL s h
      intro i hi hh
      exact hex ⟨i, hi, hh⟩
  · rintro ⟨i, hi, hh, hu⟩
    rw [hact i hi hh hu]
    exact state_ne_of_ntimers s _
  · intro i hi hh hu
    refine ⟨hact i hi hh hu, ?_⟩
    intro j hj
    rw [hact i hi hh hu]
    exact getD_set_other _ _ _ hj _
  · by_cases hex : ∃ i, i < s.Timers.length ∧ h = L.slot i
    · obtain ⟨i, hi, hh⟩ := hex
      by_cases hu : (s.Timers.getD i default).type = ED_UNUSED
      · have h1 : del_timer L h s = s := by
          rw [hh, del_timer_slot L hL s i hi, if_pos hu]
        rw [h1, h1]
      · rw [hact i hi hh hu, hh]
        rw [del_timer_slot L hL _ i (by simpa using hi)]
        rw [if_pos]
        simp only
        rw [getD_set_self _ _ hi]
    · have h1 : del_timer L h s = s :=
        del_timer_not_slot L hL s h (fun i hi hh => hex ⟨i, hi, hh⟩)
      rw [h1, h1]
  · intro i tv type ms cb pcb_data hi hh hfull hcb hper
    have hu : (s.Timers.getD i default).type ≠ ED_UNUSED := hfull _ (getD_mem _ _ hi)
    rw [hact i hi hh hu]
    have hfind : add_timer_find
        (s.Timers.set i { (s.Timers.getD i default) with type := ED_UNUSED }) = i := by
      apply add_timer_find_spec
      · simpa using hi
      · rw [getD_set_self _ _ hi]
      · intro j hj
        rw [getD_set_other _ _ _ (by omega)]
        exact hfull _ (getD_mem _ _ (by omega))
    have hper2 : ¬ (ms = 0 ∧ type = ED_PERIODIC) := fun hc => hper hc.2 hc.1
    have hne : ¬ (i = s.Timers.length) := by omega
    have hval : add_timer L (some tv) type ms cb pcb_data
        { s with
          Timers := s.Timers.set i { (s.Timers.getD i default) with type := ED_UNUSED }
          ntimers := s.ntimers - 1 } =
        (L.slot i,
          { s with
            Timers := (s.Timers.set i { (s.Timers.getD i default) with type := ED_UNUSED }).set i
              ⟨type, tv2us tv + wrap32 (ms * 1000), wrap32 (ms * 1000), cb, pcb_data⟩
            ntimers := s.ntimers - 1 + 1 }) := by
      simp only [add_timer, hcb, hper2, if_false, hfind, List.length_set, hne]
    rw [hval]
    refine ⟨rfl, slot_ne_zero L hL i, ?_⟩
    simp

/-- C9 at a table without an unused slot and the handle of its slot 1. -/
theorem C9_del_timer_contract_witness :
    exLayout.WF ∧
    del_timer exLayout 1040 fullTimers =
      { fullTimers with
        Timers := fullTimers.Timers.set 1
          { (fullTimers.Timers.getD 1 default) with type := ED_UNUSED }
        ntimers := fullTimers.ntimers - 1 } ∧
    del_timer exLayout 1040 (del_timer exLayout 1040 fullTimers)
      = del_timer exLayout 1040 fullTimers ∧
    (add_timer exLayout (some ⟨0, 10⟩) ED_ONESHOT 5 11 0
      (del_timer exLayout 1040 fullTimers)).1 = exLayout.slot 1 :=
  ⟨by decide,
   ((C9_del_timer_contract exLayout (by decide) fullTimers 1040).2.1 1 (by decide) (by decide)
     (by decide)).1,
   (C9_del_timer_contract exLayout (by decide) fullTimers 1040).2.2.1,
   ((C9_del_timer_contract exLayout (by decide) fullTimers 1040).2.2.2 1 ⟨0, 10⟩ ED_ONESHOT 5 11
     0 (by decide) (by decide) (by decide) (by decide) (by decide)).1⟩

/-- C10 (as stated, refuted): a oneshot timer is added to a table of one slot and removed
through its handle; a periodic timer added later is given the same slot and the same
handle value.  `del_timer` of the stale handle is not ignored: it marks the slot of the
periodic timer unused and takes `ntimers` from 1 to 0. -/
theorem C10_stale_handle_hits_reused_slot :
    staleHandle ≠ 0 ∧ (afterRemoval.Timers.getD 0 default).type = ED_UNUSED ∧
    reuse.1 = staleHandle ∧ (reuse.2.Timers.getD 0 default).type = ED_PERIODIC ∧
    reuse.2.ntimers = 1 ∧
    (del_timer exLayout staleHandle reuse.2).ntimers = 0 ∧
    ((del_timer exLayout staleHandle reuse.2).Timers.getD 0 default).type = ED_UNUSED := by
  refine ⟨by decide, by decide, by decide, by decide, by decide, by decide, by decide⟩

/-- C10 (amended): in every state of the timer table, for the handle of any slot `i`:
when slot `i` is unused at the time of the call (the stale handle's slot has not been
reused) `del_timer` changes nothing; when slot `i` is in use (it was reused by a later
`add_timer`) `del_timer` removes the timer now in it, `ntimers` going down by one; in both
cases the timer in any other slot is as before. -/
theorem C10_del_timer_stale_handle (L : Layout) (hL : L.WF) (s : State) (i : Nat)
    (hi : i < s.Timers.length) :
    ((s.Timers.getD i default).type = ED_UNUSED → del_timer L (L.slot i) s = s) ∧
    ((s.Timers.getD i default).type ≠ ED_UNUSED →
      (del_timer L (L.slot i) s).ntimers = s.ntimers - 1 ∧
      ((del_timer L (L.slot i) s).Timers.getD i default).type = ED_UNUSED) ∧
    (∀ j, j ≠ i →
      (del_timer L (L.slot i) s).Timers.getD j default = s.Timers.getD j default) := by
  rw [del_timer_slot L hL s i hi]
  refine ⟨fun hu => by rw [if_pos hu], fun hu => ?_, fun j hj => ?_⟩
  · rw [if_neg hu]
    refine ⟨rfl, ?_⟩
    simp only
    rw [getD_set_self _ _ hi]
  · by_cases hu : (s.Timers.getD i default).type = ED_UNUSED
    · rw [if_pos hu]
    · rw [if_neg hu]
      exact getD_set_other _ _ _ hj _

/-- C10 (amended) at the state left by the removal, whose only slot is unused again. -/
theorem C10_del_timer_stale_handle_witness :
    (exLayout.WF ∧ 0 < afterRemoval.Timers.length) ∧
    ((afterRemoval.Timers.getD 0 default).type = ED_UNUSED →
      del_timer exLayout (exLayout.slot 0) afterRemoval = afterRemoval) ∧
    ((afterRemoval.Timers.getD 0 default).type ≠ ED_UNUSED →
      (del_timer exLayout (exLayout.slot 0) afterRemoval).ntimers = afterRemoval.ntimers - 1 ∧
      ((del_timer exLayout (exLayout.slot 0) afterRemoval).Timers.getD 0 default).type
        = ED_UNUSED) ∧
    (∀ j, j ≠ 0 →
      (del_timer exLayout (exLayout.slot 0) afterRemoval).Timers.getD j default
        = afterRemoval.Timers.getD j default) :=
  ⟨⟨by decide, by decide⟩,
   C10_del_timer_stale_handle exLayout (by decide) afterRemoval 0 (by decide)⟩
/-! ## The expiry pass with callbacks that leave the timer table alone (C11) -/

theorem timers_getD_default_of_le (ts : List ED_TIMER) (i : Nat) (h : ts.length ≤ i) :
    ts.getD i default = default := by
  simp [List.getD_eq_getElem?_getD, List.getElem?_eq_none h]

theorem lt_length_of_in_use (ts : List ED_TIMER) (i : Nat)
    (h : (ts.getD i default).type ≠ ED_UNUSED) : i < ts.length := by
  by_contra hc
  apply h
  rw [timers_getD_default_of_le ts i (by omega)]
  rfl

theorem call_timer_cb_some {E : Env} {cb h d : Nat} {s s1 : State}
    (hc : call_timer_cb E cb h d s = some s1) : cb ≠ 0 ∧ E.timer_cb cb h d s = some s1 := by
  unfold call_timer_cb at hc
  split at hc
  · exact absurd hc (by simp)
  · rename_i hne
    exact ⟨hne, hc⟩

/-- The first loop of `doTimer` with callbacks that leave the timer table alone: the
slots fired form an increasing list of indices, the log grows by their events, and a slot
holds `fired_entry` of what it held when it was fired and what it held otherwise. -/
theorem doTimer_expire_quiet (E : Env) (L : Layout) (now : Int) (hq : QuietTimers E) :
    ∀ (n i : Nat) (count : Int) (s : State) (log : List Event) (s1 : State)
      (log1 : List Event),
      doTimer_expire E L now n i count s log = some (s1, log1) →
      ∃ fired : List Nat,
        fired.Pairwise (· < ·) ∧ (∀ j ∈ fired, i ≤ j) ∧
        (∀ j ∈ fired, (s.Timers.getD j default).type ≠ ED_UNUSED ∧
          (s.Timers.getD j default).to_ ≤ now) ∧
        log1 = log ++ fired.map (timer_event L s) ∧
        ∀ j, s1.Timers.getD j default =
          if j ∈ fired then fired_entry now (s.Timers.getD j default)
          else s.Timers.getD j default := by
  intro n
  induction n with
  | zero =>
    intro i count s log s1 log1 h
    simp only [doTimer_expire, Option.some.injEq, Prod.mk.injEq] at h
    obtain ⟨rfl, rfl⟩ := h
    exact ⟨[], List.Pairwise.nil, by simp, by simp, by simp, by simp⟩
  | succ n ih =>
    intro i count s log s1 log1 h
    have hnil : ∃ fired : List Nat,
        fired.Pairwise (· < ·) ∧ (∀ j ∈ fired, i ≤ j) ∧
        (∀ j ∈ fired, (s.Timers.getD j default).type ≠ ED_UNUSED ∧
          (s.Timers.getD j default).to_ ≤ now) ∧
        log = log ++ fired.map (timer_event L s) ∧
        ∀ j, s.Timers.getD j default =
          if j ∈ fired then fired_entry now (s.Timers.getD j default)
          else s.Timers.getD j default :=
      ⟨[], List.Pairwise.nil, by simp, by simp, by simp, by simp⟩
    have hskip : ∀ c, doTimer_expire E L now n (i + 1) c s log = some (s1, log1) →
        ∃ fired : List Nat,
        fired.Pairwise (· < ·) ∧ (∀ j ∈ fired, i ≤ j) ∧
        (∀ j ∈ fired, (s.Timers.getD j default).type ≠ ED_UNUSED ∧
          (s.Timers.getD j default).to_ ≤ now) ∧
        log1 = log ++ fired.map (timer_event L s) ∧
        ∀ j, s1.Timers.getD j default =
          if j ∈ fired then fired_entry now (s.Timers.getD j default)
          else s.Timers.getD j default := by
      intro c hc
      obtain ⟨fired, hp, hge, hdue, hlog, hst⟩ := ih (i + 1) c s log s1 log1 hc
      exact ⟨fired, hp, fun j hj => by have := hge j hj; omega, hdue, hlog, hst⟩
    -- the two branches that fire slot `i`
    have hfire : ∀ (s2 : State) (c : Int),
        (s.Timers.getD i default).type ≠ ED_UNUSED →
        (s.Timers.getD i default).to_ ≤ now →
        s2.Timers = s.Timers.set i (fired_entry now (s.Timers.getD i default)) →
        doTimer_expire E L now n (i + 1) c s2 (log ++ [timer_event L s i]) = some (s1, log1) →
        ∃ fired : List Nat,
        fired.Pairwise (· < ·) ∧ (∀ j ∈ fired, i ≤ j) ∧
        (∀ j ∈ fired, (s.Timers.getD j default).type ≠ ED_UNUSED ∧
          (s.Timers.getD j default).to_ ≤ now) ∧
        log1 = log ++ fired.map (timer_event L s) ∧
        ∀ j, s1.Timers.getD j default =
          if j ∈ fired then fired_entry now (s.Timers.getD j default)
          else s.Timers.getD j default := by
      intro s2 c hu hdue0 hs2 hc
      obtain ⟨fired, hp, hge, hdue, hlog, hst⟩ := ih (i + 1) c s2 _ s1 log1 hc
      have hilt := lt_length_of_in_use s.Timers i hu
      have hother : ∀ j, j ≠ i → s2.Timers.getD j default = s.Timers.getD j default := by
        intro j hj
        rw [hs2]
        exact getD_set_other _ _ _ hj _
      have hself : s2.Timers.getD i default = fired_entry now (s.Timers.getD i default) := by
        rw [hs2]
        exact getD_set_self _ _ hilt _
      have hni : i ∉ fired := fun hi => by have := hge i hi; omega
      refine ⟨i :: fired, ?_, ?_, ?_, ?_, ?_⟩
      · refine List.Pairwise.cons ?_ hp
        intro j hj
        have := hge j hj
        omega
      · intro j hj
        rcases List.mem_cons.mp hj with rfl | hj
        · exact le_refl _
        · have := hge j hj
          omega
      · intro j hj
        rcases List.mem_cons.mp hj with rfl | hj
        · exact ⟨hu, hdue0⟩
        · have hji : j ≠ i := fun hc => hni (hc ▸ hj)
          rw [← hother j hji]
          exact hdue j hj
      · rw [hlog, List.map_cons, List.append_assoc, List.singleton_append]
        congr 2
        apply List.map_congr_left
        intro j hj
        have hji : j ≠ i := fun hc => hni (hc ▸ hj)
        unfold timer_event
        rw [hother j hji]
      · intro j
        rw [hst j]
        by_cases hji : j = i
        · rw [hji, if_neg hni, if_pos (List.mem_cons_self _ _), hself]
        · have hmem : (j ∈ i :: fired) ↔ j ∈ fired := by simp [hji]
          simp only [hmem, hother j hji]
    unfold doTimer_expire at h
    split at h
    · simp only [Option.some.injEq, Prod.mk.injEq] at h
      obtain ⟨rfl, rfl⟩ := h
      exact hnil
    · simp only at h
      split at h
      · exact hskip _ h
      · rename_i hu
        split at h
        · exact hskip _ h
        · rename_i hdue
          have hdue0 : (s.Timers.getD i default).to_ ≤ now := by omega
          split at h
          · rename_i hper
            split at h
            · exact absurd h (by simp)
            · rename_i sc hcall
              have hcb := (call_timer_cb_some hcall).2
              obtain ⟨hT, _⟩ := hq _ _ _ _ _ hcb
              apply hfire _ _ hu hdue0 _ h
              simp only [hT, fired_entry, hper, if_true]
          · rename_i hper
            split at h
            · simp only [Option.some.injEq, Prod.mk.injEq] at h
              obtain ⟨rfl, rfl⟩ := h
              exact hnil
            · split at h
              · exact absurd h (by simp)
              · rename_i sc hcall
                have hcb := (call_timer_cb_some hcall).2
                obtain ⟨hT, _⟩ := hq _ _ _ _ _ hcb
                apply hfire _ _ hu hdue0 _ h
                simp only [hT, fired_entry, hper, if_false]
/-- What a call of `doTimer` that returns has done: nothing when `ntimers` was 0, and
otherwise the first loop from slot 0 followed by the computation of the wait. -/
theorem doTimer_some (E : Env) (L : Layout) (tv : timeval) (s s1 : State) (log : List Event)
    (ptv : Option timeval) (h : doTimer E L (some tv) s = some (s1, log, ptv)) :
    ((s.ntimers = 0 ∧ s1 = s ∧ log = []) ∨
      (s.ntimers ≠ 0 ∧
        doTimer_expire E L (tv2us tv) s.Timers.length 0 0 s [] = some (s1, log))) ∧
    ptv =
      if s1.ntimers = 0 then none
      else if doTimer_next s1.ntimers s1.Timers 0 (-1) = -1 then none
      else
        some
          ⟨((if doTimer_next s1.ntimers s1.Timers 0 (-1) - tv2us tv < 0 then tv2us tv
              else doTimer_next s1.ntimers s1.Timers 0 (-1)) - tv2us tv).tdiv 1000000,
            ((if doTimer_next s1.ntimers s1.Timers 0 (-1) - tv2us tv < 0 then tv2us tv
              else doTimer_next s1.ntimers s1.Timers 0 (-1)) - tv2us tv).tmod 1000000⟩ := by
  unfold doTimer at h
  split at h
  · rename_i h0
    simp only [Option.some.injEq, Prod.mk.injEq] at h
    obtain ⟨rfl, rfl, rfl⟩ := h
    exact ⟨Or.inl ⟨h0, rfl, rfl⟩, by simp [h0]⟩
  · rename_i h0
    simp only at h
    split at h
    · exact absurd h (by simp)
    · rename_i sa loga hexp
      split at h
      · rename_i h1
        simp only [Option.some.injEq, Prod.mk.injEq] at h
        obtain ⟨rfl, rfl, rfl⟩ := h
        exact ⟨Or.inr ⟨h0, hexp⟩, by simp [h1]⟩
      · rename_i h1
        split at h
        · rename_i h2
          simp only [Option.some.injEq, Prod.mk.injEq] at h
          obtain ⟨rfl, rfl, rfl⟩ := h
          exact ⟨Or.inr ⟨h0, hexp⟩, by simp [h1, h2]⟩
        · rename_i h2
          simp only [Option.some.injEq, Prod.mk.injEq] at h
          obtain ⟨rfl, rfl, rfl⟩ := h
          exact ⟨Or.inr ⟨h0, hexp⟩, by simp [h1, h2]⟩

theorem slot_inj (L : Layout) (hL : L.WF) (i j : Nat) (h : L.slot i = L.slot j) : i = j := by
  unfold Layout.slot at h
  have h1 : i * L.sizeof_ED_TIMER = j * L.sizeof_ED_TIMER := by omega
  exact Nat.eq_of_mul_eq_mul_right hL.2 h1

/-- C11: when the timer callbacks do not touch the timer table and the pass fires the
periodic entry of slot `i` (its callback is called with the handle of slot `i`), the
entry was due, its deadline after the pass is the larger of its old deadline plus its
period and `now`, so it is neither before `now` nor before the old deadline, whatever the
sign of the stored period; its other fields are as before. -/
theorem C11_periodic_reschedule (E : Env) (L : Layout) (hL : L.WF) (hq : QuietTimers E)
    (tv : timeval) (s s1 : State) (log : List Event) (ptv : Option timeval) (i : Nat)
    (hrun : doTimer E L (some tv) s = some (s1, log, ptv))
    (hper : (s.Timers.getD i default).type = ED_PERIODIC)
    (hfired : ∃ cb d, Event.timer cb (L.slot i) d ∈ log) :
    (s.Timers.getD i default).to_ ≤ tv2us tv ∧
    (s1.Timers.getD i default).to_ =
      max ((s.Timers.getD i default).to_ + (s.Timers.getD i default).us) (tv2us tv) ∧
    tv2us tv ≤ (s1.Timers.getD i default).to_ ∧
    (s.Timers.getD i default).to_ ≤ (s1.Timers.getD i default).to_ ∧
    s1.Timers.getD i default =
      { (s.Timers.getD i default) with to_ := (s1.Timers.getD i default).to_ } := by
  obtain ⟨cb, d, hev⟩ := hfired
  have hsome := (doTimer_some E L tv s s1 log ptv hrun).1
  rcases hsome with ⟨_, _, hl⟩ | ⟨_, hexp⟩
  · rw [hl] at hev
    exact absurd hev (by simp)
  · obtain ⟨fired, _, _, hdue, hlog, hst⟩ :=
      doTimer_expire_quiet E L (tv2us tv) hq _ _ _ _ _ _ _ hexp
    rw [hlog, List.nil_append] at hev
    obtain ⟨j, hj, hje⟩ := List.mem_map.mp hev
    unfold timer_event at hje
    have hslot : L.slot j = L.slot i := by
      injection hje
    have hji := slot_inj L hL j i hslot
    rw [hji] at hj
    have hd := (hdue i hj).2
    have hnew := hst i
    rw [if_pos hj] at hnew
    have hto : (s1.Timers.getD i default).to_ =
        max ((s.Timers.getD i default).to_ + (s.Timers.getD i default).us) (tv2us tv) := by
      rw [hnew]
      simp only [fired_entry, hper, if_true]
      split
      · rw [max_eq_right (by omega)]
      · rw [max_eq_left (by omega)]
    refine ⟨hd, hto, ?_, ?_, ?_⟩
    · rw [hto]
      exact le_max_right _ _
    · rw [hto]
      exact le_trans hd (le_max_right _ _)
    · rw [hnew]
      simp only [fired_entry, hper, if_true]

theorem quietEnv_quiet : QuietTimers quietEnv := by
  intro cb h d s s1 hs
  simp only [quietEnv, Option.some.injEq] at hs
  rw [← hs]
  exact ⟨rfl, rfl⟩

/-- C11 at a periodic timer with deadline 500 and period 100, fired at time 1000. -/
theorem C11_periodic_reschedule_witness :
    (exLayout.WF ∧ QuietTimers quietEnv ∧
      doTimer quietEnv exLayout (some ⟨0, 1000⟩) secondFreeTimer =
        some (periodicFired, [Event.timer 22 1000 0], some ⟨0, 0⟩)) ∧
    (secondFreeTimer.Timers.getD 0 default).to_ ≤ tv2us ⟨0, 1000⟩ ∧
    (periodicFired.Timers.getD 0 default).to_ =
      max ((secondFreeTimer.Timers.getD 0 default).to_ +
        (secondFreeTimer.Timers.getD 0 default).us) (tv2us ⟨0, 1000⟩) ∧
    tv2us ⟨0, 1000⟩ ≤ (periodicFired.Timers.getD 0 default).to_ ∧
    (secondFreeTimer.Timers.getD 0 default).to_ ≤ (periodicFired.Timers.getD 0 default).to_ ∧
    periodicFired.Timers.getD 0 default =
      { (secondFreeTimer.Timers.getD 0 default) with
        to_ := (periodicFired.Timers.getD 0 default).to_ } :=
  ⟨⟨by decide, quietEnv_quiet, by decide⟩,
   C11_periodic_reschedule quietEnv exLayout (by decide) quietEnv_quiet ⟨0, 1000⟩
      secondFreeTimer periodicFired [Event.timer 22 1000 0] (some ⟨0, 0⟩) 0 (by decide)
      (by decide) ⟨22, 0, by decide⟩⟩
/-! ## The active-count invariant (C16) and the returned wait (C12) -/

theorem filter_length_set {α : Type} (p : α → Bool) (ts : List α) (i : Nat)
    (hi : i < ts.length) (t d : α) :
    ((ts.set i t).filter p).length + (if p (ts.getD i d) then 1 else 0) =
      (ts.filter p).length + (if p t then 1 else 0) := by
  induction ts generalizing i with
  | nil => simp at hi
  | cons a ts ih =>
    cases i with
    | zero =>
      simp only [List.set_cons_zero, List.getD_cons_zero, List.filter_cons]
      by_cases hpa : p a = true <;> by_cases hpt : p t = true <;> simp [hpa, hpt]
    | succ k =>
      have hk : k < ts.length := by simpa using hi
      have := ih k hk
      simp only [List.set_cons_succ, List.getD_cons_succ, List.filter_cons]
      by_cases hpa : p a = true
      · simp only [hpa, if_true, List.length_cons]
        omega
      · simp only [hpa, Bool.false_eq_true, if_false]
        exact this

/-- Moving the deadline of slot `i` keeps the active count. -/
theorem NtimersOk_set_to (s : State) (i : Nat) (x : Int) (h : NtimersOk s) :
    NtimersOk { s with
      Timers := s.Timers.set i { (s.Timers.getD i default) with to_ := x } } := by
  unfold NtimersOk at h ⊢
  by_cases hi : i < s.Timers.length
  · have := filter_length_set (fun t => decide (t.type ≠ ED_UNUSED)) s.Timers i hi
      { (s.Timers.getD i default) with to_ := x } default
    simp only at this ⊢
    rw [h]
    omega
  · simp only
    rw [List.set_eq_of_length_le (by omega)]
    exact h

/-- Marking the in-use slot `i` unused and decrementing `ntimers` keeps the active count. -/
theorem NtimersOk_free (s : State) (i : Nat) (h : NtimersOk s)
    (hu : (s.Timers.getD i default).type ≠ ED_UNUSED) :
    NtimersOk { s with
      Timers := s.Timers.set i { (s.Timers.getD i default) with type := ED_UNUSED }
      ntimers := s.ntimers - 1 } := by
  unfold NtimersOk at h ⊢
  have hi := lt_length_of_in_use s.Timers i hu
  have := filter_length_set (fun t => decide (t.type ≠ ED_UNUSED)) s.Timers i hi
    { (s.Timers.getD i default) with type := ED_UNUSED } default
  have h1 : decide ((s.Timers.getD i default).type ≠ ED_UNUSED) = true := decide_eq_true hu
  have h2 : decide (ED_UNUSED ≠ ED_UNUSED) = false := by decide
  simp only [h1, h2, if_true, Bool.false_eq_true, if_false] at this
  simp only
  rw [h]
  omega

/-- The first loop of `doTimer` keeps every property of the globals that the callbacks
keep and that the two writes of the loop itself, at slots from `i0` on, keep. -/
theorem doTimer_expire_preserves (E : Env) (L : Layout) (now : Int) (P : State → Prop)
    (i0 : Nat)
    (hcb : ∀ cb h d s s1, P s → E.timer_cb cb h d s = some s1 → P s1)
    (hper : ∀ s i x, i0 ≤ i → P s →
      P { s with Timers := s.Timers.set i { (s.Timers.getD i default) with to_ := x } })
    (hone : ∀ s i, i0 ≤ i → P s → (s.Timers.getD i default).type ≠ ED_UNUSED →
      P { s with
          Timers := s.Timers.set i { (s.Timers.getD i default) with type := ED_UNUSED }
          ntimers := s.ntimers - 1 }) :
    ∀ (n i : Nat) (count : Int) (s : State) (log : List Event) (s1 : State)
      (log1 : List Event), i0 ≤ i → P s →
      doTimer_expire E L now n i count s log = some (s1, log1) → P s1 := by
  intro n
  induction n with
  | zero =>
    intro i count s log s1 log1 _ hP h
    simp only [doTimer_expire, Option.some.injEq, Prod.mk.injEq] at h
    rw [← h.1]
    exact hP
  | succ n ih =>
    intro i count s log s1 log1 hi hP h
    unfold doTimer_expire at h
    split at h
    · simp only [Option.some.injEq, Prod.mk.injEq] at h
      rw [← h.1]
      exact hP
    · simp only at h
      split at h
      · exact ih _ _ _ _ _ _ (by omega) hP h
      · rename_i hu
        split at h
        · exact ih _ _ _ _ _ _ (by omega) hP h
        · split at h
          · split at h
            · exact absurd h (by simp)
            · rename_i sc hcall
              have hPc := hcb _ _ _ _ _ hP (call_timer_cb_some hcall).2
              exact ih _ _ _ _ _ _ (by omega) (hper sc i _ hi hPc) h
          · split at h
            · simp only [Option.some.injEq, Prod.mk.injEq] at h
              rw [← h.1]
              exact hP
            · split at h
              · exact absurd h (by simp)
              · rename_i sc hcall
                have hPc := hcb _ _ _ _ _ (hone s i hi hP hu) (call_timer_cb_some hcall).2
                exact ih _ _ _ _ _ _ (by omega) hPc h

/-- The first loop of `doTimer` returns when every timer in use has a callback and the
callbacks return, for a property `P` that says so and that callbacks and loop keep. -/
theorem doTimer_expire_returns (E : Env) (L : Layout) (now : Int) (P : State → Prop)
    (hcbs : ∀ s, P s → TimerCbsOk s)
    (hcb : ∀ cb h d s, cb ≠ 0 → P s → ∃ s1, E.timer_cb cb h d s = some s1 ∧ P s1)
    (hper : ∀ s i x, P s →
      P { s with Timers := s.Timers.set i { (s.Timers.getD i default) with to_ := x } })
    (hone : ∀ s i, P s → (s.Timers.getD i default).type ≠ ED_UNUSED →
      P { s with
          Timers := s.Timers.set i { (s.Timers.getD i default) with type := ED_UNUSED }
          ntimers := s.ntimers - 1 }) :
    ∀ (n i : Nat) (count : Int) (s : State) (log : List Event), P s →
      ∃ s1 log1, doTimer_expire E L now n i count s log = some (s1, log1) ∧ P s1 := by
  intro n
  induction n with
  | zero =>
    intro i count s log hP
    exact ⟨s, log, rfl, hP⟩
  | succ n ih =>
    intro i count s log hP
    unfold doTimer_expire
    by_cases hc : count = s.ntimers
    · rw [if_pos hc]
      exact ⟨s, log, rfl, hP⟩
    · rw [if_neg hc]
      simp only
      by_cases hu : (s.Timers.getD i default).type = ED_UNUSED
      · rw [if_pos hu]
        exact ih _ _ _ _ hP
      · rw [if_neg hu]
        have hcbne : (s.Timers.getD i default).cb ≠ 0 :=
          hcbs s hP _ (getD_mem _ _ (lt_length_of_in_use _ _ hu)) hu
        by_cases hd : (s.Timers.getD i default).to_ > now
        · rw [if_pos hd]
          exact ih _ _ _ _ hP
        · rw [if_neg hd]
          by_cases hp : (s.Timers.getD i default).type = ED_PERIODIC
          · rw [if_pos hp]
            obtain ⟨sc, hsc, hPc⟩ := hcb (s.Timers.getD i default).cb (L.slot i)
              (s.Timers.getD i default).pcb_data s hcbne hP
            simp only [call_timer_cb, hcbne, if_false, hsc]
            exact ih _ _ _ _ (hper sc i _ hPc)
          · rw [if_neg hp, if_neg hcbne]
            obtain ⟨sc, hsc, hPc⟩ := hcb (s.Timers.getD i default).cb (L.slot i)
              (s.Timers.getD i default).pcb_data _ hcbne (hone s i hP hu)
            simp only [call_timer_cb, hcbne, if_false, hsc]
            exact ih _ _ _ _ hPc

/-- The second loop of `doTimer` started with a deadline already seen: when `ntimers`
minus `count` is the number of timers in use in the rest of the table and none of them
has the deadline `-1`, the result is the least of `nextto` and their deadlines. -/
theorem doTimer_next_min (ntimers : Int) :
    ∀ (ts : List ED_TIMER) (count nextto : Int),
      ntimers - count = ((ts.filter (fun t => t.type ≠ ED_UNUSED)).length : Int) →
      nextto ≠ -1 → (∀ t ∈ ts, t.type ≠ ED_UNUSED → t.to_ ≠ -1) →
      doTimer_next ntimers ts count nextto ≠ -1 ∧
      doTimer_next ntimers ts count nextto ≤ nextto ∧
      (∀ t ∈ ts, t.type ≠ ED_UNUSED → doTimer_next ntimers ts count nextto ≤ t.to_) ∧
      (doTimer_next ntimers ts count nextto = nextto ∨
        ∃ t ∈ ts, t.type ≠ ED_UNUSED ∧ t.to_ = doTimer_next ntimers ts count nextto) := by
  intro ts
  induction ts with
  | nil =>
    intro count nextto _ hne _
    simp [doTimer_next, hne]
  | cons a ts ih =>
    intro count nextto hcount hne hno
    unfold doTimer_next
    by_cases hc : count = ntimers
    · rw [if_pos hc]
      have hz : ((a :: ts).filter (fun t => t.type ≠ ED_UNUSED)).length = 0 := by
        have : ntimers - count = 0 := by omega
        rw [this] at hcount
        exact_mod_cast hcount.symm
      have hnone : ∀ t ∈ a :: ts, ¬ (t.type ≠ ED_UNUSED) := by
        intro t ht hu
        have hm : t ∈ (a :: ts).filter (fun t => t.type ≠ ED_UNUSED) :=
          List.mem_filter.mpr ⟨ht, decide_eq_true hu⟩
        have := List.length_pos_of_mem hm
        omega
      exact ⟨hne, le_refl _, fun t ht hu => absurd hu (hnone t ht), Or.inl rfl⟩
    · rw [if_neg hc]
      by_cases hu : a.type = ED_UNUSED
      · rw [if_pos hu]
        have hcount2 : ntimers - count
            = ((ts.filter (fun t => t.type ≠ ED_UNUSED)).length : Int) := by
          rw [hcount, List.filter_cons]
          simp [hu]
        obtain ⟨h1, h2, h3, h4⟩ := ih count nextto hcount2 hne
          (fun t ht => hno t (List.mem_cons_of_mem _ ht))
        refine ⟨h1, h2, ?_, ?_⟩
        · intro t ht htu
          rcases List.mem_cons.mp ht with rfl | ht
          · exact absurd hu htu
          · exact h3 t ht htu
        · rcases h4 with h4 | ⟨t, ht, htu, hte⟩
          · exact Or.inl h4
          · exact Or.inr ⟨t, List.mem_cons_of_mem _ ht, htu, hte⟩
      · rw [if_neg hu]
        have hcount2 : ntimers - (count + 1)
            = ((ts.filter (fun t => t.type ≠ ED_UNUSED)).length : Int) := by
          have : ((a :: ts).filter (fun t => t.type ≠ ED_UNUSED)).length
              = (ts.filter (fun t => t.type ≠ ED_UNUSED)).length + 1 := by
            rw [List.filter_cons]
            simp [hu]
          rw [this] at hcount
          push_cast at hcount
          omega
        have ha : a.to_ ≠ -1 := hno a (List.mem_cons_self _ _) hu
        have hno2 : ∀ t ∈ ts, t.type ≠ ED_UNUSED → t.to_ ≠ -1 :=
          fun t ht => hno t (List.mem_cons_of_mem _ ht)
        by_cases hlt : a.to_ < nextto
        · rw [if_pos (Or.inr hlt)]
          obtain ⟨h1, h2, h3, h4⟩ := ih (count + 1) a.to_ hcount2 ha hno2
          refine ⟨h1, by omega, ?_, ?_⟩
          · intro t ht htu
            rcases List.mem_cons.mp ht with rfl | ht
            · exact h2
            · exact h3 t ht htu
          · right
            rcases h4 with h4 | ⟨t, ht, htu, hte⟩
            · exact ⟨a, List.mem_cons_self _ _, hu, h4.symm⟩
            · exact ⟨t, List.mem_cons_of_mem _ ht, htu, hte⟩
        · rw [if_neg (not_or.mpr ⟨hne, hlt⟩)]
          obtain ⟨h1, h2, h3, h4⟩ := ih (count + 1) nextto hcount2 hne hno2
          refine ⟨h1, h2, ?_, ?_⟩
          · intro t ht htu
            rcases List.mem_cons.mp ht with rfl | ht
            · omega
            · exact h3 t ht htu
          · rcases h4 with h4 | ⟨t, ht, htu, hte⟩
            · exact Or.inl h4
            · exact Or.inr ⟨t, List.mem_cons_of_mem _ ht, htu, hte⟩

/-- The second loop of `doTimer` as it is started, with `nextto = -1`: under the active
count invariant and with no deadline `-1` in use, the result is `-1` when no timer is in
use and the least deadline in use otherwise. -/
theorem doTimer_next_first (ntimers : Int) :
    ∀ (ts : List ED_TIMER) (count : Int),
      ntimers - count = ((ts.filter (fun t => t.type ≠ ED_UNUSED)).length : Int) →
      (∀ t ∈ ts, t.type ≠ ED_UNUSED → t.to_ ≠ -1) →
      ((∀ t ∈ ts, t.type = ED_UNUSED) → doTimer_next ntimers ts count (-1) = -1) ∧
      ((∃ t ∈ ts, t.type ≠ ED_UNUSED) →
        doTimer_next ntimers ts count (-1) ≠ -1 ∧
        (∃ t ∈ ts, t.type ≠ ED_UNUSED ∧ t.to_ = doTimer_next ntimers ts count (-1)) ∧
        ∀ t ∈ ts, t.type ≠ ED_UNUSED → doTimer_next ntimers ts count (-1) ≤ t.to_) := by
  intro ts
  induction ts with
  | nil =>
    intro count _ _
    simp [doTimer_next]
  | cons a ts ih =>
    intro count hcount hno
    have hno2 : ∀ t ∈ ts, t.type ≠ ED_UNUSED → t.to_ ≠ -1 :=
      fun t ht => hno t (List.mem_cons_of_mem _ ht)
    unfold doTimer_next
    by_cases hc : count = ntimers
    · rw [if_pos hc]
      have hz : ((a :: ts).filter (fun t => t.type ≠ ED_UNUSED)).length = 0 := by
        have : ntimers - count = 0 := by omega
        rw [this] at hcount
        exact_mod_cast hcount.symm
      refine ⟨fun _ => rfl, ?_⟩
      rintro ⟨t, ht, hu⟩
      have hm : t ∈ (a :: ts).filter (fun t => t.type ≠ ED_UNUSED) :=
        List.mem_filter.mpr ⟨ht, decide_eq_true hu⟩
      have := List.length_pos_of_mem hm
      omega
    · rw [if_neg hc]
      by_cases hu : a.type = ED_UNUSED
      · rw [if_pos hu]
        have hcount2 : ntimers - count
            = ((ts.filter (fun t => t.type ≠ ED_UNUSED)).length : Int) := by
          rw [hcount, List.filter_cons]
          simp [hu]
        obtain ⟨h1, h2⟩ := ih count hcount2 hno2
        constructor
        · intro hall
          exact h1 (fun t ht => hall t (List.mem_cons_of_mem _ ht))
        · rintro ⟨t, ht, htu⟩
          rcases List.mem_cons.mp ht with rfl | ht
          · exact absurd hu htu
          · obtain ⟨g1, ⟨x, hx, hxu, hxe⟩, g3⟩ := h2 ⟨t, ht, htu⟩
            refine ⟨g1, ⟨x, List.mem_cons_of_mem _ hx, hxu, hxe⟩, ?_⟩
            intro y hy hyu
            rcases List.mem_cons.mp hy with rfl | hy
            · exact absurd hu hyu
            · exact g3 y hy hyu
      · rw [if_neg hu, if_pos (Or.inl rfl)]
        have hcount2 : ntimers - (count + 1)
            = ((ts.filter (fun t => t.type ≠ ED_UNUSED)).length : Int) := by
          have : ((a :: ts).filter (fun t => t.type ≠ ED_UNUSED)).length
              = (ts.filter (fun t => t.type ≠ ED_UNUSED)).length + 1 := by
            rw [List.filter_cons]
            simp [hu]
          rw [this] at hcount
          push_cast at hcount
          omega
        have ha : a.to_ ≠ -1 := hno a (List.mem_cons_self _ _) hu
        obtain ⟨h1, h2, h3, h4⟩ := doTimer_next_min ntimers ts (count + 1) a.to_ hcount2 ha hno2
        constructor
        · intro hall
          exact absurd (hall a (List.mem_cons_self _ _)) hu
        · intro _
          refine ⟨h1, ?_, ?_⟩
          · rcases h4 with h4 | ⟨t, ht, htu, hte⟩
            · exact ⟨a, List.mem_cons_self _ _, hu, h4.symm⟩
            · exact ⟨t, List.mem_cons_of_mem _ ht, htu, hte⟩
          · intro t ht htu
            rcases List.mem_cons.mp ht with rfl | ht
            · exact h2
            · exact h3 t ht htu

theorem TimerCbsOk_set_to (s : State) (i : Nat) (x : Int) (h : TimerCbsOk s) :
    TimerCbsOk { s with
      Timers := s.Timers.set i { (s.Timers.getD i default) with to_ := x } } := by
  intro t ht hu
  rcases List.mem_or_eq_of_mem_set ht with h1 | h1
  · exact h t h1 hu
  · rw [h1] at hu ⊢
    simp only at hu ⊢
    exact h _ (getD_mem _ _ (lt_length_of_in_use _ _ hu)) hu

theorem TimerCbsOk_free (s : State) (i : Nat) (h : TimerCbsOk s) :
    TimerCbsOk { s with
      Timers := s.Timers.set i { (s.Timers.getD i default) with type := ED_UNUSED }
      ntimers := s.ntimers - 1 } := by
  intro t ht hu
  rcases List.mem_or_eq_of_mem_set ht with h1 | h1
  · exact h t h1 hu
  · rw [h1] at hu
    exact absurd rfl hu

theorem NtimersOk_zero_iff (s : State) (h : NtimersOk s) :
    s.ntimers = 0 ↔ ∀ t ∈ s.Timers, t.type = ED_UNUSED := by
  unfold NtimersOk at h
  rw [h]
  constructor
  · intro h0 t ht
    by_contra hu
    have hm : t ∈ s.Timers.filter (fun t => t.type ≠ ED_UNUSED) :=
      List.mem_filter.mpr ⟨ht, decide_eq_true hu⟩
    have := List.length_pos_of_mem hm
    omega
  · intro hall
    have : s.Timers.filter (fun t => t.type ≠ ED_UNUSED) = [] := by
      rw [List.filter_eq_nil_iff]
      intro t ht
      simp [hall t ht]
    rw [this]
    rfl

/-- The wait computed at the end of `doTimer` from the globals after the first loop. -/
theorem doTimer_wait_spec (now : Int) (s1 : State) (ptv : Option timeval)
    (hinv : NtimersOk s1) (hno : ∀ t ∈ s1.Timers, t.type ≠ ED_UNUSED → t.to_ ≠ -1)
    (hptv : ptv =
      if s1.ntimers = 0 then none
      else if doTimer_next s1.ntimers s1.Timers 0 (-1) = -1 then none
      else
        some
          ⟨((if doTimer_next s1.ntimers s1.Timers 0 (-1) - now < 0 then now
              else doTimer_next s1.ntimers s1.Timers 0 (-1)) - now).tdiv 1000000,
            ((if doTimer_next s1.ntimers s1.Timers 0 (-1) - now < 0 then now
              else doTimer_next s1.ntimers s1.Timers 0 (-1)) - now).tmod 1000000⟩) :
    (ptv = none ↔ ∀ t ∈ s1.Timers, t.type = ED_UNUSED) ∧
    ∀ v, ptv = some v →
      0 ≤ v.tv_sec ∧ 0 ≤ v.tv_usec ∧ v.tv_usec < 1000000 ∧
      ∃ m, (∃ t ∈ s1.Timers, t.type ≠ ED_UNUSED ∧ t.to_ = m) ∧
        (∀ t ∈ s1.Timers, t.type ≠ ED_UNUSED → m ≤ t.to_) ∧
        v.tv_sec * 1000000 + v.tv_usec = max 0 (m - now) := by
  have hz := NtimersOk_zero_iff s1 hinv
  have hcount : s1.ntimers - 0
      = ((s1.Timers.filter (fun t => t.type ≠ ED_UNUSED)).length : Int) := by
    rw [Int.sub_zero]
    exact hinv
  obtain ⟨_, hfirst⟩ := doTimer_next_first s1.ntimers s1.Timers 0 hcount hno
  by_cases h0 : s1.ntimers = 0
  · rw [if_pos h0] at hptv
    rw [hptv]
    exact ⟨⟨fun _ => hz.mp h0, fun _ => rfl⟩, fun v hv => absurd hv (by simp)⟩
  · rw [if_neg h0] at hptv
    have hex : ∃ t ∈ s1.Timers, t.type ≠ ED_UNUSED := by
      by_contra hc
      apply h0
      apply hz.mpr
      intro t ht
      by_contra hu
      exact hc ⟨t, ht, hu⟩
    obtain ⟨hne, hmem, hle⟩ := hfirst hex
    rw [if_neg hne] at hptv
    rw [hptv]
    constructor
    · constructor
      · intro h
        exact absurd h (by simp)
      · intro hall
        obtain ⟨t, ht, hu⟩ := hex
        exact absurd (hall t ht) hu
    · intro v hv
      simp only [Option.some.injEq] at hv
      rw [← hv]
      simp only
      have hx : 0 ≤ (if doTimer_next s1.ntimers s1.Timers 0 (-1) - now < 0 then now
          else doTimer_next s1.ntimers s1.Timers 0 (-1)) - now := by
        split <;> omega
      have hmax : (if doTimer_next s1.ntimers s1.Timers 0 (-1) - now < 0 then now
          else doTimer_next s1.ntimers s1.Timers 0 (-1)) - now
          = max 0 (doTimer_next s1.ntimers s1.Timers 0 (-1) - now) := by
        split
        · rw [max_eq_left (by omega)]
          omega
        · rw [max_eq_right (by omega)]
      refine ⟨Int.tdiv_nonneg hx (by decide), Int.tmod_nonneg _ hx,
        Int.tmod_lt_of_pos _ (by decide), doTimer_next s1.ntimers s1.Timers 0 (-1), hmem, hle, ?_⟩
      rw [← hmax]
      exact Int.tdiv_add_tmod' _ _

/-- C12 (evaluation at the failing input): the second scan of `doTimer` uses `-1` for
"no deadline seen yet", and `-1` is a deadline `add_timer` can store.  With the clock at
5.000295 s, `add_timer(ED_ONESHOT, 1, ...)` and `add_timer(ED_PERIODIC, 4289967, ...)`
fill two slots, the second with the deadline `-1`; `ntimers` is the number of slots in
use.  In the pass at 6 s the oneshot is fired and the first scan ends (`count` has reached
the decremented `ntimers`); the periodic timer is in use after the pass, and `doTimer`
returns `NULL`, not the wait of 0.  The same happens without the early end of the first
scan: on a table of one slot, the callback of the due oneshot registers a oneshot timer
whose deadline is `-1`; it is in use after the pass and `doTimer` returns `NULL`. -/
theorem C12_doTimer_null_with_timer_in_use :
    (sentinelInput = ⟨[], 0, -1, [], [], [],
        [⟨ED_ONESHOT, 5001295, 1000, 11, 0⟩, ⟨ED_PERIODIC, -1, -5000296, 22, 0⟩], 2⟩ ∧
      NtimersOk sentinelInput ∧
      doTimer quietEnv exLayout (some ⟨6, 0⟩) sentinelInput =
        some (⟨[], 0, -1, [], [], [],
            [⟨ED_UNUSED, 5001295, 1000, 11, 0⟩, ⟨ED_PERIODIC, -1, -5000296, 22, 0⟩], 1⟩,
          [Event.timer 11 1000 0], none)) ∧
    ((add_timer exLayout (some ⟨5, 295⟩) ED_ONESHOT 1 11 0 oneFreeTimer).2 =
        ⟨[], 0, -1, [], [], [], [⟨ED_ONESHOT, 5001295, 1000, 11, 0⟩], 1⟩ ∧
      NtimersOk (add_timer exLayout (some ⟨5, 295⟩) ED_ONESHOT 1 11 0 oneFreeTimer).2 ∧
      doTimer lateTimerEnv exLayout (some ⟨6, 0⟩)
          (add_timer exLayout (some ⟨5, 295⟩) ED_ONESHOT 1 11 0 oneFreeTimer).2 =
        some (⟨[], 0, -1, [], [], [], [⟨ED_ONESHOT, -1, -6000296, 11, 0⟩], 1⟩,
          [Event.timer 11 1000 0], none)) := by
  refine ⟨⟨by decide, by decide, by decide⟩, by decide, by decide, by decide⟩

/-- The wait `doTimer` returns away from the deadline `-1`.  When `ntimers` is the number
of slots in use, every timer in use has a callback, the callbacks return and keep both
properties, and the clock is read, `doTimer` returns and the active count invariant holds
afterwards.  If no timer in use after the pass has the deadline `-1`, the result is `NULL`
exactly when no timer is in use after the pass, and otherwise a wait with `tv_sec >= 0`,
`0 <= tv_usec < 1000000` and `tv_sec * 1000000 + tv_usec = max 0 (m - now)`, `m` being the
least deadline in use after the pass. -/
theorem doTimer_wait (E : Env) (L : Layout) (tv : timeval) (s : State)
    (hcb : ∀ cb h d s0, cb ≠ 0 → NtimersOk s0 ∧ TimerCbsOk s0 →
      ∃ s1, E.timer_cb cb h d s0 = some s1 ∧ NtimersOk s1 ∧ TimerCbsOk s1)
    (hinv : NtimersOk s) (hcbs : TimerCbsOk s) :
    ∃ s1 log ptv, doTimer E L (some tv) s = some (s1, log, ptv) ∧ NtimersOk s1 ∧
      ((∀ t ∈ s1.Timers, t.type ≠ ED_UNUSED → t.to_ ≠ -1) →
        (ptv = none ↔ ∀ t ∈ s1.Timers, t.type = ED_UNUSED) ∧
        ∀ v, ptv = some v →
          0 ≤ v.tv_sec ∧ 0 ≤ v.tv_usec ∧ v.tv_usec < 1000000 ∧
          ∃ m, (∃ t ∈ s1.Timers, t.type ≠ ED_UNUSED ∧ t.to_ = m) ∧
            (∀ t ∈ s1.Timers, t.type ≠ ED_UNUSED → m ≤ t.to_) ∧
            v.tv_sec * 1000000 + v.tv_usec = max 0 (m - tv2us tv)) := by
  have hrun : ∃ s1 log ptv, doTimer E L (some tv) s = some (s1, log, ptv) ∧ NtimersOk s1 := by
    by_cases h0 : s.ntimers = 0
    · exact ⟨s, [], none, by simp [doTimer, h0], hinv⟩
    · obtain ⟨s1, log, hexp, hP⟩ := doTimer_expire_returns E L (tv2us tv)
        (fun s => NtimersOk s ∧ TimerCbsOk s) (fun s h => h.2) hcb
        (fun s i x h => ⟨NtimersOk_set_to s i x h.1, TimerCbsOk_set_to s i x h.2⟩)
        (fun s i h hu => ⟨NtimersOk_free s i h.1 hu, TimerCbsOk_free s i h.2⟩)
        s.Timers.length 0 0 s [] ⟨hinv, hcbs⟩
      have hptv : ∃ ptv, doTimer E L (some tv) s = some (s1, log, ptv) := by
        simp only [doTimer, h0, if_false, hexp]
        split
        · exact ⟨_, rfl⟩
        · split <;> exact ⟨_, rfl⟩
      obtain ⟨ptv, hptv⟩ := hptv
      exact ⟨s1, log, ptv, hptv, hP.1⟩
  obtain ⟨s1, log, ptv, hdo, hinv1⟩ := hrun
  refine ⟨s1, log, ptv, hdo, hinv1, ?_⟩
  intro hno
  exact doTimer_wait_spec (tv2us tv) s1 ptv hinv1 hno (doTimer_some E L tv s s1 log ptv hdo).2

theorem add_timer_find_unused (ts : List ED_TIMER) (h : add_timer_find ts ≠ ts.length) :
    add_timer_find ts < ts.length ∧
    (ts.getD (add_timer_find ts) default).type = ED_UNUSED := by
  induction ts with
  | nil => simp [add_timer_find] at h
  | cons a ts ih =>
    unfold add_timer_find at h ⊢
    by_cases ha : a.type = ED_UNUSED
    · simp [ha]
    · simp only [ha, if_false] at h ⊢
      have h1 : add_timer_find ts ≠ ts.length := by
        intro hc
        apply h
        simp [hc]
      obtain ⟨h2, h3⟩ := ih h1
      exact ⟨by simpa using h2, by simpa using h3⟩

/-- The globals after `add_timer`: unchanged, or slot `add_timer_find` filled and
`ntimers` one more. -/
theorem add_timer_cases (L : Layout) (clk : Option timeval) (type ms : Int)
    (cb pcb_data : Nat) (s : State) :
    (add_timer L clk type ms cb pcb_data s).2 = s ∨
    (add_timer_find s.Timers ≠ s.Timers.length ∧ cb ≠ 0 ∧
      ∃ t : ED_TIMER, t.type = type ∧ t.cb = cb ∧
        (add_timer L clk type ms cb pcb_data s).2 =
          { s with Timers := s.Timers.set (add_timer_find s.Timers) t
                   ntimers := s.ntimers + 1 }) := by
  unfold add_timer
  by_cases h1 : cb = 0
  · rw [if_pos h1]
    exact Or.inl rfl
  · rw [if_neg h1]
    by_cases h2 : ms = 0 ∧ type = ED_PERIODIC
    · rw [if_pos h2]
      exact Or.inl rfl
    · rw [if_neg h2]
      simp only
      by_cases h3 : add_timer_find s.Timers = s.Timers.length
      · rw [if_pos h3]
        exact Or.inl rfl
      · rw [if_neg h3]
        cases clk with
        | none => exact Or.inl rfl
        | some tv => exact Or.inr ⟨h3, h1, _, rfl, rfl, rfl⟩

theorem add_timer_NtimersOk (L : Layout) (clk : Option timeval) (type ms : Int)
    (cb pcb_data : Nat) (s : State) (h : NtimersOk s) (hk : type ≠ ED_UNUSED) :
    NtimersOk (add_timer L clk type ms cb pcb_data s).2 := by
  rcases add_timer_cases L clk type ms cb pcb_data s with h1 | ⟨hne, _, t, ht, _, h1⟩
  · rw [h1]
    exact h
  · rw [h1]
    obtain ⟨hlt, hun⟩ := add_timer_find_unused s.Timers hne
    have := filter_length_set (fun t => decide (t.type ≠ ED_UNUSED)) s.Timers
      (add_timer_find s.Timers) hlt t default
    have e1 : decide ((s.Timers.getD (add_timer_find s.Timers) default).type ≠ ED_UNUSED)
        = false := decide_eq_false (fun hc => hc hun)
    have e2 : decide (t.type ≠ ED_UNUSED) = true := by
      rw [ht]
      exact decide_eq_true hk
    simp only [e1, e2, if_true, Bool.false_eq_true, if_false] at this
    unfold NtimersOk at h ⊢
    simp only
    rw [h]
    omega

theorem del_timer_cases (L : Layout) (hL : L.WF) (ptimer : Nat) (s : State) :
    del_timer L ptimer s = s ∨
    ∃ i, ptimer = L.slot i ∧ i < s.Timers.length ∧
      (s.Timers.getD i default).type ≠ ED_UNUSED ∧
      del_timer L ptimer s =
        { s with
          Timers := s.Timers.set i { (s.Timers.getD i default) with type := ED_UNUSED }
          ntimers := s.ntimers - 1 } := by
  by_cases hex : ∃ i, i < s.Timers.length ∧ ptimer = L.slot i
  · obtain ⟨i, hi, hh⟩ := hex
    by_cases hu : (s.Timers.getD i default).type = ED_UNUSED
    · left
      rw [hh, del_timer_slot L hL s i hi, if_pos hu]
    · right
      refine ⟨i, hh, hi, hu, ?_⟩
      rw [hh, del_timer_slot L hL s i hi, if_neg hu]
  · left
    exact del_timer_not_slot L hL s ptimer (fun i hi hh => hex ⟨i, hi, hh⟩)

theorem del_timer_NtimersOk (L : Layout) (hL : L.WF) (ptimer : Nat) (s : State)
    (h : NtimersOk s) : NtimersOk (del_timer L ptimer s) := by
  rcases del_timer_cases L hL ptimer s with h1 | ⟨i, _, _, hu, h1⟩
  · rw [h1]
    exact h
  · rw [h1]
    exact NtimersOk_free s i h hu

theorem valid_kind_in_use (type : Int) (h : type = ED_ONESHOT ∨ type = ED_PERIODIC) :
    type ≠ ED_UNUSED := by
  rcases h with h | h <;> rw [h] <;> decide

theorem run_timer_calls_NtimersOk (L : Layout) (hL : L.WF) (handle : Nat) :
    ∀ (cs : List TimerCall) (s : State), (∀ c ∈ cs, c.valid) → NtimersOk s →
      NtimersOk (run_timer_calls L handle cs s) := by
  intro cs
  induction cs with
  | nil =>
    intro s _ h
    exact h
  | cons c cs ih =>
    intro s hv h
    have hv2 : ∀ c ∈ cs, c.valid := fun c hc => hv c (List.mem_cons_of_mem _ hc)
    have hc := hv c (List.mem_cons_self _ _)
    cases c with
    | add clk type ms cb pcb_data =>
      exact ih _ hv2 (add_timer_NtimersOk L clk type ms cb pcb_data s h (valid_kind_in_use type hc))
    | del ptimer => exact ih _ hv2 (del_timer_NtimersOk L hL ptimer s h)
    | del_own => exact ih _ hv2 (del_timer_NtimersOk L hL handle s h)

theorem doTimer_NtimersOk (E : Env) (L : Layout) (clk : Option timeval) (s s1 : State)
    (log : List Event) (ptv : Option timeval)
    (hcb : ∀ cb h d s0 s2, NtimersOk s0 → E.timer_cb cb h d s0 = some s2 → NtimersOk s2)
    (hinv : NtimersOk s) (hrun : doTimer E L clk s = some (s1, log, ptv)) : NtimersOk s1 := by
  cases clk with
  | none =>
    have : doTimer E L none s = some (s, [], none) := by
      unfold doTimer
      split <;> rfl
    rw [this] at hrun
    simp only [Option.some.injEq, Prod.mk.injEq] at hrun
    rw [← hrun.1]
    exact hinv
  | some tv =>
    rcases (doTimer_some E L tv s s1 log ptv hrun).1 with ⟨_, h1, _⟩ | ⟨_, hexp⟩
    · rw [h1]
      exact hinv
    · exact doTimer_expire_preserves E L (tv2us tv) NtimersOk 0 hcb
        (fun s i x _ h => NtimersOk_set_to s i x h)
        (fun s i _ h hu => NtimersOk_free s i h hu) _ _ _ _ _ _ _ (Nat.zero_le _) hinv hexp

/-- C16: "`ntimers` is the number of slots whose kind is not unused" holds for a table of
unused slots with `ntimers = 0`; it is kept by every `add_timer` call with kind oneshot or
periodic, whether it succeeds or fails, by every `del_timer` call with any handle, and by
every `doTimer` pass whose callbacks keep it, in particular by every pass whose callbacks
are made of such `add_timer` calls and of `del_timer` calls. -/
theorem C16_ntimers_invariant (L : Layout) (hL : L.WF) :
    (∀ s : State, s.ntimers = 0 → (∀ t ∈ s.Timers, t.type = ED_UNUSED) → NtimersOk s) ∧
    (∀ (s : State) (clk : Option timeval) (type ms : Int) (cb pcb_data : Nat),
      NtimersOk s → type = ED_ONESHOT ∨ type = ED_PERIODIC →
      NtimersOk (add_timer L clk type ms cb pcb_data s).2) ∧
    (∀ (s : State) (ptimer : Nat), NtimersOk s → NtimersOk (del_timer L ptimer s)) ∧
    (∀ (E : Env) (clk : Option timeval) (s s1 : State) (log : List Event)
      (ptv : Option timeval),
      (∀ cb h d s0 s2, NtimersOk s0 → E.timer_cb cb h d s0 = some s2 → NtimersOk s2) →
      NtimersOk s → doTimer E L clk s = some (s1, log, ptv) → NtimersOk s1) ∧
    (∀ (prog : Nat → List TimerCall) (clk : Option timeval) (s s1 : State)
      (log : List Event) (ptv : Option timeval),
      (∀ cb, ∀ c ∈ prog cb, c.valid) → NtimersOk s →
      doTimer (progEnv L prog) L clk s = some (s1, log, ptv) → NtimersOk s1) := by
  refine ⟨?_, ?_, ?_, ?_, ?_⟩
  · intro s h0 hall
    unfold NtimersOk
    have : s.Timers.filter (fun t => t.type ≠ ED_UNUSED) = [] := by
      rw [List.filter_eq_nil_iff]
      intro t ht
      simp [hall t ht]
    rw [this, h0]
    rfl
  · intro s clk type ms cb pcb_data h hk
    exact add_timer_NtimersOk L clk type ms cb pcb_data s h (valid_kind_in_use type hk)
  · intro s ptimer h
    exact del_timer_NtimersOk L hL ptimer s h
  · intro E clk s s1 log ptv hcb hinv hrun
    exact doTimer_NtimersOk E L clk s s1 log ptv hcb hinv hrun
  · intro prog clk s s1 log ptv hv hinv hrun
    apply doTimer_NtimersOk (progEnv L prog) L clk s s1 log ptv _ hinv hrun
    intro cb h d s0 s2 h0 hs2
    simp only [progEnv, Option.some.injEq] at hs2
    rw [← hs2]
    exact run_timer_calls_NtimersOk L hL h (prog cb) s0 (hv cb) h0

/-- C16 at a table of two timers in use, with a callback that registers a timer and a
callback that removes its own. -/
theorem C16_ntimers_invariant_witness :
    exLayout.WF ∧ NtimersOk fullTimers ∧
    NtimersOk (add_timer exLayout (some ⟨0, 10⟩) ED_ONESHOT 5 11 0 secondFreeTimer).2 ∧
    NtimersOk (del_timer exLayout 1040 fullTimers) ∧
    doTimer (progEnv exLayout mixedProg) exLayout (some ⟨0, 1000⟩) fullTimers =
      some (afterMixedPass, [Event.timer 11 1000 0, Event.timer 22 1040 0],
        some ⟨0, 7000⟩) ∧
    NtimersOk afterMixedPass :=
  ⟨by decide, by decide,
   (C16_ntimers_invariant exLayout (by decide)).2.1 secondFreeTimer (some ⟨0, 10⟩) ED_ONESHOT 5
     11 0 (by decide) (Or.inl rfl),
   (C16_ntimers_invariant exLayout (by decide)).2.2.1 fullTimers 1040 (by decide),
   by decide,
   (C16_ntimers_invariant exLayout (by decide)).2.2.2.2 mixedProg (some ⟨0, 1000⟩) fullTimers
     afterMixedPass [Event.timer 11 1000 0, Event.timer 22 1040 0] (some ⟨0, 7000⟩)
     (by
       intro cb c hc
       unfold mixedProg at hc
       split at hc
       · rw [List.mem_singleton.mp hc]
         exact Or.inr rfl
       · rw [List.mem_singleton.mp hc]
         exact True.intro)
     (by decide) (by decide)⟩

/-! ## A periodic timer replaced from inside its own callback (C20) -/

/-- C20 (evaluation at the failing input): the only slot holds a periodic timer due at
500; its callback, called at time 1000, removes it with `del_timer` and registers with
`add_timer` a oneshot timer of 50 ms, which is given the same slot with deadline 51000 and
period 50000.  When the callback has returned, the pass adds the period of whatever is in
the slot to its deadline: the new timer ends the pass with deadline 101000, not 51000. -/
theorem C20_reschedule_hits_new_timer :
    run_timer_calls exLayout (exLayout.slot 0) (replaceProg 22) onePeriodic =
      ⟨[], 0, -1, [], [], [], [⟨ED_ONESHOT, 51000, 50000, 33, 0⟩], 1⟩ ∧
    doTimer (progEnv exLayout replaceProg) exLayout (some ⟨0, 1000⟩) onePeriodic =
      some (⟨[], 0, -1, [], [], [], [⟨ED_ONESHOT, 101000, 50000, 33, 0⟩], 1⟩,
        [Event.timer 22 1000 0], some ⟨0, 100000⟩) ∧
    (101000 : Int) ≠ tv2us ⟨0, 1000⟩ + 1000 * 50 := by
  refine ⟨by decide, by decide, by decide⟩
/-! ## Oneshot timers (C13) -/

theorem timer_handles_append (a b : List Event) :
    timer_handles (a ++ b) = timer_handles a ++ timer_handles b := by
  induction a with
  | nil => rfl
  | cons e a ih =>
    cases e <;> simp [timer_handles, ih]

theorem count_slot_map (L : Layout) (hL : L.WF) (fired : List Nat) (i : Nat) :
    (fired.map L.slot).count (L.slot i) = fired.count i := by
  induction fired with
  | nil => rfl
  | cons j fired ih =>
    rw [List.map_cons, List.count_cons, List.count_cons, ih]
    by_cases h : j = i
    · simp [h]
    · have : L.slot j ≠ L.slot i := fun hc => h (slot_inj L hL j i hc)
      simp [h, this]

theorem count_le_one_of_increasing (fired : List Nat) (h : fired.Pairwise (· < ·)) (i : Nat) :
    fired.count i ≤ 1 := by
  have hnd : fired.Nodup := h.imp (fun hab => Nat.ne_of_lt hab)
  exact List.nodup_iff_count_le_one.mp hnd i

theorem add_timer_find_le (ts : List ED_TIMER) (i : Nat) (hi : i < ts.length)
    (hu : (ts.getD i default).type = ED_UNUSED) : add_timer_find ts ≤ i := by
  induction ts generalizing i with
  | nil => simp at hi
  | cons a ts ih =>
    unfold add_timer_find
    by_cases ha : a.type = ED_UNUSED
    · simp [ha]
    · simp only [ha, if_false]
      cases i with
      | zero => exact absurd (by simpa using hu) ha
      | succ k =>
        have := ih k (by simpa using hi) (by simpa using hu)
        omega

/-- A successful `add_timer`, written out. -/
theorem add_timer_success (L : Layout) (tv : timeval) (type ms : Int) (cb pcb_data : Nat)
    (s : State) (hcb : cb ≠ 0) (hper : type = ED_PERIODIC → ms ≠ 0)
    (hfree : add_timer_find s.Timers ≠ s.Timers.length) :
    add_timer L (some tv) type ms cb pcb_data s =
      (L.slot (add_timer_find s.Timers),
        { s with
          ntimers := s.ntimers + 1
          Timers := s.Timers.set (add_timer_find s.Timers)
            ⟨type, tv2us tv + wrap32 (ms * 1000), wrap32 (ms * 1000), cb, pcb_data⟩ }) := by
  have hper2 : ¬ (ms = 0 ∧ type = ED_PERIODIC) := fun hc => hper hc.2 hc.1
  simp only [add_timer, hcb, hper2, hfree, if_false]

/-- `add_timer` leaves every timer in use as it is. -/
theorem add_timer_keeps_in_use (L : Layout) (clk : Option timeval) (type ms : Int)
    (cb pcb_data : Nat) (s : State) (k : Nat)
    (hk : (s.Timers.getD k default).type ≠ ED_UNUSED) :
    (add_timer L clk type ms cb pcb_data s).2.Timers.getD k default
      = s.Timers.getD k default := by
  rcases add_timer_cases L clk type ms cb pcb_data s with h1 | ⟨hne, _, t, _, _, h1⟩
  · rw [h1]
  · rw [h1]
    have hun := (add_timer_find_unused s.Timers hne).2
    have hkf : k ≠ add_timer_find s.Timers := by
      intro hc
      rw [hc] at hk
      exact hk hun
    exact getD_set_other _ _ _ hkf _

theorem count_handles_snoc (L : Layout) (hL : L.WF) (log : List Event) (cb j d i : Nat) :
    (timer_handles (log ++ [Event.timer cb (L.slot j) d])).count (L.slot i) =
      (timer_handles log).count (L.slot i) + (if j = i then 1 else 0) := by
  rw [timer_handles_append, List.count_append]
  by_cases h : j = i
  · simp [timer_handles, h]
  · have : L.slot j ≠ L.slot i := fun hc => h (slot_inj L hL j i hc)
    simp [timer_handles, h, List.count_cons, this]

/-- The handles of one run of the first loop of `doTimer`, for any callbacks: the events
added are callbacks of slots from `i` on, in ascending order of the slots. -/
theorem doTimer_expire_handles (E : Env) (L : Layout) (now : Int) :
    ∀ (n i : Nat) (count : Int) (s : State) (log : List Event) (s1 : State)
      (log1 : List Event), doTimer_expire E L now n i count s log = some (s1, log1) →
      ∃ (fired : List Nat) (rest : List Event), fired.Pairwise (· < ·) ∧
        (∀ k ∈ fired, i ≤ k) ∧ log1 = log ++ rest ∧
        timer_handles rest = fired.map L.slot := by
  intro n
  induction n with
  | zero =>
    intro i count s log s1 log1 h
    simp only [doTimer_expire, Option.some.injEq, Prod.mk.injEq] at h
    exact ⟨[], [], List.Pairwise.nil, by simp, by simp [h.2], rfl⟩
  | succ n ih =>
    intro i count s log s1 log1 h
    have hpass : ∀ c s0, doTimer_expire E L now n (i + 1) c s0 log = some (s1, log1) →
        ∃ (fired : List Nat) (rest : List Event), fired.Pairwise (· < ·) ∧
          (∀ k ∈ fired, i ≤ k) ∧ log1 = log ++ rest ∧
          timer_handles rest = fired.map L.slot := by
      intro c s0 h0
      obtain ⟨fired, rest, hp, hge, hl, hh⟩ := ih _ _ _ _ _ _ h0
      exact ⟨fired, rest, hp, fun k hk => Nat.le_of_succ_le (hge k hk), hl, hh⟩
    have hfire : ∀ c s0 cb d,
        doTimer_expire E L now n (i + 1) c s0 (log ++ [Event.timer cb (L.slot i) d])
          = some (s1, log1) →
        ∃ (fired : List Nat) (rest : List Event), fired.Pairwise (· < ·) ∧
          (∀ k ∈ fired, i ≤ k) ∧ log1 = log ++ rest ∧
          timer_handles rest = fired.map L.slot := by
      intro c s0 cb d h0
      obtain ⟨fired, rest, hp, hge, hl, hh⟩ := ih _ _ _ _ _ _ h0
      refine ⟨i :: fired, Event.timer cb (L.slot i) d :: rest, ?_, ?_, ?_, ?_⟩
      · exact List.Pairwise.cons (fun k hk => hge k hk) hp
      · intro k hk
        rcases List.mem_cons.mp hk with rfl | hk
        · exact le_refl _
        · exact Nat.le_of_succ_le (hge k hk)
      · rw [hl, List.append_assoc]
        rfl
      · simp [timer_handles, hh]
    unfold doTimer_expire at h
    split at h
    · simp only [Option.some.injEq, Prod.mk.injEq] at h
      exact ⟨[], [], List.Pairwise.nil, by simp, by simp [h.2], rfl⟩
    · simp only at h
      split at h
      · exact hpass _ _ h
      · split at h
        · exact hpass _ _ h
        · split at h
          · split at h
            · exact absurd h (by simp)
            · exact hfire _ _ _ _ h
          · split at h
            · simp only [Option.some.injEq, Prod.mk.injEq] at h
              exact ⟨[], [], List.Pairwise.nil, by simp, by simp [h.2], rfl⟩
            · split at h
              · exact absurd h (by simp)
              · exact hfire _ _ _ _ h

/-- In one run of the first loop of `doTimer`, for any callbacks, no handle is used twice,
and no handle of a slot below the start of the run is used. -/
theorem doTimer_expire_handles_once (E : Env) (L : Layout) (hL : L.WF) (now : Int)
    (n i : Nat) (count : Int) (s : State) (log : List Event) (s1 : State)
    (log1 : List Event) (h : doTimer_expire E L now n i count s log = some (s1, log1)) :
    ∃ rest, log1 = log ++ rest ∧ (∀ k, (timer_handles rest).count (L.slot k) ≤ 1) ∧
      ∀ k, k < i → L.slot k ∉ timer_handles rest := by
  obtain ⟨fired, rest, hp, hge, hl, hh⟩ := doTimer_expire_handles E L now n i count s log s1 log1 h
  refine ⟨rest, hl, ?_, ?_⟩
  · intro k
    rw [hh, count_slot_map L hL]
    exact count_le_one_of_increasing fired hp k
  · intro k hk hmem
    rw [hh] at hmem
    obtain ⟨j, hj, hjk⟩ := List.mem_map.mp hmem
    have := slot_inj L hL j k hjk
    have := hge j hj
    omega

theorem slot_kept_or_freed (a b : ED_TIMER) (h : b = a ∨ b.type = ED_UNUSED)
    (ha : a.type ≠ ED_PERIODIC) :
    b.type ≠ ED_PERIODIC ∧
      (if b.type = ED_UNUSED then 0 else 1) ≤ (if a.type = ED_UNUSED then 0 else 1 : Nat) := by
  rcases h with h | h
  · rw [h]
    exact ⟨ha, le_refl _⟩
  · rw [h]
    refine ⟨by decide, ?_⟩
    simp

/-- The first loop of `doTimer` with callbacks that leave slot `i` as it is or unused: when
slot `i` does not hold a periodic timer, the number of callbacks made with its handle goes
up by at most one, and only when the slot goes from in use to unused. -/
theorem doTimer_expire_slot_once (E : Env) (L : Layout) (hL : L.WF) (now : Int) (i : Nat)
    (hE : ∀ cb h d s0 s2, E.timer_cb cb h d s0 = some s2 →
      s2.Timers.getD i default = s0.Timers.getD i default ∨
      (s2.Timers.getD i default).type = ED_UNUSED) :
    ∀ (n j : Nat) (count : Int) (s : State) (log : List Event) (s1 : State)
      (log1 : List Event), (s.Timers.getD i default).type ≠ ED_PERIODIC →
      doTimer_expire E L now n j count s log = some (s1, log1) →
      (s1.Timers.getD i default).type ≠ ED_PERIODIC ∧
      (timer_handles log1).count (L.slot i) +
          (if (s1.Timers.getD i default).type = ED_UNUSED then 0 else 1) ≤
        (timer_handles log).count (L.slot i) +
          (if (s.Timers.getD i default).type = ED_UNUSED then 0 else 1) := by
  intro n
  induction n with
  | zero =>
    intro j count s log s1 log1 hQ h
    simp only [doTimer_expire, Option.some.injEq, Prod.mk.injEq] at h
    rw [← h.1, ← h.2]
    exact ⟨hQ, le_refl _⟩
  | succ n ih =>
    intro j count s log s1 log1 hQ h
    unfold doTimer_expire at h
    split at h
    · simp only [Option.some.injEq, Prod.mk.injEq] at h
      rw [← h.1, ← h.2]
      exact ⟨hQ, le_refl _⟩
    · simp only at h
      split at h
      · exact ih _ _ _ _ _ _ hQ h
      · rename_i hu
        split at h
        · exact ih _ _ _ _ _ _ hQ h
        · split at h
          · rename_i hper
            have hji : i ≠ j := by
              intro hc
              rw [hc] at hQ
              exact hQ hper
            split at h
            · exact absurd h (by simp)
            · rename_i sc hcall
              have hk := slot_kept_or_freed _ _ (hE _ _ _ _ _ (call_timer_cb_some hcall).2) hQ
              have hsame : ∀ x : ED_TIMER,
                  (sc.Timers.set j x).getD i default = sc.Timers.getD i default :=
                fun x => getD_set_other _ _ _ hji _
              have hr := ih _ _ _ _ _ _ (by simp only; rw [hsame]; exact hk.1) h
              simp only [hsame] at hr
              rw [count_handles_snoc L hL, if_neg (Ne.symm hji)] at hr
              exact ⟨hr.1, by have := hk.2; omega⟩
          · split at h
            · simp only [Option.some.injEq, Prod.mk.injEq] at h
              rw [← h.1, ← h.2]
              exact ⟨hQ, le_refl _⟩
            · split at h
              · exact absurd h (by simp)
              · rename_i sc hcall
                have hcb := hE _ _ _ _ _ (call_timer_cb_some hcall).2
                simp only at hcb
                by_cases hji : j = i
                · rw [hji] at hu hcb h
                  have hi := lt_length_of_in_use s.Timers i hu
                  rw [getD_set_self _ _ hi] at hcb
                  have hun : (sc.Timers.getD i default).type = ED_UNUSED := by
                    rcases hcb with h1 | h1
                    · rw [h1]
                    · exact h1
                  have hr := ih _ _ _ _ _ _ (by rw [hun]; decide) h
                  rw [count_handles_snoc L hL, if_pos rfl, if_pos hun] at hr
                  refine ⟨hr.1, ?_⟩
                  rw [if_neg hu]
                  omega
                · rw [getD_set_other _ _ _ (Ne.symm hji)] at hcb
                  have hk := slot_kept_or_freed _ _ hcb hQ
                  have hr := ih _ _ _ _ _ _ hk.1 h
                  rw [count_handles_snoc L hL, if_neg hji] at hr
                  exact ⟨hr.1, by have := hk.2; omega⟩

/-- One `doTimer` call, for any callbacks: it did nothing, or its outcome is that of the
first loop. -/
theorem doTimer_cases (E : Env) (L : Layout) (clk : Option timeval) (s s1 : State)
    (log : List Event) (ptv : Option timeval) (h : doTimer E L clk s = some (s1, log, ptv)) :
    (s1 = s ∧ log = []) ∨
    ∃ tv, clk = some tv ∧ s.ntimers ≠ 0 ∧
      doTimer_expire E L (tv2us tv) s.Timers.length 0 0 s [] = some (s1, log) := by
  cases clk with
  | none =>
    have : doTimer E L none s = some (s, [], none) := by
      unfold doTimer
      split <;> rfl
    rw [this] at h
    simp only [Option.some.injEq, Prod.mk.injEq] at h
    exact Or.inl ⟨h.1.symm, h.2.1.symm⟩
  | some tv =>
    rcases (doTimer_some E L tv s s1 log ptv h).1 with ⟨_, h1, h2⟩ | ⟨h0, hexp⟩
    · exact Or.inl ⟨h1, h2⟩
    · exact Or.inr ⟨tv, rfl, h0, hexp⟩

/-- In one `doTimer` call, for any callbacks, no handle is used twice. -/
theorem doTimer_handles_once (E : Env) (L : Layout) (hL : L.WF) (clk : Option timeval)
    (s s1 : State) (log : List Event) (ptv : Option timeval)
    (h : doTimer E L clk s = some (s1, log, ptv)) (k : Nat) :
    (timer_handles log).count (L.slot k) ≤ 1 := by
  rcases doTimer_cases E L clk s s1 log ptv h with ⟨_, h2⟩ | ⟨tv, _, _, hexp⟩
  · rw [h2]
    simp [timer_handles]
  · obtain ⟨rest, hl, hc, _⟩ := doTimer_expire_handles_once E L hL _ _ _ _ _ _ _ _ hexp
    rw [hl, List.nil_append]
    exact hc k

theorem doTimer_slot_once (E : Env) (L : Layout) (hL : L.WF) (i : Nat)
    (hE : ∀ cb h d s0 s2, E.timer_cb cb h d s0 = some s2 →
      s2.Timers.getD i default = s0.Timers.getD i default ∨
      (s2.Timers.getD i default).type = ED_UNUSED)
    (clk : Option timeval) (s s1 : State) (log : List Event) (ptv : Option timeval)
    (hQ : (s.Timers.getD i default).type ≠ ED_PERIODIC)
    (h : doTimer E L clk s = some (s1, log, ptv)) :
    (s1.Timers.getD i default).type ≠ ED_PERIODIC ∧
    (timer_handles log).count (L.slot i) +
        (if (s1.Timers.getD i default).type = ED_UNUSED then 0 else 1) ≤
      (if (s.Timers.getD i default).type = ED_UNUSED then 0 else 1) := by
  rcases doTimer_cases E L clk s s1 log ptv h with ⟨h1, h2⟩ | ⟨tv, _, _, hexp⟩
  · rw [h1, h2]
    exact ⟨hQ, by simp [timer_handles]⟩
  · have hr := doTimer_expire_slot_once E L hL (tv2us tv) i hE _ _ _ _ _ _ _ hQ hexp
    refine ⟨hr.1, ?_⟩
    have h0 : (timer_handles ([] : List Event)).count (L.slot i) = 0 := rfl
    rw [h0] at hr
    omega

/-- Over any number of passes with callbacks that leave slot `i` as it is or unused, the
callbacks made with the handle of a slot that holds no periodic timer and the slot itself,
when still in use, count at most one. -/
theorem doTimer_passes_slot_once (E : Env) (L : Layout) (hL : L.WF) (i : Nat)
    (hE : ∀ cb h d s0 s2, E.timer_cb cb h d s0 = some s2 →
      s2.Timers.getD i default = s0.Timers.getD i default ∨
      (s2.Timers.getD i default).type = ED_UNUSED) :
    ∀ (clks : List (Option timeval)) (s s1 : State) (log : List Event),
      (s.Timers.getD i default).type ≠ ED_PERIODIC →
      doTimer_passes E L clks s = some (s1, log) →
      (s1.Timers.getD i default).type ≠ ED_PERIODIC ∧
      (timer_handles log).count (L.slot i) +
          (if (s1.Timers.getD i default).type = ED_UNUSED then 0 else 1) ≤
        (if (s.Timers.getD i default).type = ED_UNUSED then 0 else 1) := by
  intro clks
  induction clks with
  | nil =>
    intro s s1 log hQ h
    simp only [doTimer_passes, Option.some.injEq, Prod.mk.injEq] at h
    rw [← h.1, ← h.2]
    exact ⟨hQ, by simp [timer_handles]⟩
  | cons clk rest ih =>
    intro s s1 log hQ h
    unfold doTimer_passes at h
    split at h
    · exact absurd h (by simp)
    · rename_i sa loga ptva hdo
      split at h
      · exact absurd h (by simp)
      · rename_i sb logb hrest
        simp only [Option.some.injEq, Prod.mk.injEq] at h
        obtain ⟨hs, hlog⟩ := h
        have ha := doTimer_slot_once E L hL i hE clk s sa loga ptva hQ hdo
        have hb := ih sa sb logb ha.1 hrest
        rw [← hs, ← hlog, timer_handles_append, List.count_append]
        exact ⟨hb.1, by omega⟩

/-- The first loop of `doTimer` walks over unused slots. -/
theorem doTimer_expire_skip (E : Env) (L : Layout) (now : Int) (count : Int) (s : State)
    (log : List Event) (hc : count ≠ s.ntimers) :
    ∀ (k n j : Nat),
      (∀ m, j ≤ m → m < j + k → (s.Timers.getD m default).type = ED_UNUSED) →
      doTimer_expire E L now (n + k) j count s log =
        doTimer_expire E L now n (j + k) count s log := by
  intro k
  induction k with
  | zero =>
    intro n j _
    rfl
  | succ k ih =>
    intro n j hun
    have h1 : doTimer_expire E L now (n + (k + 1)) j count s log =
        doTimer_expire E L now (n + k) (j + 1) count s log := by
      show doTimer_expire E L now ((n + k) + 1) j count s log = _
      rw [doTimer_expire]
      simp only [hc, if_false, hun j (le_refl _) (by omega), if_true]
    rw [h1, ih n (j + 1) (fun m h1 h2 => hun m (by omega) (by omega))]
    have : j + 1 + k = j + (k + 1) := by omega
    rw [this]

/-- The step of the first loop of `doTimer` at a due oneshot timer with a callback, for
any callbacks: the callback is called on the globals in which the slot is already unused
and `ntimers` already decremented. -/
theorem doTimer_expire_oneshot_step (E : Env) (L : Layout) (now : Int) (n i : Nat)
    (count : Int) (s : State) (log : List Event) (hc : count ≠ s.ntimers)
    (hone : (s.Timers.getD i default).type = ED_ONESHOT)
    (hdue : (s.Timers.getD i default).to_ ≤ now) (hcb : (s.Timers.getD i default).cb ≠ 0) :
    doTimer_expire E L now (n + 1) i count s log =
      match E.timer_cb (s.Timers.getD i default).cb (L.slot i)
          (s.Timers.getD i default).pcb_data (oneshot_freed s i) with
      | none => none
      | some s2 =>
        doTimer_expire E L now n (i + 1) (count + 1) s2 (log ++ [timer_event L s i]) := by
  have hu : (s.Timers.getD i default).type ≠ ED_UNUSED := by
    rw [hone]
    decide
  have hnp : ¬ (s.Timers.getD i default).type = ED_PERIODIC := by
    rw [hone]
    decide
  have hnd : ¬ (s.Timers.getD i default).to_ > now := by omega
  rw [doTimer_expire]
  simp only [hc, hu, hnd, hnp, hcb, if_false, call_timer_cb]
  rfl

/-- The first loop of `doTimer` on a table whose first slot in use holds a due oneshot
timer with a callback, for any callbacks. -/
theorem doTimer_expire_first_oneshot (E : Env) (L : Layout) (now : Int) (s : State) (i : Nat)
    (h0 : s.ntimers ≠ 0)
    (hlow : ∀ m, m < i → (s.Timers.getD m default).type = ED_UNUSED)
    (hone : (s.Timers.getD i default).type = ED_ONESHOT)
    (hdue : (s.Timers.getD i default).to_ ≤ now) (hcb : (s.Timers.getD i default).cb ≠ 0) :
    doTimer_expire E L now s.Timers.length 0 0 s [] =
      match E.timer_cb (s.Timers.getD i default).cb (L.slot i)
          (s.Timers.getD i default).pcb_data (oneshot_freed s i) with
      | none => none
      | some s2 =>
        doTimer_expire E L now (s.Timers.length - (i + 1)) (i + 1) 1 s2
          [timer_event L s i] := by
  have hu : (s.Timers.getD i default).type ≠ ED_UNUSED := by
    rw [hone]
    decide
  have hi := lt_length_of_in_use s.Timers i hu
  have hlen : s.Timers.length = (s.Timers.length - (i + 1) + 1) + i := by omega
  have hc : (0 : Int) ≠ s.ntimers := fun h => h0 h.symm
  have hskip := doTimer_expire_skip E L now 0 s [] hc i (s.Timers.length - (i + 1) + 1) 0
    (fun m _ hm => hlow m (by omega))
  rw [← hlen, Nat.zero_add] at hskip
  rw [hskip, doTimer_expire_oneshot_step E L now _ i 0 s [] hc hone hdue hcb]
  rfl

theorem filter_length_le_of_getD {α : Type} (p : α → Bool) (d : α) (hd : p d = false) :
    ∀ (B A : List α), (∀ k, p (B.getD k d) = true → p (A.getD k d) = true) →
      (B.filter p).length ≤ (A.filter p).length := by
  intro B
  induction B with
  | nil =>
    intro A _
    simp
  | cons b B ih =>
    intro A h
    cases A with
    | nil =>
      have hb : p b = false := by
        cases hpb : p b
        · rfl
        · have := h 0 (by simpa using hpb)
          simp [hd] at this
      have := ih [] (fun k hk => by
        have := h (k + 1) (by simpa using hk)
        simpa using this)
      simp only [List.filter_cons, hb, Bool.false_eq_true, if_false]
      exact this
    | cons a A =>
      have ht := ih A (fun k hk => by
        have := h (k + 1) (by simpa using hk)
        simpa using this)
      have hh : p b = true → p a = true := fun hb => by
        have := h 0 (by simpa using hb)
        simpa using this
      simp only [List.filter_cons]
      by_cases hb : p b = true
      · simp only [hb, hh hb, if_true, List.length_cons]
        omega
      · by_cases ha : p a = true
        · simp only [hb, ha, if_true, Bool.false_eq_true, if_false, List.length_cons]
          omega
        · simp only [hb, ha, Bool.false_eq_true, if_false]
          exact ht

theorem timer_calls_append (cb d : Nat) (a b : List Event) :
    timer_calls cb d (a ++ b) = timer_calls cb d a + timer_calls cb d b := by
  induction a with
  | nil => simp [timer_calls]
  | cons e a ih =>
    cases e <;> simp [timer_calls, ih]
    omega

theorem timer_calls_snoc (cb d : Nat) (log : List Event) (c h p : Nat) :
    timer_calls cb d (log ++ [Event.timer c h p]) =
      timer_calls cb d log + (if c = cb ∧ p = d then 1 else 0) := by
  rw [timer_calls_append]
  simp [timer_calls]

/-- A state change that, slot by slot, leaves a timer as it is, or unused, or without the
callback `cb` and data `d`, does not raise the number of timers registered with them. -/
theorem registered_le_of_slots (cb d : Nat) (s0 s2 : State)
    (h : ∀ k, s2.Timers.getD k default = s0.Timers.getD k default ∨
      (s2.Timers.getD k default).type = ED_UNUSED ∨
      ¬ ((s2.Timers.getD k default).cb = cb ∧ (s2.Timers.getD k default).pcb_data = d)) :
    registered cb d s2 ≤ registered cb d s0 := by
  unfold registered
  apply filter_length_le_of_getD _ default
  · simp only [decide_eq_false_iff_not]
    intro hc
    exact hc.1 rfl
  · intro k hk
    simp only [decide_eq_true_eq] at hk ⊢
    rcases h k with h1 | h1 | h1
    · rw [← h1]
      exact hk
    · exact absurd h1 hk.1
    · exact absurd hk.2 h1

theorem getD_set (ts : List ED_TIMER) (j k : Nat) (x : ED_TIMER) :
    (ts.set j x).getD k default = if k = j ∧ j < ts.length then x else ts.getD k default := by
  by_cases hk : k = j
  · by_cases hj : j < ts.length
    · rw [if_pos ⟨hk, hj⟩, hk]
      exact getD_set_self _ _ hj _
    · rw [if_neg (fun hc => hj hc.2), List.set_eq_of_length_le (by omega)]
  · rw [if_neg (fun hc => hk hc.1)]
    exact getD_set_other _ _ _ hk _

theorem OneshotOnly_cb (cb d : Nat) (E : Env) (hE : NoNewTimer cb d E) (c h x : Nat)
    (s0 s2 : State) (hQ : OneshotOnly cb d s0) (hs : E.timer_cb c h x s0 = some s2) :
    OneshotOnly cb d s2 := by
  intro k hc hd
  rcases hE c h x s0 s2 hs k with h1 | h1 | h1
  · rw [h1] at hc hd ⊢
    exact hQ k hc hd
  · rw [h1]
    decide
  · exact absurd ⟨hc, hd⟩ h1

theorem OneshotOnly_set_to (cb d : Nat) (s : State) (j : Nat) (x : Int)
    (hQ : OneshotOnly cb d s) :
    OneshotOnly cb d
      { s with Timers := s.Timers.set j { (s.Timers.getD j default) with to_ := x } } := by
  intro k
  simp only [getD_set]
  split
  · rename_i hk
    simp only
    rw [← hk.1]
    exact hQ k
  · exact hQ k

theorem OneshotOnly_free (cb d : Nat) (s : State) (j : Nat) (hQ : OneshotOnly cb d s) :
    OneshotOnly cb d
      { s with
        Timers := s.Timers.set j { (s.Timers.getD j default) with type := ED_UNUSED }
        ntimers := s.ntimers - 1 } := by
  intro k
  simp only [getD_set]
  split
  · intro _ _
    show ED_UNUSED ≠ ED_PERIODIC
    decide
  · exact hQ k

theorem registered_le_of_getD (cb d : Nat) (s0 s2 : State)
    (h : ∀ k, ((s2.Timers.getD k default).type ≠ ED_UNUSED ∧
        (s2.Timers.getD k default).cb = cb ∧ (s2.Timers.getD k default).pcb_data = d) →
      ((s0.Timers.getD k default).type ≠ ED_UNUSED ∧
        (s0.Timers.getD k default).cb = cb ∧ (s0.Timers.getD k default).pcb_data = d)) :
    registered cb d s2 ≤ registered cb d s0 := by
  unfold registered
  apply filter_length_le_of_getD _ default
  · simp only [decide_eq_false_iff_not]
    intro hc
    exact hc.1 rfl
  · intro k hk
    simp only [decide_eq_true_eq] at hk ⊢
    exact h k hk

theorem registered_set_to (cb d : Nat) (s : State) (j : Nat) (x : Int) :
    registered cb d
      { s with Timers := s.Timers.set j { (s.Timers.getD j default) with to_ := x } } ≤
    registered cb d s := by
  apply registered_le_of_getD
  intro k
  simp only [getD_set]
  split
  · rename_i hk
    simp only
    rw [← hk.1]
    exact id
  · exact id

theorem registered_free (cb d : Nat) (s : State) (j : Nat)
    (hu : (s.Timers.getD j default).type ≠ ED_UNUSED) :
    registered cb d
        { s with
          Timers := s.Timers.set j { (s.Timers.getD j default) with type := ED_UNUSED }
          ntimers := s.ntimers - 1 } +
      (if (s.Timers.getD j default).cb = cb ∧ (s.Timers.getD j default).pcb_data = d
        then 1 else 0) = registered cb d s := by
  have hj := lt_length_of_in_use s.Timers j hu
  have h := filter_length_set
    (fun t : ED_TIMER => decide (t.type ≠ ED_UNUSED ∧ t.cb = cb ∧ t.pcb_data = d))
    s.Timers j hj { (s.Timers.getD j default) with type := ED_UNUSED } default
  unfold registered
  simp only [ne_eq, not_true_eq_false, false_and, decide_False, Bool.false_eq_true, if_false,
    Nat.add_zero, hu, not_false_eq_true, true_and, decide_eq_true_eq] at h ⊢
  omega

/-- The first loop of `doTimer` with callbacks that register no timer with callback `cb`
and data `d`, on a table where no periodic timer holds them: the calls made with them and
the timers still registered with them count no more after the loop than before. -/
theorem doTimer_expire_calls (E : Env) (L : Layout) (now : Int) (cb d : Nat)
    (hE : NoNewTimer cb d E) :
    ∀ (n i : Nat) (count : Int) (s : State) (log : List Event) (s1 : State)
      (log1 : List Event), OneshotOnly cb d s →
      doTimer_expire E L now n i count s log = some (s1, log1) →
      OneshotOnly cb d s1 ∧
      timer_calls cb d log1 + registered cb d s1 ≤ timer_calls cb d log + registered cb d s := by
  intro n
  induction n with
  | zero =>
    intro i count s log s1 log1 hQ h
    simp only [doTimer_expire, Option.some.injEq, Prod.mk.injEq] at h
    rw [← h.1, ← h.2]
    exact ⟨hQ, le_refl _⟩
  | succ n ih =>
    intro i count s log s1 log1 hQ h
    unfold doTimer_expire at h
    split at h
    · simp only [Option.some.injEq, Prod.mk.injEq] at h
      rw [← h.1, ← h.2]
      exact ⟨hQ, le_refl _⟩
    · simp only at h
      split at h
      · exact ih _ _ _ _ _ _ hQ h
      · rename_i hu
        split at h
        · exact ih _ _ _ _ _ _ hQ h
        · split at h
          · rename_i hper
            split at h
            · exact absurd h (by simp)
            · rename_i sc hcall
              have hcb := (call_timer_cb_some hcall).2
              have hQc := OneshotOnly_cb cb d E hE _ _ _ _ _ hQ hcb
              have hrc := registered_le_of_slots cb d s sc (hE _ _ _ _ _ hcb)
              have hr := ih _ _ _ _ _ _ (OneshotOnly_set_to cb d sc i _ hQc) h
              have hrs := registered_set_to cb d sc i
                (if (sc.Timers.getD i default).to_ + (sc.Timers.getD i default).us < now
                  then now
                  else (sc.Timers.getD i default).to_ + (sc.Timers.getD i default).us)
              have hnt : ¬ ((s.Timers.getD i default).cb = cb ∧
                  (s.Timers.getD i default).pcb_data = d) :=
                fun hc => hQ i hc.1 hc.2 hper
              rw [timer_calls_snoc, if_neg hnt] at hr
              exact ⟨hr.1, by omega⟩
          · split at h
            · simp only [Option.some.injEq, Prod.mk.injEq] at h
              rw [← h.1, ← h.2]
              exact ⟨hQ, le_refl _⟩
            · split at h
              · exact absurd h (by simp)
              · rename_i sc hcall
                have hcb := (call_timer_cb_some hcall).2
                have hQc := OneshotOnly_cb cb d E hE _ _ _ _ _ (OneshotOnly_free cb d s i hQ) hcb
                have hrc : registered cb d sc ≤ registered cb d (oneshot_freed s i) :=
                  registered_le_of_slots cb d _ sc (hE _ _ _ _ _ hcb)
                have hrf : registered cb d (oneshot_freed s i) +
                    (if (s.Timers.getD i default).cb = cb ∧
                        (s.Timers.getD i default).pcb_data = d then 1 else 0) =
                    registered cb d s := registered_free cb d s i hu
                have hr := ih _ _ _ _ _ _ hQc h
                rw [timer_calls_snoc] at hr
                refine ⟨hr.1, ?_⟩
                by_cases htag : (s.Timers.getD i default).cb = cb ∧
                    (s.Timers.getD i default).pcb_data = d
                · rw [if_pos htag] at hr hrf
                  omega
                · rw [if_neg htag] at hr hrf
                  omega

theorem doTimer_calls (E : Env) (L : Layout) (cb d : Nat) (hE : NoNewTimer cb d E)
    (clk : Option timeval) (s s1 : State) (log : List Event) (ptv : Option timeval)
    (hQ : OneshotOnly cb d s) (h : doTimer E L clk s = some (s1, log, ptv)) :
    OneshotOnly cb d s1 ∧ timer_calls cb d log + registered cb d s1 ≤ registered cb d s := by
  rcases doTimer_cases E L clk s s1 log ptv h with ⟨h1, h2⟩ | ⟨tv, _, _, hexp⟩
  · rw [h1, h2]
    exact ⟨hQ, by simp [timer_calls]⟩
  · have hr := doTimer_expire_calls E L (tv2us tv) cb d hE _ _ _ _ _ _ _ hQ hexp
    refine ⟨hr.1, ?_⟩
    have h0 : timer_calls cb d ([] : List Event) = 0 := rfl
    rw [h0] at hr
    omega

/-- Over any number of passes with callbacks that register no timer with callback `cb` and
data `d`, the calls made with them and the timers still registered with them count at most
the timers registered with them at the start. -/
theorem doTimer_passes_calls (E : Env) (L : Layout) (cb d : Nat) (hE : NoNewTimer cb d E) :
    ∀ (clks : List (Option timeval)) (s s1 : State) (log : List Event),
      OneshotOnly cb d s → doTimer_passes E L clks s = some (s1, log) →
      OneshotOnly cb d s1 ∧
      timer_calls cb d log + registered cb d s1 ≤ registered cb d s := by
  intro clks
  induction clks with
  | nil =>
    intro s s1 log hQ h
    simp only [doTimer_passes, Option.some.injEq, Prod.mk.injEq] at h
    rw [← h.1, ← h.2]
    exact ⟨hQ, by simp [timer_calls]⟩
  | cons clk rest ih =>
    intro s s1 log hQ h
    unfold doTimer_passes at h
    split at h
    · exact absurd h (by simp)
    · rename_i sa loga ptva hdo
      split at h
      · exact absurd h (by simp)
      · rename_i sb logb hrest
        simp only [Option.some.injEq, Prod.mk.injEq] at h
        obtain ⟨hs, hlog⟩ := h
        have ha := doTimer_calls E L cb d hE clk s sa loga ptva hQ hdo
        have hb := ih sa sb logb ha.1 hrest
        rw [← hs, ← hlog, timer_calls_append]
        exact ⟨hb.1, by omega⟩

/-- The callbacks of `addProg` register no timer with callback 11. -/
theorem addProg_no_new_timer : NoNewTimer 11 0 (progEnv exLayout addProg) := by
  intro c h x s0 s2 hs k
  simp only [progEnv, addProg, run_timer_calls, Option.some.injEq] at hs
  rw [← hs]
  rcases add_timer_cases exLayout (some ⟨0, 1000⟩) ED_PERIODIC 7 22 0 s0 with
    h1 | ⟨_, _, t, _, htc, h1⟩
  · rw [h1]
    exact Or.inl rfl
  · rw [h1]
    simp only [getD_set]
    split
    · right
      right
      rw [htc]
      intro hc
      exact absurd hc.1 (by decide)
    · exact Or.inl rfl

/-- C13: a oneshot timer is fired once per registration.  (1) With callbacks that leave
slot `i` as it is or unused, so that none registers a timer in it, over any sequence of
passes the callback of a oneshot timer in slot `i` is called at most once with its handle,
and once it was called the slot is unused.  (2) With callbacks that register no timer with
callback `cb` and data `d` (they may register other timers, in any slot, and remove any),
on a table where no periodic timer holds them, over any sequence of passes the calls made
with `cb` and `d` and the timers still registered with them count at most the timers
registered with them at the start.  (3) For any callbacks, no handle is used twice in one
pass.  (4) For any callbacks, when the scan reaches slot `i` holding a due oneshot timer
with a callback, that callback is called, on globals in which slot `i` is already unused
and `ntimers` already decremented, where the active count invariant holds if it held
before.  (5) For any callbacks, when the first slot in use holds such a timer the scan
reaches it, and in a pass that returns its callback was called first and its handle was
not used again.  (6) When that callback calls `add_timer` with valid arguments, the call
succeeds, returning a slot `k <= i`, slot `i` itself when no lower slot is unused; if the
other callbacks keep the active count and leave timers in use alone, then at the end of
the scan the new timer is in slot `k`, the active count invariant holds, and the handle of
slot `i` was used once; and the scan ends when the timers in use have callbacks and the
callbacks return and keep that. -/
theorem C13_oneshot_fires_once (L : Layout) (hL : L.WF) :
    (∀ (E : Env) (clks : List (Option timeval)) (s s1 : State) (log : List Event) (i : Nat),
      (∀ cb h d s0 s2, E.timer_cb cb h d s0 = some s2 →
        s2.Timers.getD i default = s0.Timers.getD i default ∨
        (s2.Timers.getD i default).type = ED_UNUSED) →
      (s.Timers.getD i default).type = ED_ONESHOT →
      doTimer_passes E L clks s = some (s1, log) →
      (timer_handles log).count (L.slot i) ≤ 1 ∧
      ((timer_handles log).count (L.slot i) = 1 →
        (s1.Timers.getD i default).type = ED_UNUSED)) ∧
    (∀ (E : Env) (cb d : Nat) (clks : List (Option timeval)) (s s1 : State)
      (log : List Event),
      NoNewTimer cb d E → OneshotOnly cb d s →
      doTimer_passes E L clks s = some (s1, log) →
      timer_calls cb d log + registered cb d s1 ≤ registered cb d s) ∧
    (∀ (E : Env) (clk : Option timeval) (s s1 : State) (log : List Event)
      (ptv : Option timeval) (k : Nat),
      doTimer E L clk s = some (s1, log, ptv) → (timer_handles log).count (L.slot k) ≤ 1) ∧
    (∀ (E : Env) (now : Int) (n i : Nat) (count : Int) (s : State) (log : List Event),
      count ≠ s.ntimers →
      (s.Timers.getD i default).type = ED_ONESHOT → (s.Timers.getD i default).to_ ≤ now →
      (s.Timers.getD i default).cb ≠ 0 →
      doTimer_expire E L now (n + 1) i count s log =
        (match E.timer_cb (s.Timers.getD i default).cb (L.slot i)
            (s.Timers.getD i default).pcb_data (oneshot_freed s i) with
        | none => none
        | some s2 =>
          doTimer_expire E L now n (i + 1) (count + 1) s2 (log ++ [timer_event L s i])) ∧
      ((oneshot_freed s i).Timers.getD i default).type = ED_UNUSED ∧
      (oneshot_freed s i).ntimers = s.ntimers - 1 ∧
      (NtimersOk s → NtimersOk (oneshot_freed s i))) ∧
    (∀ (E : Env) (tv : timeval) (s : State) (i : Nat),
      s.ntimers ≠ 0 → (∀ m, m < i → (s.Timers.getD m default).type = ED_UNUSED) →
      (s.Timers.getD i default).type = ED_ONESHOT →
      (s.Timers.getD i default).to_ ≤ tv2us tv → (s.Timers.getD i default).cb ≠ 0 →
      doTimer_expire E L (tv2us tv) s.Timers.length 0 0 s [] =
        (match E.timer_cb (s.Timers.getD i default).cb (L.slot i)
            (s.Timers.getD i default).pcb_data (oneshot_freed s i) with
        | none => none
        | some s2 =>
          doTimer_expire E L (tv2us tv) (s.Timers.length - (i + 1)) (i + 1) 1 s2
            [timer_event L s i]) ∧
      ∀ s1 log ptv, doTimer E L (some tv) s = some (s1, log, ptv) →
        ∃ rest, log = timer_event L s i :: rest ∧ L.slot i ∉ timer_handles rest) ∧
    (∀ (E : Env) (now : Int) (n i : Nat) (count : Int) (s : State) (log : List Event)
      (tv2 : timeval) (type2 ms2 : Int) (cb2 d2 : Nat),
      count ≠ s.ntimers → NtimersOk s →
      (s.Timers.getD i default).type = ED_ONESHOT → (s.Timers.getD i default).to_ ≤ now →
      (s.Timers.getD i default).cb ≠ 0 →
      (∀ h d s0, E.timer_cb (s.Timers.getD i default).cb h d s0 =
        some (add_timer L (some tv2) type2 ms2 cb2 d2 s0).2) →
      (∀ cb h d s0 s2, E.timer_cb cb h d s0 = some s2 →
        (NtimersOk s0 → NtimersOk s2) ∧
        ∀ k, (s0.Timers.getD k default).type ≠ ED_UNUSED →
          s2.Timers.getD k default = s0.Timers.getD k default) →
      type2 = ED_ONESHOT ∨ type2 = ED_PERIODIC → cb2 ≠ 0 → (type2 = ED_PERIODIC → ms2 ≠ 0) →
      ∃ k, k ≤ i ∧ ((∀ j, j < i → (s.Timers.getD j default).type ≠ ED_UNUSED) → k = i) ∧
        (add_timer L (some tv2) type2 ms2 cb2 d2 (oneshot_freed s i)).1 = L.slot k ∧
        (add_timer L (some tv2) type2 ms2 cb2 d2 (oneshot_freed s i)).1 ≠ 0 ∧
        doTimer_expire E L now (n + 1) i count s log =
          doTimer_expire E L now n (i + 1) (count + 1)
            (add_timer L (some tv2) type2 ms2 cb2 d2 (oneshot_freed s i)).2
            (log ++ [timer_event L s i]) ∧
        (∀ s1 log1, doTimer_expire E L now (n + 1) i count s log = some (s1, log1) →
          s1.Timers.getD k default =
            ⟨type2, tv2us tv2 + wrap32 (ms2 * 1000), wrap32 (ms2 * 1000), cb2, d2⟩ ∧
          NtimersOk s1 ∧
          ∃ rest, log1 = log ++ timer_event L s i :: rest ∧
            L.slot i ∉ timer_handles rest) ∧
        (TimerCbsOk s →
          (∀ cb h d s0, cb ≠ 0 → TimerCbsOk s0 →
            ∃ s2, E.timer_cb cb h d s0 = some s2 ∧ TimerCbsOk s2) →
          ∃ s1 log1, doTimer_expire E L now (n + 1) i count s log = some (s1, log1))) := by
  refine ⟨?_, ?_, ?_, ?_, ?_, ?_⟩
  · intro E clks s s1 log i hE hone hrun
    have hnp : (s.Timers.getD i default).type ≠ ED_PERIODIC := by
      rw [hone]
      decide
    have hu : (s.Timers.getD i default).type ≠ ED_UNUSED := by
      rw [hone]
      decide
    have hr := (doTimer_passes_slot_once E L hL i hE clks s s1 log hnp hrun).2
    rw [if_neg hu] at hr
    constructor
    · omega
    · intro h1
      by_cases hun : (s1.Timers.getD i default).type = ED_UNUSED
      · exact hun
      · rw [if_neg hun] at hr
        omega
  · intro E cb d clks s s1 log hE hQ hrun
    exact (doTimer_passes_calls E L cb d hE clks s s1 log hQ hrun).2
  · intro E clk s s1 log ptv k hrun
    exact doTimer_handles_once E L hL clk s s1 log ptv hrun k
  · intro E now n i count s log hcount hone hdue hcbne
    have hu : (s.Timers.getD i default).type ≠ ED_UNUSED := by
      rw [hone]
      decide
    have hi := lt_length_of_in_use s.Timers i hu
    refine ⟨doTimer_expire_oneshot_step E L now n i count s log hcount hone hdue hcbne,
      ?_, rfl, fun hinv => NtimersOk_free s i hinv hu⟩
    unfold oneshot_freed
    simp only
    rw [getD_set_self _ _ hi]
  · intro E tv s i h0 hlow hone hdue hcbne
    have hfirst := doTimer_expire_first_oneshot E L (tv2us tv) s i h0 hlow hone hdue hcbne
    refine ⟨hfirst, ?_⟩
    intro s1 log ptv hrun
    rcases (doTimer_some E L tv s s1 log ptv hrun).1 with ⟨hz, _, _⟩ | ⟨_, hexp⟩
    · exact absurd hz h0
    · rw [hfirst] at hexp
      split at hexp
      · exact absurd hexp (by simp)
      · obtain ⟨rest, hl, _, hnot⟩ :=
          doTimer_expire_handles_once E L hL _ _ _ _ _ _ _ _ hexp
        exact ⟨rest, hl, hnot i (Nat.lt_succ_self i)⟩
  · intro E now n i count s log tv2 type2 ms2 cb2 d2 hcount hinv hone hdue hcbne hcall hkeep
      hkind hcb2 hper2
    have hu : (s.Timers.getD i default).type ≠ ED_UNUSED := by
      rw [hone]
      decide
    have hi := lt_length_of_in_use s.Timers i hu
    have hfi : (oneshot_freed s i).Timers.getD i default
        = { (s.Timers.getD i default) with type := ED_UNUSED } := by
      unfold oneshot_freed
      exact getD_set_self _ _ hi _
    have hlen : (oneshot_freed s i).Timers.length = s.Timers.length := by
      unfold oneshot_freed
      simp
    have hfu : ((oneshot_freed s i).Timers.getD i default).type = ED_UNUSED := by
      rw [hfi]
    have hle := add_timer_find_le (oneshot_freed s i).Timers i (by omega) hfu
    have hne : add_timer_find (oneshot_freed s i).Timers ≠ (oneshot_freed s i).Timers.length := by
      omega
    have hadd := add_timer_success L tv2 type2 ms2 cb2 d2 (oneshot_freed s i) hcb2 hper2 hne
    have hstep : doTimer_expire E L now (n + 1) i count s log =
        doTimer_expire E L now n (i + 1) (count + 1)
          (add_timer L (some tv2) type2 ms2 cb2 d2 (oneshot_freed s i)).2
          (log ++ [timer_event L s i]) := by
      rw [doTimer_expire_oneshot_step E L now n i count s log hcount hone hdue hcbne,
        hcall (L.slot i) (s.Timers.getD i default).pcb_data (oneshot_freed s i)]
    have hinv2 : NtimersOk (add_timer L (some tv2) type2 ms2 cb2 d2 (oneshot_freed s i)).2 :=
      add_timer_NtimersOk L _ type2 ms2 cb2 d2 _ (NtimersOk_free s i hinv hu)
        (valid_kind_in_use type2 hkind)
    have hnew : (add_timer L (some tv2) type2 ms2 cb2 d2 (oneshot_freed s i)).2.Timers.getD
        (add_timer_find (oneshot_freed s i).Timers) default =
        ⟨type2, tv2us tv2 + wrap32 (ms2 * 1000), wrap32 (ms2 * 1000), cb2, d2⟩ := by
      rw [hadd]
      exact getD_set_self _ _ (by omega) _
    refine ⟨add_timer_find (oneshot_freed s i).Timers, hle, ?_, ?_, ?_, hstep, ?_, ?_⟩
    · intro hall
      apply add_timer_find_spec _ _ (by omega) hfu
      intro j hj
      unfold oneshot_freed
      simp only
      rw [getD_set_other _ _ _ (by omega)]
      exact hall j hj
    · rw [hadd]
    · rw [hadd]
      exact slot_ne_zero L hL _
    · intro s1 log1 hrun
      rw [hstep] at hrun
      have hP := doTimer_expire_preserves E L now
        (fun s0 => NtimersOk s0 ∧
          s0.Timers.getD (add_timer_find (oneshot_freed s i).Timers) default =
            ⟨type2, tv2us tv2 + wrap32 (ms2 * 1000), wrap32 (ms2 * 1000), cb2, d2⟩)
        (i + 1)
        (fun cb h d s0 s2 hP0 hs2 => by
          obtain ⟨k1, k2⟩ := hkeep cb h d s0 s2 hs2
          refine ⟨k1 hP0.1, ?_⟩
          rw [k2 _ (by rw [hP0.2]; exact valid_kind_in_use type2 hkind)]
          exact hP0.2)
        (fun s0 j x hj hP0 => ⟨NtimersOk_set_to s0 j x hP0.1, by
          simp only
          rw [getD_set_other _ _ _ (by omega)]
          exact hP0.2⟩)
        (fun s0 j hj hP0 hju => ⟨NtimersOk_free s0 j hP0.1 hju, by
          simp only
          rw [getD_set_other _ _ _ (by omega)]
          exact hP0.2⟩)
        n (i + 1) (count + 1) _ _ s1 log1 (le_refl _) ⟨hinv2, hnew⟩ hrun
      obtain ⟨rest, hl, _, hnot⟩ := doTimer_expire_handles_once E L hL _ _ _ _ _ _ _ _ hrun
      refine ⟨hP.2, hP.1, rest, ?_, hnot i (Nat.lt_succ_self i)⟩
      rw [hl, List.append_assoc]
      rfl
    · intro hcbs hret
      rw [hstep]
      obtain ⟨s2, hs2, hok⟩ := hret (s.Timers.getD i default).cb (L.slot i)
        (s.Timers.getD i default).pcb_data (oneshot_freed s i) hcbne (TimerCbsOk_free s i hcbs)
      rw [hcall] at hs2
      rw [← Option.some.inj hs2] at hok
      obtain ⟨s1, log1, hrun, _⟩ := doTimer_expire_returns E L now TimerCbsOk (fun _ h => h)
        (fun cb h d s0 hcb hP => hret cb h d s0 hcb hP)
        (fun s0 j x hP => TimerCbsOk_set_to s0 j x hP)
        (fun s0 j hP _ => TimerCbsOk_free s0 j hP)
        n (i + 1) (count + 1) _ (log ++ [timer_event L s i]) hok
      exact ⟨s1, log1, hrun⟩

/-- In `fullTimers` no periodic timer holds callback 11. -/
theorem fullTimers_oneshot_only : OneshotOnly 11 0 fullTimers := by
  intro k
  rcases k with _ | _ | k
  · decide
  · decide
  · intro hc
    have h0 : (fullTimers.Timers.getD (k + 1 + 1) default).cb = 0 := rfl
    rw [h0] at hc
    exact absurd hc (by decide)

/-- C13 at a full table of two timers, a due oneshot timer with callback 11 in slot 0 and
a due periodic timer in slot 1.  Two quiet passes call the oneshot callback once with the
handle of slot 0, and the slot is unused afterwards.  With callbacks that each register a
periodic timer with callback 22, two passes call callback 11 once although the handle of
slot 0 is used again for the new timer; in the first pass the callback of slot 0 is called
first, on globals in which slot 0 is unused and `ntimers` is 1, it gets slot 0 for the new
timer, and the scan ends with the new timer in slot 0. -/
theorem C13_oneshot_fires_once_witness :
    (exLayout.WF ∧
      (∀ cb h d s0 s2, quietEnv.timer_cb cb h d s0 = some s2 →
        s2.Timers.getD 0 default = s0.Timers.getD 0 default ∨
        (s2.Timers.getD 0 default).type = ED_UNUSED) ∧
      (fullTimers.Timers.getD 0 default).type = ED_ONESHOT ∧
      doTimer_passes quietEnv exLayout [some ⟨0, 1000⟩, some ⟨0, 2000⟩] fullTimers =
        some (afterTwoPasses, [Event.timer 11 1000 0, Event.timer 22 1040 0]) ∧
      NoNewTimer 11 0 (progEnv exLayout addProg) ∧ OneshotOnly 11 0 fullTimers ∧
      doTimer_passes (progEnv exLayout addProg) exLayout [some ⟨0, 1000⟩, some ⟨0, 9000⟩]
          fullTimers =
        some (afterAddPasses, [Event.timer 11 1000 0, Event.timer 22 1040 0,
          Event.timer 22 1000 0, Event.timer 22 1040 0]) ∧
      registered 11 0 fullTimers = 1 ∧ fullTimers.ntimers ≠ 0 ∧ NtimersOk fullTimers ∧
      TimerCbsOk fullTimers) ∧
    ((timer_handles [Event.timer 11 1000 0, Event.timer 22 1040 0]).count (exLayout.slot 0) ≤ 1 ∧
      ((timer_handles [Event.timer 11 1000 0, Event.timer 22 1040 0]).count (exLayout.slot 0)
          = 1 → (afterTwoPasses.Timers.getD 0 default).type = ED_UNUSED)) ∧
    (timer_calls 11 0 [Event.timer 11 1000 0, Event.timer 22 1040 0,
        Event.timer 22 1000 0, Event.timer 22 1040 0] + registered 11 0 afterAddPasses ≤
      registered 11 0 fullTimers) ∧
    (doTimer_expire (progEnv exLayout addProg) exLayout 1000 (1 + 1) 0 0 fullTimers [] =
        (match (progEnv exLayout addProg).timer_cb (fullTimers.Timers.getD 0 default).cb
            (exLayout.slot 0) (fullTimers.Timers.getD 0 default).pcb_data
            (oneshot_freed fullTimers 0) with
        | none => none
        | some s2 =>
          doTimer_expire (progEnv exLayout addProg) exLayout 1000 1 (0 + 1) (0 + 1) s2
            ([] ++ [timer_event exLayout fullTimers 0])) ∧
      ((oneshot_freed fullTimers 0).Timers.getD 0 default).type = ED_UNUSED ∧
      (oneshot_freed fullTimers 0).ntimers = fullTimers.ntimers - 1 ∧
      (NtimersOk fullTimers → NtimersOk (oneshot_freed fullTimers 0))) ∧
    (∀ s1 log ptv,
      doTimer (progEnv exLayout addProg) exLayout (some ⟨0, 1000⟩) fullTimers
        = some (s1, log, ptv) →
      ∃ rest, log = timer_event exLayout fullTimers 0 :: rest ∧
        exLayout.slot 0 ∉ timer_handles rest) ∧
    ∃ k, k ≤ 0 ∧ ((∀ j, j < 0 → (fullTimers.Timers.getD j default).type ≠ ED_UNUSED) → k = 0) ∧
      (add_timer exLayout (some ⟨0, 1000⟩) ED_PERIODIC 7 22 0 (oneshot_freed fullTimers 0)).1
        = exLayout.slot k ∧
      (add_timer exLayout (some ⟨0, 1000⟩) ED_PERIODIC 7 22 0 (oneshot_freed fullTimers 0)).1
        ≠ 0 ∧
      doTimer_expire (progEnv exLayout addProg) exLayout 1000 (1 + 1) 0 0 fullTimers [] =
        doTimer_expire (progEnv exLayout addProg) exLayout 1000 1 (0 + 1) (0 + 1)
          (add_timer exLayout (some ⟨0, 1000⟩) ED_PERIODIC 7 22 0
            (oneshot_freed fullTimers 0)).2
          ([] ++ [timer_event exLayout fullTimers 0]) ∧
      (∀ s1 log1,
        doTimer_expire (progEnv exLayout addProg) exLayout 1000 (1 + 1) 0 0 fullTimers []
          = some (s1, log1) →
        s1.Timers.getD k default =
          ⟨ED_PERIODIC, tv2us ⟨0, 1000⟩ + wrap32 (7 * 1000), wrap32 (7 * 1000), 22, 0⟩ ∧
        NtimersOk s1 ∧
        ∃ rest, log1 = [] ++ timer_event exLayout fullTimers 0 :: rest ∧
          exLayout.slot 0 ∉ timer_handles rest) ∧
      (TimerCbsOk fullTimers →
        (∀ cb h d s0, cb ≠ 0 → TimerCbsOk s0 →
          ∃ s2, (progEnv exLayout addProg).timer_cb cb h d s0 = some s2 ∧ TimerCbsOk s2) →
        ∃ s1 log1,
          doTimer_expire (progEnv exLayout addProg) exLayout 1000 (1 + 1) 0 0 fullTimers []
            = some (s1, log1)) :=
  ⟨⟨by decide, fun _ _ _ _ _ hs => Or.inl (by rw [← Option.some.inj hs]), by decide,
      by decide, addProg_no_new_timer, fullTimers_oneshot_only, by decide, by decide,
      by decide, by decide, by decide⟩,
   (C13_oneshot_fires_once exLayout (by decide)).1 quietEnv [some ⟨0, 1000⟩, some ⟨0, 2000⟩]
     fullTimers afterTwoPasses [Event.timer 11 1000 0, Event.timer 22 1040 0] 0
     (fun _ _ _ _ _ hs => Or.inl (by rw [← Option.some.inj hs])) (by decide) (by decide),
   (C13_oneshot_fires_once exLayout (by decide)).2.1 (progEnv exLayout addProg) 11 0
     [some ⟨0, 1000⟩, some ⟨0, 9000⟩] fullTimers afterAddPasses _ addProg_no_new_timer
     fullTimers_oneshot_only (by decide),
   (C13_oneshot_fires_once exLayout (by decide)).2.2.2.1 (progEnv exLayout addProg) 1000 1 0 0
     fullTimers [] (by decide) (by decide) (by decide) (by decide),
   ((C13_oneshot_fires_once exLayout (by decide)).2.2.2.2.1 (progEnv exLayout addProg)
     ⟨0, 1000⟩ fullTimers 0 (by decide) (fun m hm => absurd hm (Nat.not_lt_zero m))
     (by decide) (by decide) (by decide)).2,
   (C13_oneshot_fires_once exLayout (by decide)).2.2.2.2.2 (progEnv exLayout addProg) 1000 1 0
     0 fullTimers [] ⟨0, 1000⟩ ED_PERIODIC 7 22 0 (by decide) (by decide) (by decide)
     (by decide) (by decide) (fun _ _ _ => rfl)
     (fun cb h d s0 s2 hs2 => by
       simp only [progEnv, addProg, run_timer_calls, Option.some.injEq] at hs2
       rw [← hs2]
       exact ⟨fun h0 => add_timer_NtimersOk exLayout _ _ _ _ _ s0 h0 (by decide),
         fun k hk => add_timer_keeps_in_use exLayout _ _ _ _ _ s0 k hk⟩)
     (Or.inr rfl) (by decide) (fun _ => by decide)⟩

/-! ## The descriptor walk (C14, C15) -/

/-- One step of the walk of `muxmain`: the guard on the address of the slot never holds,
and slot `i` is judged by what it holds in the globals at that moment. -/
theorem muxmain_dispatch_step (E : Env) (L : Layout) (r w x : fd_set) (n i : Nat)
    (s : State) (log : List Event) :
    muxmain_dispatch E L r w x (n + 1) i s log =
      if walk_activity r w x (s.Ed_Fd.getD i default).fd ≠ 0 ∧
          (s.Ed_Fd.getD i default).scb ≠ 0 then
        match E.fd_cb (s.Ed_Fd.getD i default).scb (s.Ed_Fd.getD i default).fd
          (s.Ed_Fd.getD i default).pcb_data
          (walk_activity r w x (s.Ed_Fd.getD i default).fd) s with
        | none => none
        | some s1 =>
          muxmain_dispatch E L r w x n (i + 1) s1
            (log ++ [Event.fd (s.Ed_Fd.getD i default).scb (s.Ed_Fd.getD i default).fd
              (s.Ed_Fd.getD i default).pcb_data
              (walk_activity r w x (s.Ed_Fd.getD i default).fd)])
      else muxmain_dispatch E L r w x n (i + 1) s log := by
  have hg : ¬ (((L.Ed_Fd_addr + i * L.sizeof_ED_FD : Nat) : Int) < 0) :=
    not_lt.mpr (Int.ofNat_nonneg _)
  rw [muxmain_dispatch]
  simp only [hg, if_false]
  rfl

/-- The walk of `muxmain` over a table that the callbacks leave as it is: if it ends, the
callbacks made are `walk_events` of the table. -/
theorem muxmain_dispatch_static (E : Env) (L : Layout) (r w x : fd_set)
    (hE : ∀ cb fd d a s0 s2, E.fd_cb cb fd d a s0 = some s2 → s2.Ed_Fd = s0.Ed_Fd) :
    ∀ (rest : List ED_FD) (i : Nat) (s : State) (log : List Event) (s1 : State)
      (log1 : List Event), s.Ed_Fd.drop i = rest →
      muxmain_dispatch E L r w x rest.length i s log = some (s1, log1) →
      log1 = log ++ walk_events r w x rest ∧ s1.Ed_Fd = s.Ed_Fd := by
  intro rest
  induction rest with
  | nil =>
    intro i s log s1 log1 _ h
    simp only [List.length_nil, muxmain_dispatch, Option.some.injEq, Prod.mk.injEq] at h
    rw [← h.1, ← h.2]
    simp [walk_events]
  | cons e rest ih =>
    intro i s log s1 log1 hdrop h
    have hi : i < s.Ed_Fd.length := by
      by_contra hc
      rw [List.drop_eq_nil_of_le (by omega)] at hdrop
      exact absurd hdrop (by simp)
    have hget : s.Ed_Fd.getD i default = e := by
      rw [List.getD_eq_getElem?_getD, List.getElem?_eq_getElem hi]
      have := List.drop_eq_getElem_cons hi
      rw [this] at hdrop
      simp only [Option.getD_some]
      exact (List.cons.inj hdrop).1
    have hdrop2 : s.Ed_Fd.drop (i + 1) = rest := by
      have := List.drop_eq_getElem_cons hi
      rw [this] at hdrop
      exact (List.cons.inj hdrop).2
    rw [List.length_cons, muxmain_dispatch_step, hget] at h
    unfold walk_events
    rw [List.filterMap_cons]
    split at h
    · rename_i hact
      rw [if_pos hact]
      split at h
      · exact absurd h (by simp)
      · rename_i sc hsc
        have hEd := hE _ _ _ _ _ _ hsc
        have := ih (i + 1) sc _ s1 log1 (by rw [hEd]; exact hdrop2) h
        rw [this.1, this.2, hEd]
        simp [walk_events]
    · rename_i hact
      rw [if_neg hact]
      exact ih (i + 1) s log s1 log1 hdrop2 h

/-- The walk of `muxmain` ends when its callbacks return. -/
theorem muxmain_dispatch_returns (E : Env) (L : Layout) (r w x : fd_set)
    (hE : ∀ cb fd d a s0, ∃ s2, E.fd_cb cb fd d a s0 = some s2) :
    ∀ (n i : Nat) (s : State) (log : List Event),
      ∃ s1 log1, muxmain_dispatch E L r w x n i s log = some (s1, log1) := by
  intro n
  induction n with
  | zero =>
    intro i s log
    exact ⟨s, log, rfl⟩
  | succ n ih =>
    intro i s log
    rw [muxmain_dispatch_step]
    split
    · obtain ⟨s2, hs2⟩ := hE (s.Ed_Fd.getD i default).scb (s.Ed_Fd.getD i default).fd
        (s.Ed_Fd.getD i default).pcb_data (walk_activity r w x (s.Ed_Fd.getD i default).fd) s
      rw [hs2]
      exact ih _ _ _
    · exact ih _ _ _

/-- C14 (evaluation at the failing input): `add_fd(62, ED_READ, 7, 0)`,
`add_fd(63, ED_READ, 8, 0)` and `del_fd(62)` on a table of two free slots leave slot 0
free, still holding callback 7, and descriptor 63 in slot 1.  A wait that finds
descriptor 63 readable returns the read set `{63}`.  The only occupied slot whose
descriptor is in a result set is slot 1, so one callback is due, callback 8 with
descriptor 63.  The walk calls callback 7 of the free slot first, with descriptor `-1`
and the activity `ED_READ`: the guard before the tests compares the address of the slot,
and `FD_ISSET(-1, ...)` reads bit 63 of the read set.  The same holds for the whole
iteration of the loop of `muxmain`. -/
theorem C14_dispatch_calls_freed_slot :
    (add_fd_seq [(62, ED_READ, 7, 0), (63, ED_READ, 8, 0)] emptyTwo).map (del_fd 62)
      = some staleAndReady ∧
    ready_events [63] [] [] staleAndReady.Ed_Fd = [Event.fd 8 63 0 ED_READ] ∧
    muxmain_dispatch quietEnv exLayout [63] [] [] 2 0 staleAndReady [] =
      some (staleAndReady, [Event.fd 7 (-1) 0 ED_READ, Event.fd 8 63 0 ED_READ]) ∧
    muxmain_iter quietEnv exLayout (some ⟨0, 1000⟩) selectAllReady staleAndReady =
      some (staleAndReady,
        [Event.select 64 [63] [] [] none, Event.fd 7 (-1) 0 ED_READ,
          Event.fd 8 63 0 ED_READ]) := by
  refine ⟨by decide, by decide, by decide, by decide⟩

/-- C15 (as stated, refuted): descriptors 3 and 4 are both readable when the wait returns.
With callbacks that do nothing both slots are called back.  When the callback of
descriptor 3 calls `del_fd(4)`, slot 1 is no longer called back in the same scan. -/
theorem C15_del_fd_in_callback_changes_scan :
    muxmain_dispatch quietEnv exLayout [3, 4] [] [] 2 0 twoReaders [] =
      some (twoReaders, [Event.fd 7 3 0 ED_READ, Event.fd 8 4 0 ED_READ]) ∧
    muxmain_dispatch delFdEnv exLayout [3, 4] [] [] 2 0 twoReaders [] =
      some (del_fd 4 twoReaders, [Event.fd 7 3 0 ED_READ]) := by
  refine ⟨by decide, by decide⟩

/-- C15 (amended): when the callbacks invoked in a scan leave the descriptor table as it
is, the callbacks made are determined by the table as it stood when the wait returned and
by the result sets alone.  The table itself is read slot by slot: each step of the scan
judges slot `i` by what the globals hold at that moment, so that a callback that calls
`add_fd` or `del_fd` changes whether a later slot it fills or frees is called back in the
same scan. -/
theorem C15_dispatch_follows_live_table (E : Env) (L : Layout) (r w x : fd_set) :
    (∀ (s s1 : State) (log1 : List Event),
      (∀ cb fd d a s0 s2, E.fd_cb cb fd d a s0 = some s2 → s2.Ed_Fd = s0.Ed_Fd) →
      muxmain_dispatch E L r w x s.Ed_Fd.length 0 s [] = some (s1, log1) →
      log1 = walk_events r w x s.Ed_Fd) ∧
    (∀ (n i : Nat) (s : State) (log : List Event),
      muxmain_dispatch E L r w x (n + 1) i s log =
        if walk_activity r w x (s.Ed_Fd.getD i default).fd ≠ 0 ∧
            (s.Ed_Fd.getD i default).scb ≠ 0 then
          match E.fd_cb (s.Ed_Fd.getD i default).scb (s.Ed_Fd.getD i default).fd
            (s.Ed_Fd.getD i default).pcb_data
            (walk_activity r w x (s.Ed_Fd.getD i default).fd) s with
          | none => none
          | some s1 =>
            muxmain_dispatch E L r w x n (i + 1) s1
              (log ++ [Event.fd (s.Ed_Fd.getD i default).scb (s.Ed_Fd.getD i default).fd
                (s.Ed_Fd.getD i default).pcb_data
                (walk_activity r w x (s.Ed_Fd.getD i default).fd)])
        else muxmain_dispatch E L r w x n (i + 1) s log) := by
  constructor
  · intro s s1 log1 hE hrun
    have := (muxmain_dispatch_static E L r w x hE s.Ed_Fd 0 s [] s1 log1
      (List.drop_zero _) hrun).1
    rw [this, List.nil_append]
  · intro n i s log
    exact muxmain_dispatch_step E L r w x n i s log

/-- C15 (amended) at two readers with callbacks that do nothing. -/
theorem C15_dispatch_follows_live_table_witness :
    (muxmain_dispatch quietEnv exLayout [3, 4] [] [] twoReaders.Ed_Fd.length 0 twoReaders [] =
      some (twoReaders, [Event.fd 7 3 0 ED_READ, Event.fd 8 4 0 ED_READ])) ∧
    [Event.fd 7 3 0 ED_READ, Event.fd 8 4 0 ED_READ] = walk_events [3, 4] [] [] twoReaders.Ed_Fd :=
  ⟨by decide,
   (C15_dispatch_follows_live_table quietEnv exLayout [3, 4] [] []).1 twoReaders twoReaders
     [Event.fd 7 3 0 ED_READ, Event.fd 8 4 0 ED_READ]
     (fun _ _ _ _ s0 s2 h => by
       simp only [quietEnv, Option.some.injEq] at h
       rw [← h])
     (by decide)⟩

/-! ## The invariant of the descriptor table (C17) -/

theorem add_fd_find_free (es : List ED_FD) (h : add_fd_find es ≠ es.length) :
    add_fd_find es < es.length ∧ (es.getD (add_fd_find es) default).fd = -1 := by
  induction es with
  | nil => simp [add_fd_find] at h
  | cons a es ih =>
    unfold add_fd_find at h ⊢
    by_cases ha : a.fd = -1
    · simp [ha]
    · simp only [ha, if_false] at h ⊢
      have h1 : add_fd_find es ≠ es.length := by
        intro hc
        apply h
        simp [hc]
      obtain ⟨h2, h3⟩ := ih h1
      exact ⟨by simpa using h2, by simpa using h3⟩

/-- The globals after `add_fd` returned: unchanged when the call was declined, and
otherwise the lowest free slot rewritten. -/
theorem add_fd_cases (fd stype : Int) (scb pcb_data : Nat) (s s1 : State)
    (h : add_fd fd stype scb pcb_data s = some s1) :
    ((scb = 0 ∨ fd ≤ 0) ∧ s1 = s) ∨
    (¬ (scb = 0 ∨ fd ≤ 0) ∧ add_fd_find s.Ed_Fd ≠ s.Ed_Fd.length ∧
      s1.Ed_Fd = s.Ed_Fd.set (add_fd_find s.Ed_Fd) ⟨fd, stype, scb, pcb_data⟩) := by
  unfold add_fd at h
  by_cases hd : scb = 0 ∨ fd ≤ 0
  · rw [if_pos hd] at h
    exact Or.inl ⟨hd, (Option.some.inj h).symm⟩
  · rw [if_neg hd] at h
    simp only at h
    by_cases hf : add_fd_find s.Ed_Fd = s.Ed_Fd.length
    · rw [if_pos hf] at h
      exact absurd h (by simp)
    · rw [if_neg hf] at h
      right
      refine ⟨hd, hf, ?_⟩
      rw [← Option.some.inj h]
      exact (update_fdsets_frame _).1

theorem del_fd_loop_held_le (fd x : Int) (es : List ED_FD) :
    ((del_fd_loop fd es).filter (fun e => e.fd ≠ -1 ∧ e.fd = x)).length ≤
      (es.filter (fun e => e.fd ≠ -1 ∧ e.fd = x)).length := by
  induction es with
  | nil => simp [del_fd_loop]
  | cons a es ih =>
    unfold del_fd_loop
    by_cases ha : a.fd = fd
    · rw [if_pos ha, List.filter_cons, List.filter_cons]
      have h1 : decide ((-1 : Int) ≠ -1 ∧ (-1 : Int) = x) = false := by simp
      simp only [h1, Bool.false_eq_true, if_false]
      split
      · simp
      · exact le_refl _
    · rw [if_neg ha, List.filter_cons, List.filter_cons]
      split
      · simp only [List.length_cons]
        omega
      · exact ih

theorem del_fd_FdTableOk (fd : Int) (s : State) (h : FdTableOk s) : FdTableOk (del_fd fd s) := by
  unfold FdTableOk del_fd at *
  rw [(update_fdsets_frame _).1]
  simp only
  constructor
  · intro x
    exact le_trans (del_fd_loop_held_le fd x s.Ed_Fd) (h.1 x)
  · intro e he hne
    rcases del_fd_loop_mem fd s.Ed_Fd e he with h1 | h1
    · exact h.2 e h1 hne
    · exact absurd h1 hne

theorem add_fd_keeps_callbacks (fd stype : Int) (scb pcb_data : Nat) (s s1 : State)
    (hcb : ∀ e ∈ s.Ed_Fd, e.fd ≠ -1 → e.scb ≠ 0)
    (h : add_fd fd stype scb pcb_data s = some s1) :
    ∀ e ∈ s1.Ed_Fd, e.fd ≠ -1 → e.scb ≠ 0 := by
  rcases add_fd_cases fd stype scb pcb_data s s1 h with ⟨_, h1⟩ | ⟨hv, _, h1⟩
  · rw [h1]
    exact hcb
  · intro e he hne
    rw [h1] at he
    rcases List.mem_or_eq_of_mem_set he with h2 | h2
    · exact hcb e h2 hne
    · rw [h2]
      exact fun hc => hv (Or.inl hc)

theorem add_fd_FdTableOk (fd stype : Int) (scb pcb_data : Nat) (s s1 : State)
    (hok : FdTableOk s) (hnew : (scb = 0 ∨ fd ≤ 0) ∨ ∀ e ∈ s.Ed_Fd, e.fd ≠ fd)
    (h : add_fd fd stype scb pcb_data s = some s1) : FdTableOk s1 := by
  refine ⟨?_, add_fd_keeps_callbacks fd stype scb pcb_data s s1 hok.2 h⟩
  rcases add_fd_cases fd stype scb pcb_data s s1 h with ⟨_, h1⟩ | ⟨hv, hf, h1⟩
  · rw [h1]
    exact hok.1
  · have hfresh : ∀ e ∈ s.Ed_Fd, e.fd ≠ fd := by
      rcases hnew with hd | hd
      · exact absurd hd hv
      · exact hd
    intro x
    rw [h1]
    obtain ⟨hlt, hfree⟩ := add_fd_find_free s.Ed_Fd hf
    have hset := filter_length_set (fun e : ED_FD => decide (e.fd ≠ -1 ∧ e.fd = x)) s.Ed_Fd
      (add_fd_find s.Ed_Fd) hlt ⟨fd, stype, scb, pcb_data⟩ default
    have hold : decide ((s.Ed_Fd.getD (add_fd_find s.Ed_Fd) default).fd ≠ -1 ∧
        (s.Ed_Fd.getD (add_fd_find s.Ed_Fd) default).fd = x) = false :=
      decide_eq_false (fun hc => hc.1 hfree)
    rw [hold] at hset
    simp only [Bool.false_eq_true, if_false, Nat.add_zero] at hset
    rw [hset]
    by_cases hx : fd = x
    · have hz : (s.Ed_Fd.filter (fun e => e.fd ≠ -1 ∧ e.fd = x)).length = 0 := by
        rw [List.length_eq_zero, List.filter_eq_nil_iff]
        intro e he
        have := hfresh e he
        rw [hx] at this
        simp [this]
      rw [hz]
      split <;> omega
    · have hn : decide (fd ≠ -1 ∧ fd = x) = false := decide_eq_false (fun hc => hx hc.2)
      simp only [hn, Bool.false_eq_true, if_false, Nat.add_zero]
      exact hok.1 x

/-- C17 (as stated, refuted): on a table of two free slots, which satisfies the
invariant, `add_fd(3, ...)` is called twice; both calls are accepted and descriptor 3 is
then held by two occupied slots. -/
theorem C17_add_fd_registers_twice :
    FdTableOk emptyTwo ∧
    ∃ s, add_fd_seq [(3, ED_READ, 7, 0), (3, ED_READ, 7, 0)] emptyTwo = some s ∧
      (s.Ed_Fd.filter (fun e => e.fd ≠ -1 ∧ e.fd = 3)).length = 2 ∧ ¬ FdTableOk s := by
  refine ⟨⟨fun fd => by simp [emptyTwo], by decide⟩,
    ⟨[⟨3, ED_READ, 7, 0⟩, ⟨3, ED_READ, 7, 0⟩], 2, 3, [3, 3], [], [], [], 0⟩, by decide,
    by decide, ?_⟩
  intro h
  exact absurd (h.1 3) (by decide)

/-- C17 (amended): the invariant holds for a table of free slots; every `del_fd` keeps
it; `add_fd` keeps it when the call is declined or the descriptor is not yet in the
table (`add_fd` does not look for it); and for all arguments and on every table, also one
that holds a descriptor twice, `add_fd` and `del_fd` keep the half that says that occupied
slots have callbacks. -/
theorem C17_fd_table_invariant :
    (∀ s : State, (∀ e ∈ s.Ed_Fd, e.fd = -1) → FdTableOk s) ∧
    (∀ (s : State) (fd : Int), FdTableOk s → FdTableOk (del_fd fd s)) ∧
    (∀ (s s1 : State) (fd stype : Int) (scb pcb_data : Nat), FdTableOk s →
      ((scb = 0 ∨ fd ≤ 0) ∨ ∀ e ∈ s.Ed_Fd, e.fd ≠ fd) →
      add_fd fd stype scb pcb_data s = some s1 → FdTableOk s1) ∧
    (∀ (s s1 : State) (fd stype : Int) (scb pcb_data : Nat),
      (∀ e ∈ s.Ed_Fd, e.fd ≠ -1 → e.scb ≠ 0) →
      add_fd fd stype scb pcb_data s = some s1 → ∀ e ∈ s1.Ed_Fd, e.fd ≠ -1 → e.scb ≠ 0) ∧
    (∀ (s : State) (fd : Int), (∀ e ∈ s.Ed_Fd, e.fd ≠ -1 → e.scb ≠ 0) →
      ∀ e ∈ (del_fd fd s).Ed_Fd, e.fd ≠ -1 → e.scb ≠ 0) := by
  refine ⟨?_, ?_, ?_, ?_, ?_⟩
  · intro s hall
    constructor
    · intro fd
      have : s.Ed_Fd.filter (fun e => e.fd ≠ -1 ∧ e.fd = fd) = [] := by
        rw [List.filter_eq_nil_iff]
        intro e he
        simp [hall e he]
      rw [this]
      exact Nat.zero_le _
    · intro e he hne
      exact absurd (hall e he) hne
  · intro s fd h
    exact del_fd_FdTableOk fd s h
  · intro s s1 fd stype scb pcb_data hok hnew h
    exact add_fd_FdTableOk fd stype scb pcb_data s s1 hok hnew h
  · intro s s1 fd stype scb pcb_data hcb h
    exact add_fd_keeps_callbacks fd stype scb pcb_data s s1 hcb h
  · intro s fd hcb e he hne
    unfold del_fd at he
    rw [(update_fdsets_frame _).1] at he
    rcases del_fd_loop_mem fd s.Ed_Fd e he with h | h
    · exact hcb e h hne
    · exact absurd h hne

/-- C17 (amended) at a table of two free slots: a first registration of descriptor 3 and
its removal; and at the table that holds descriptor 3 twice, where `del_fd(3)` keeps the
callbacks of the occupied slots. -/
theorem C17_fd_table_invariant_witness :
    (∀ e ∈ emptyTwo.Ed_Fd, e.fd = -1) ∧ FdTableOk emptyTwo ∧
    add_fd 3 ED_READ 7 0 emptyTwo =
      some ⟨[⟨3, ED_READ, 7, 0⟩, ⟨-1, 0, 0, 0⟩], 1, 3, [3], [], [], [], 0⟩ ∧
    FdTableOk ⟨[⟨3, ED_READ, 7, 0⟩, ⟨-1, 0, 0, 0⟩], 1, 3, [3], [], [], [], 0⟩ ∧
    FdTableOk (del_fd 3 ⟨[⟨3, ED_READ, 7, 0⟩, ⟨-1, 0, 0, 0⟩], 1, 3, [3], [], [], [], 0⟩) ∧
    (∀ e ∈ threeTwice.Ed_Fd, e.fd ≠ -1 → e.scb ≠ 0) ∧
    ∀ e ∈ (del_fd 3 threeTwice).Ed_Fd, e.fd ≠ -1 → e.scb ≠ 0 :=
  ⟨by decide, C17_fd_table_invariant.1 emptyTwo (by decide), by decide,
   C17_fd_table_invariant.2.2.1 emptyTwo _ 3 ED_READ 7 0
     (C17_fd_table_invariant.1 emptyTwo (by decide)) (Or.inr (by decide)) (by decide),
   C17_fd_table_invariant.2.1 _ 3
     (C17_fd_table_invariant.2.2.1 emptyTwo _ 3 ED_READ 7 0
       (C17_fd_table_invariant.1 emptyTwo (by decide)) (Or.inr (by decide)) (by decide)),
   by decide, C17_fd_table_invariant.2.2.2.2 threeTwice 3 (by decide)⟩

/-! ## The sets handed to `select` (C18) and the guard of the walk (C19) -/

/-- C18 (evaluation at the failing input): descriptor 3 is watched and a oneshot timer is
due.  The local sets are copied from the cached ones before `doTimer` runs, `mxfd` is read
after it.  When the timer callback calls `add_fd(5, ED_READ, ...)`, `select` is called
with `nfds = 6` and the read set `{3}`: descriptor 5 is not watched in this iteration.
When the timer callback calls `del_fd(3)`, `select` is called with `nfds = 0` and the read
set `{3}`: the removed descriptor is still in the set, which does not fit the bound. -/
theorem C18_sets_copied_before_timer_pass :
    muxmain_iter addFdEnv exLayout (some ⟨0, 1000⟩) selectTimeout readerAndTimer =
      some (⟨[⟨3, ED_READ, 7, 0⟩, ⟨5, ED_READ, 7, 0⟩], 2, 5, [5, 3], [], [],
              [⟨ED_UNUSED, 500, 0, 11, 0⟩], 0⟩,
            [Event.timer 11 1000 0, Event.select 6 [3] [] [] none]) ∧
    muxmain_iter delFdTimerEnv exLayout (some ⟨0, 1000⟩) selectTimeout readerAndTimer =
      some (⟨[⟨-1, ED_READ, 7, 0⟩, ⟨-1, 0, 0, 0⟩], 0, -1, [], [], [],
              [⟨ED_UNUSED, 500, 0, 11, 0⟩], 0⟩,
            [Event.timer 11 1000 0, Event.select 0 [3] [] [] none]) := by
  refine ⟨by decide, by decide⟩

/-- C19 (evaluation at the failing input): after `del_fd(3)` the only slot is free and
still holds callback 7.  The walk does not skip it: the guard compares the address of the
slot with 0, so `FD_ISSET` is called with the descriptor `-1` for each of the three sets.
For `-1` the macro addresses bit 63 of the set; and whenever that test answers true
(here: a read set in which bit 63 is set) the callback of the freed slot is called, with
descriptor `-1`. -/
theorem C19_free_slot_is_tested :
    (del_fd 3 oneReader).Ed_Fd = [⟨-1, ED_READ, 7, 0⟩] ∧
    muxmain_probes exLayout 0 (del_fd 3 oneReader).Ed_Fd = [-1, -1, -1] ∧
    FD_ISSET (-1) [63] = true ∧
    muxmain_dispatch quietEnv exLayout [63] [] [] 1 0 (del_fd 3 oneReader) [] =
      some (del_fd 3 oneReader, [Event.fd 7 (-1) 0 ED_READ]) := by
  refine ⟨by decide, by decide, by decide, by decide⟩

end Eedd
